import Mathlib

/-!
# Thermal printer driver of the HaD 2017 camera badge

A shallow embedding of `cambadge.X/Adafruit_Thermal.c` and theorems about it.

Conventions of the embedding.

* The driver's globals and the part of the badge it touches (the millisecond
  tick counter, the UART receive buffer, the DTR pin) are the fields of one
  record `State`; every C function is a function on `State`.
* `uint8_t` and `unsigned long` values are natural numbers; a reduction
  `% 256` or `% 2^32` is written wherever the C code stores or converts into
  the narrower type.  `int` locals are integers.
* The byte sink `u2txbyte`, the timing calls and `delayus` leave a trace in the
  field `log`, in program order.  The log is an observation of the run, not a
  variable of the program.
* The clock is the badge's tick counter `systick_ms`; between two clock reads
  of the driver it stands still, except inside the busy-wait loop of
  `therm_timeoutWait` (one tick per failed test) and inside `priv_delay`.
* A function that can wait forever, divide by zero or read outside its
  buffer returns `Except Fault _`.
* The compile-time constant `PRINTER_FIRMWARE` is the parameter `fw`.
* The source defines several functions under a doubled prefix
  (`therm_therm_timeoutSet`, `therm_therm_wake`, ...) and calls them under the
  single prefix declared in the header; a call of `therm_X` is read as a call
  of the definition `therm_therm_X`.
-/

namespace Thermal

deriving instance DecidableEq for Except

/-- What can go wrong in a run of the driver. -/
inductive Fault where
  /-- a busy-wait loop whose exit condition never came true -/
  | hang
  /-- integer division by zero -/
  | divByZero
  /-- a read outside the buffer handed to the driver -/
  | outOfBounds
  /-- a loop that was still running when the iteration budget ended -/
  | outOfFuel
deriving DecidableEq, Repr

/-- Observable events of a run, in program order. -/
inductive Ev where
  /-- `therm_timeoutWait()` was called and returned -/
  | wait
  /-- the byte was handed to `u2txbyte` -/
  | tx (b : Nat)
  /-- `therm_timeoutSet(x)` was called -/
  | arm (x : Nat)
  /-- `priv_delay(ms)` was called -/
  | delay (ms : Nat)
deriving DecidableEq, Repr

/-- The globals of `Adafruit_Thermal.c`, the badge globals it reads, and the
run's log. -/
structure State where
  printMode : Nat
  /-- last character issued to printer -/
  prevByte : Nat
  /-- last horizontal column printed -/
  column : Nat
  /-- page width (output wraps at this point) -/
  maxColumn : Nat
  charHeight : Nat
  lineSpacing : Nat
  barcodeHeight : Nat
  maxChunkHeight : Nat
  dtrPin : Nat
  dtrEnabled : Bool
  resumeTime : Nat
  dotPrintTime : Nat
  dotFeedTime : Nat
  /-- the badge's millisecond tick counter -/
  systick_ms : Nat
  /-- the UART receive buffer of the badge -/
  rxbuf : List Nat
  /-- number of bytes waiting in `rxbuf` -/
  rxptr : Nat
  /-- contents `(rxbuf, rxptr)` the receive interrupt leaves behind during
  each coming `priv_delay` -/
  rxFuture : List (List Nat × Nat)
  /-- coming readings of the DTR pin, `true` for high -/
  pin : List Bool
  log : List Ev
deriving DecidableEq, Repr

/-- Reduction of a value stored in a `uint8_t`. -/
def u8 (x : Nat) : Nat := x % 256

/-- Reduction of a value stored in an `unsigned long` (32 bits on the badge). -/
def u32 (x : Nat) : Nat := x % 4294967296

/-- Conversion of a 32-bit unsigned value to `long`. -/
def toLong (x : Nat) : Int := if x < 2147483648 then (x : Int) else (x : Int) - 4294967296

/-- The value an `int` takes when it is assigned the integer `x`: 32 bits,
two's complement (what the build does when signed arithmetic overflows). -/
def i32 (x : Int) : Int := toLong (x % 4294967296).toNat

def BAUDRATE : Nat := 19200
def ASCII_TAB : Nat := 9
def ASCII_LF : Nat := 10
def ASCII_FF : Nat := 12
def ASCII_CR : Nat := 13
def ASCII_DC2 : Nat := 18
def ASCII_ESC : Nat := 27
def ASCII_FS : Nat := 28
def ASCII_GS : Nat := 29
def HIGH : Nat := 1
def LOW : Nat := 0

/-- Number of microseconds to issue one byte to the printer. -/
def BYTE_TIME : Nat := ((11 * 1000000) + (BAUDRATE / 2)) / BAUDRATE

/-- The bytes handed to the byte sink so far, oldest first. -/
def sent (s : State) : List Nat :=
  s.log.filterMap (fun e => match e with
    | Ev.tx b => some b
    | _ => none)

/-- The arguments of the calls of `therm_timeoutSet` so far, oldest first. -/
def arms (s : State) : List Nat :=
  s.log.filterMap (fun e => match e with
    | Ev.arm x => some x
    | _ => none)

/-- Adds one event to the log. -/
def record (e : Ev) (s : State) : State := { s with log := s.log ++ [e] }

-- -------- HaD interface code

def priv_writeByteToUART (b : Nat) (s : State) : State := record (Ev.tx b) s

def priv_UARThasBytes (s : State) : Bool := s.rxptr != 0

/-- The loop `for (i=0; i < rxptr; i++) rxbuf[i] = rxbuf[i+1];`, with `n`
iterations to go.  The element one past `rxbuf` reads as an error. -/
def shiftLoop : Nat → Nat → List Nat → Except Fault (List Nat)
  | 0, _, buf => pure buf
  | n + 1, i, buf =>
    match buf.get? (i + 1) with
    | none => throw Fault.outOfBounds
    | some v => shiftLoop n (i + 1) (buf.set i v)

/-- The counter `i` of the shift loop is an `int8_t`: the loop is followed
only as far as the counter stays in range. -/
def priv_readByteFromUART (s : State) : Except Fault (Int × State) :=
  if s.rxptr != 0 then
    match s.rxbuf.get? 0 with
    | none => throw Fault.outOfBounds
    | some data =>
      if 127 < s.rxptr then throw Fault.outOfBounds
      else do
        let buf ← shiftLoop s.rxptr 0 s.rxbuf
        pure ((data : Int), { s with rxbuf := buf, rxptr := s.rxptr - 1 })
  else pure (-1, s)

def priv_readDTRpin (level : Bool) : Nat := if level then HIGH else LOW

def micros (s : State) : Nat := u32 (s.systick_ms * 1000)

/-- The call `delayus(delay_time_ms * 1000)`: the clock moves on by the
delay and the receive interrupt may refill the receive buffer. -/
def priv_delay (delay_time_ms : Nat) (s : State) : State :=
  let s1 := record (Ev.delay delay_time_ms) { s with systick_ms := s.systick_ms + delay_time_ms }
  match s1.rxFuture with
  | [] => s1
  | (buf, n) :: rest => { s1 with rxbuf := buf, rxptr := n, rxFuture := rest }

-- -------- Printer code

def therm_init (s : State) : State := { s with dtrEnabled := false }

/-- Sets the estimated completion time for a just-issued task. -/
def therm_therm_timeoutSet (x : Nat) (s : State) : State :=
  let s1 := record (Ev.arm (u32 x)) s
  if s.dtrEnabled then s1 else { s1 with resumeTime := u32 (micros s + u32 x) }

/-- The loop `while(priv_readDTRpin() == HIGH);` over the coming pin readings;
`none` when every reading left is high. -/
def pinLoop : List Bool → Option (List Bool)
  | [] => none
  | level :: rest => if priv_readDTRpin level = HIGH then pinLoop rest else some rest

/-- The test `(long)(micros() - resumeTime) < 0L` at tick count `ms`. -/
def stillEarly (resumeTime ms : Nat) : Bool :=
  decide (toLong (u32 (u32 (ms * 1000) + 4294967296 - u32 resumeTime)) < 0)

/-- The loop `while((long)(micros() - resumeTime) < 0L);` from tick `ms`, the
clock moving one tick per failed test; the result is the tick at which the
loop ends. -/
def clockLoop (resumeTime : Nat) : Nat → Nat → Option Nat
  | 0, _ => none
  | fuel + 1, ms => if stillEarly resumeTime ms then clockLoop resumeTime fuel (ms + 1) else some ms

/-- Iteration budget of the clock loop: more ticks than half a turn of the
32-bit microsecond counter takes. -/
def spinFuel : Nat := 2147485

/-- Waits (if necessary) for the prior task to complete. -/
def therm_therm_timeoutWait (s : State) : Except Fault State :=
  if s.dtrEnabled then
    match pinLoop s.pin with
    | none => throw Fault.hang
    | some rest => pure (record Ev.wait { s with pin := rest })
  else
    match clockLoop s.resumeTime spinFuel s.systick_ms with
    | none => throw Fault.hang
    | some ms => pure (record Ev.wait { s with systick_ms := ms })

def therm_setTimes (p f : Nat) (s : State) : State :=
  { s with dotPrintTime := u32 p, dotFeedTime := u32 f }

def priv_writeBytes (a : Nat) (s : State) : Except Fault State := do
  let s ← therm_therm_timeoutWait s
  let s := priv_writeByteToUART a s
  pure (therm_therm_timeoutSet BYTE_TIME s)

def priv_write2Bytes (a b : Nat) (s : State) : Except Fault State := do
  let s ← therm_therm_timeoutWait s
  let s := priv_writeByteToUART a s
  let s := priv_writeByteToUART b s
  pure (therm_therm_timeoutSet (2 * BYTE_TIME) s)

def priv_write3Bytes (a b c : Nat) (s : State) : Except Fault State := do
  let s ← therm_therm_timeoutWait s
  let s := priv_writeByteToUART a s
  let s := priv_writeByteToUART b s
  let s := priv_writeByteToUART c s
  pure (therm_therm_timeoutSet (3 * BYTE_TIME) s)

def priv_write4Bytes (a b c d : Nat) (s : State) : Except Fault State := do
  let s ← therm_therm_timeoutWait s
  let s := priv_writeByteToUART a s
  let s := priv_writeByteToUART b s
  let s := priv_writeByteToUART c s
  let s := priv_writeByteToUART d s
  pure (therm_therm_timeoutSet (4 * BYTE_TIME) s)

/-- The underlying method for all high-level printing; the result carries the
returned count. -/
def write (c : Nat) (s : State) : Except Fault (Nat × State) :=
  if c ≠ 0x13 then do -- Strip carriage returns
    let s ← therm_therm_timeoutWait s
    let s := priv_writeByteToUART c s
    let d := BYTE_TIME
    if c = ASCII_LF ∨ s.column = s.maxColumn then -- If newline or wrap
      let d := u32 (d +
        (if s.prevByte = ASCII_LF then
          u32 ((s.charHeight + s.lineSpacing) * s.dotFeedTime) -- Feed line
        else
          u32 (u32 (s.charHeight * s.dotPrintTime) + u32 (s.lineSpacing * s.dotFeedTime)))) -- Text line
      let s := { s with column := 0 }
      let c := ASCII_LF -- Treat wrap as newline on next pass
      let s := therm_therm_timeoutSet d s
      pure (1, { s with prevByte := c })
    else
      let s := { s with column := u8 (s.column + 1) }
      let s := therm_therm_timeoutSet d s
      pure (1, { s with prevByte := c })
  else pure (1, s)

/-- Conversion of an `int` to `uint8_t`. -/
def u8i (x : Int) : Nat := (x % 256).toNat

def therm_setBarcodeHeight (val : Nat) (s : State) : Except Fault State :=
  let val := if val < 1 then 1 else val
  let s := { s with barcodeHeight := val }
  priv_write3Bytes ASCII_GS 104 val s

-- === Character commands ===

def INVERSE_MASK : Nat := 1 <<< 1
def UPDOWN_MASK : Nat := 1 <<< 2
def BOLD_MASK : Nat := 1 <<< 3
def DOUBLE_HEIGHT_MASK : Nat := 1 <<< 4
def DOUBLE_WIDTH_MASK : Nat := 1 <<< 5
def STRIKE_MASK : Nat := 1 <<< 6

def priv_writePrintMode (s : State) : Except Fault State :=
  priv_write3Bytes ASCII_ESC 33 s.printMode s

def priv_setPrintMode (mask : Nat) (s : State) : Except Fault State := do
  let s := { s with printMode := s.printMode ||| mask }
  let s ← priv_writePrintMode s
  let s := { s with charHeight := if s.printMode &&& DOUBLE_HEIGHT_MASK ≠ 0 then 48 else 24 }
  pure { s with maxColumn := if s.printMode &&& DOUBLE_WIDTH_MASK ≠ 0 then 16 else 32 }

def priv_unsetPrintMode (mask : Nat) (s : State) : Except Fault State := do
  let s := { s with printMode := s.printMode &&& (255 - u8 mask) }
  let s ← priv_writePrintMode s
  let s := { s with charHeight := if s.printMode &&& DOUBLE_HEIGHT_MASK ≠ 0 then 48 else 24 }
  pure { s with maxColumn := if s.printMode &&& DOUBLE_WIDTH_MASK ≠ 0 then 16 else 32 }

def therm_normal (s : State) : Except Fault State :=
  priv_writePrintMode { s with printMode := 0 }

def therm_inverseOn (fw : Nat) (s : State) : Except Fault State :=
  if fw ≥ 268 then priv_write3Bytes ASCII_GS 66 1 s
  else priv_setPrintMode INVERSE_MASK s

def therm_therm_inverseOff (fw : Nat) (s : State) : Except Fault State :=
  if fw ≥ 268 then priv_write3Bytes ASCII_GS 66 0 s
  else priv_unsetPrintMode INVERSE_MASK s

def therm_upsideDownOn (s : State) : Except Fault State := priv_setPrintMode UPDOWN_MASK s
def therm_upsideDownOff (s : State) : Except Fault State := priv_unsetPrintMode UPDOWN_MASK s
def therm_doubleHeightOn (s : State) : Except Fault State := priv_setPrintMode DOUBLE_HEIGHT_MASK s
def therm_therm_doubleHeightOff (s : State) : Except Fault State :=
  priv_unsetPrintMode DOUBLE_HEIGHT_MASK s
def therm_doubleWidthOn (s : State) : Except Fault State := priv_setPrintMode DOUBLE_WIDTH_MASK s
def therm_doubleWidthOff (s : State) : Except Fault State := priv_unsetPrintMode DOUBLE_WIDTH_MASK s
def therm_strikeOn (s : State) : Except Fault State := priv_setPrintMode STRIKE_MASK s
def therm_strikeOff (s : State) : Except Fault State := priv_unsetPrintMode STRIKE_MASK s
def therm_boldOn (s : State) : Except Fault State := priv_setPrintMode BOLD_MASK s
def therm_therm_boldOff (s : State) : Except Fault State := priv_unsetPrintMode BOLD_MASK s

/-- The C library's `toupper` on a character code. -/
def toupper (c : Nat) : Nat := if 97 ≤ c ∧ c ≤ 122 then c - 32 else c

def therm_justify (value : Nat) (s : State) : Except Fault State :=
  let pos :=
    if toupper value = 76 then 0
    else if toupper value = 67 then 1
    else if toupper value = 82 then 2
    else 0
  priv_write3Bytes ASCII_ESC 97 pos s

/-- The loop `while(x--) write(10);` of the old-firmware feed. -/
def feedLoop : Nat → State → Except Fault State
  | 0, s => pure s
  | x + 1, s => do
    let r ← write ASCII_LF s
    feedLoop x r.2

/-- Feeds by the specified number of lines. -/
def therm_feed (fw : Nat) (x : Nat) (s : State) : Except Fault State :=
  if fw ≥ 264 then do
    let s ← priv_write3Bytes ASCII_ESC 100 x s
    let s := therm_therm_timeoutSet (u32 (s.dotFeedTime * s.charHeight)) s
    pure { s with prevByte := ASCII_LF, column := 0 }
  else feedLoop x s -- Feed manually; old firmware feeds excess lines

/-- Feeds by the specified number of individual pixel rows. -/
def therm_feedRows (rows : Nat) (s : State) : Except Fault State := do
  let s ← priv_write3Bytes ASCII_ESC 74 rows s
  let s := therm_therm_timeoutSet (u32 (rows * s.dotFeedTime)) s
  pure { s with prevByte := ASCII_LF, column := 0 }

def therm_flush (s : State) : Except Fault State := priv_writeBytes ASCII_FF s

def therm_setSize (value : Nat) (s : State) : Except Fault State := do
  let size := if toupper value = 77 then 0x01 else if toupper value = 76 then 0x11 else 0x00
  let s :=
    if toupper value = 77 then { s with charHeight := 48, maxColumn := 32 } -- Medium
    else if toupper value = 76 then { s with charHeight := 48, maxColumn := 16 } -- Large
    else { s with charHeight := 24, maxColumn := 32 } -- Small
  let s ← priv_write3Bytes ASCII_GS 33 size s
  pure { s with prevByte := ASCII_LF } -- Setting the size adds a linefeed

def therm_underlineOn (weight : Nat) (s : State) : Except Fault State :=
  let weight := if weight > 2 then 2 else weight
  priv_write3Bytes ASCII_ESC 45 weight s

def therm_therm_underlineOff (s : State) : Except Fault State := priv_write3Bytes ASCII_ESC 45 0 s

-- === Barcodes ===

/-- Number of characters before the first NUL of the string `text`, which is
stored as the list `text` followed by a terminating NUL. -/
def strlen (text : List Nat) : Nat := (text.takeWhile (fun c => c != 0)).length

/-- The read `text[i]` of a string stored as `text` followed by a NUL. -/
def charAt (text : List Nat) (i : Nat) : Except Fault Nat :=
  match (text ++ [0]).get? i with
  | none => throw Fault.outOfBounds
  | some c => pure c

/-- The loop `for(i=0; i<len; i++) priv_writeBytes(text[i]);` with `n`
iterations to go. -/
def barcodeDataLoop (text : List Nat) : Nat → Nat → State → Except Fault State
  | 0, _, s => pure s
  | n + 1, i, s => do
    let c ← charAt text i
    let s ← priv_writeBytes c s
    barcodeDataLoop text n (i + 1) s

/-- The loop `do { priv_writeBytes(c = text[i++]); } while(c);` of the `#else`
branch of `therm_printBarcode`, with `fuel` bounding the number of passes.
The header fixes PRINTER_FIRMWARE at 268, so the branch is not selected, and
as written it declares `i` a second time in the same scope; the loop is given
here with the one `uint8_t` index only so that `therm_printBarcode` has a
value for every firmware number. -/
def barcodeCopyLoop (text : List Nat) : Nat → Nat → State → Except Fault State
  | 0, _, _ => throw Fault.outOfFuel
  | fuel + 1, i, s => do
    let c ← charAt text i
    let s ← priv_writeBytes c s
    if c ≠ 0 then barcodeCopyLoop text fuel (u8 (i + 1)) s else pure s

/-- The data frame of `therm_printBarcode`, chosen by
`#if PRINTER_FIRMWARE >= 264`. -/
def barcodeData (fw fuel : Nat) (text : List Nat) (s : State) : Except Fault State :=
  if fw ≥ 264 then do
    let len := strlen text
    let len := if len > 255 then 255 else len
    let s ← priv_writeBytes (u8 len) s -- Write length byte
    barcodeDataLoop text len 0 s -- Write string sans NUL
  else barcodeCopyLoop text fuel 0 s -- Copy string + NUL terminator

def therm_printBarcode (fw fuel : Nat) (text : List Nat) (type : Nat) (s : State) :
    Except Fault State := do
  let s ← therm_feed fw 1 s -- Recent firmware can't print barcode w/o feed first???
  let s ← priv_write3Bytes ASCII_GS 72 2 s -- Print label below barcode
  let s ← priv_write3Bytes ASCII_GS 119 3 s -- Barcode width 3
  let s ← priv_write3Bytes ASCII_GS 107 type s -- Barcode type
  let s ← barcodeData fw fuel text s
  let s := therm_therm_timeoutSet (u32 ((s.barcodeHeight + 40) * s.dotPrintTime)) s
  pure { s with prevByte := ASCII_LF }

-- === Bitmaps ===

/-- The read `*(bitmap+i)`. -/
def bitmapAt (bitmap : List Nat) (i : Int) : Except Fault Nat :=
  if i < 0 then throw Fault.outOfBounds
  else match bitmap.get? i.toNat with
    | none => throw Fault.outOfBounds
    | some b => pure b

/-- The loop `for(x=0; x < rowBytesClipped; x++, i++)` with `n` iterations to
go; the result carries the source position `i`, an `int`. -/
def bitmapRowLoop (bitmap : List Nat) : Nat → Int → State → Except Fault (Int × State)
  | 0, i, s => pure (i, s)
  | n + 1, i, s => do
    let s ← therm_therm_timeoutWait s
    let b ← bitmapAt bitmap i
    let s := priv_writeByteToUART b s
    bitmapRowLoop bitmap n (i32 (i + 1)) s

/-- The loop `for(y=0; y < chunkHeight; y++)` with `n` iterations to go; each
row ends with `i += rowBytes - rowBytesClipped` in `int` arithmetic. -/
def bitmapChunkRows (bitmap : List Nat) (rowBytes rowBytesClipped : Int) :
    Nat → Int → State → Except Fault (Int × State)
  | 0, i, s => pure (i, s)
  | n + 1, i, s => do
    let r ← bitmapRowLoop bitmap rowBytesClipped.toNat i s
    bitmapChunkRows bitmap rowBytes rowBytesClipped n
      (i32 (r.1 + i32 (rowBytes - rowBytesClipped))) r.2

/-- Est. max rows to write at once, assuming 256 byte printer buffer. -/
def chunkHeightLimit (rowBytesClipped : Int) (s : State) : Except Fault Int :=
  if s.dtrEnabled then pure 255 -- Buffer doesn't matter, handshake!
  else if rowBytesClipped = 0 then throw Fault.divByZero
  else
    let chunkHeightLimit := Int.tdiv 256 rowBytesClipped
    if chunkHeightLimit > (s.maxChunkHeight : Int) then pure (s.maxChunkHeight : Int)
    else if chunkHeightLimit < 1 then pure 1
    else pure chunkHeightLimit

/-- The loop `for(i=rowStart=0; rowStart < h; rowStart += chunkHeightLimit)`,
the counters being `int`s; `fuel` bounds the number of passes. -/
def bitmapLoop (h : Int) (bitmap : List Nat) (rowBytes rowBytesClipped chunkHeightLimit : Int) :
    Nat → Int → Int → State → Except Fault State
  | fuel, rowStart, i, s =>
    if rowStart < h then
      match fuel with
      | 0 => throw Fault.outOfFuel
      | fuel + 1 => do
        -- Issue up to chunkHeightLimit rows at a time:
        let chunkHeight := i32 (h - rowStart)
        let chunkHeight := if chunkHeight > chunkHeightLimit then chunkHeightLimit else chunkHeight
        let s ← priv_write4Bytes ASCII_DC2 42 (u8i chunkHeight) (u8i rowBytesClipped) s
        let r ← bitmapChunkRows bitmap rowBytes rowBytesClipped chunkHeight.toNat i s
        let s := therm_therm_timeoutSet (u32 ((chunkHeight % 4294967296).toNat * r.2.dotPrintTime)) r.2
        bitmapLoop h bitmap rowBytes rowBytesClipped chunkHeightLimit fuel
          (i32 (rowStart + chunkHeightLimit)) r.1 s
    else pure s

/-- The assignment `rowBytes = (w + 7) / 8` in `int` arithmetic: round up to
next byte boundary. -/
def rowBytesOf (w : Int) : Int := Int.tdiv (i32 (w + 7)) 8

/-- The assignment `rowBytesClipped = (rowBytes >= 48) ? 48 : rowBytes`: 384
pixels max width. -/
def rowBytesClippedOf (w : Int) : Int := if rowBytesOf w ≥ 48 then 48 else rowBytesOf w

def therm_printBitmap (fuel : Nat) (w h : Int) (bitmap : List Nat) (s : State) :
    Except Fault State := do
  let rowBytes := rowBytesOf w
  let rowBytesClipped := rowBytesClippedOf w
  let chunkHeightLimit ← chunkHeightLimit rowBytesClipped s
  let s ← bitmapLoop h bitmap rowBytes rowBytesClipped chunkHeightLimit fuel 0 0 s
  pure { s with prevByte := ASCII_LF }

-- === Power, status and settings ===

def therm_offline (s : State) : Except Fault State := priv_write3Bytes ASCII_ESC 61 0 s

def therm_therm_online (s : State) : Except Fault State := priv_write3Bytes ASCII_ESC 61 1 s

/-- Put the printer into a low-energy state after the given number of
seconds (a `uint16_t`). -/
def therm_sleepAfter (fw : Nat) (seconds : Nat) (s : State) : Except Fault State :=
  if fw ≥ 264 then priv_write4Bytes ASCII_ESC 56 (u8 seconds) (u8 (seconds >>> 8)) s
  else priv_write3Bytes ASCII_ESC 56 (u8 seconds) s

def therm_sleep (fw : Nat) (s : State) : Except Fault State :=
  therm_sleepAfter fw 1 s -- Can't be 0, that means 'don't sleep'

/-- The loop `for(uint8_t i=0; i<10; i++)` of the old-firmware wake, with
`n` iterations to go. -/
def wakeLoop : Nat → State → Except Fault State
  | 0, s => pure s
  | n + 1, s => do
    let s ← priv_writeBytes 0 s
    wakeLoop n (therm_therm_timeoutSet 10000 s)

/-- Wake the printer from a low-energy state. -/
def therm_therm_wake (fw : Nat) (s : State) : Except Fault State := do
  let s := therm_therm_timeoutSet 0 s -- Reset timeout counter
  let s ← priv_writeBytes 255 s -- Wake
  if fw ≥ 264 then
    let s := priv_delay 50 s
    priv_write4Bytes ASCII_ESC 56 0 0 s -- Sleep off (important!)
  else wakeLoop 10 s

/-- The polling loop `for(i=0; i<10; i++)` of `therm_hasPaper` with `n`
iterations to go; the result carries `status`. -/
def pollLoop : Nat → State → Except Fault (Int × State)
  | 0, s => pure (-1, s)
  | n + 1, s =>
    if priv_UARThasBytes s then priv_readByteFromUART s
    else pollLoop n (priv_delay 100 s)

/-- The status query of `therm_hasPaper`, chosen by `#if PRINTER_FIRMWARE >= 264`. -/
def sendStatusQuery (fw : Nat) (s : State) : Except Fault State :=
  if fw ≥ 264 then priv_write3Bytes ASCII_ESC 118 0 s
  else priv_write3Bytes ASCII_GS 114 0 s

/-- The operator `&` on two `int`s: the conjunction of their 32-bit two's
complement patterns. -/
def andInt (x y : Int) : Int :=
  toLong ((x % 4294967296).toNat &&& (y % 4294967296).toNat)

/-- Check the status of the paper using the printer's self reporting
ability.  Returns true for paper, false for no paper. -/
def therm_hasPaper (fw : Nat) (s : State) : Except Fault (Bool × State) := do
  let s ← sendStatusQuery fw s
  let r ← pollLoop 10 s
  pure (decide (andInt r.1 0b00000100 = 0), r.2)

def therm_setLineHeight (val : Int) (s : State) : Except Fault State :=
  let val := if val < 24 then 24 else val
  let s := { s with lineSpacing := u8i (val - 24) }
  priv_write3Bytes ASCII_ESC 51 (u8i val) s

def therm_setMaxChunkHeight (val : Int) (s : State) : State :=
  { s with maxChunkHeight := u8i val }

def therm_setCharset (val : Nat) (s : State) : Except Fault State :=
  let val := if val > 15 then 15 else val
  priv_write3Bytes ASCII_ESC 82 val s

def therm_setCodePage (val : Nat) (s : State) : Except Fault State :=
  let val := if val > 47 then 47 else val
  priv_write3Bytes ASCII_ESC 116 val s

def therm_tab (s : State) : Except Fault State := do
  let s ← priv_writeBytes ASCII_TAB s
  pure { s with column := u8 ((s.column + 4) &&& 0b11111100) }

def therm_setCharSpacing (spacing : Int) (s : State) : Except Fault State :=
  priv_write3Bytes ASCII_ESC 32 (u8i spacing) s

/-- Reset printer to default state. -/
def therm_reset (fw : Nat) (s : State) : Except Fault State := do
  let s ← priv_write2Bytes ASCII_ESC 64 s -- Init command
  let s := { s with prevByte := ASCII_LF, column := 0, maxColumn := 32, charHeight := 24,
                    lineSpacing := 6, barcodeHeight := 50 }
  if fw ≥ 264 then do
    -- Configure tab stops on recent printers
    let s ← priv_write2Bytes ASCII_ESC 68 s
    let s ← priv_write4Bytes 4 8 12 16 s
    priv_write4Bytes 20 24 28 0 s
  else pure s

def printDensity : Nat := 10
def printBreakTime : Nat := 2

/-- Enable DTR pin if requested (the `if(dtrPin < 255)` block of
`therm_begin`). -/
def enableDtr (s : State) : Except Fault State :=
  if s.dtrPin < 255 then do
    let s ← priv_write3Bytes ASCII_GS 97 (1 <<< 5) s
    pure { s with dtrEnabled := true }
  else pure s

def therm_begin (fw : Nat) (heatTime : Nat) (s : State) : Except Fault State := do
  let s := therm_therm_timeoutSet 500000 s
  let s ← therm_therm_wake fw s
  let s ← therm_reset fw s
  let s ← priv_write2Bytes ASCII_ESC 55 s -- Esc 7 (print settings)
  let s ← priv_write3Bytes 11 heatTime 40 s -- Heating dots, heat time, heat interval
  let s ← priv_write3Bytes ASCII_DC2 35 ((printBreakTime <<< 5) ||| printDensity) s
  let s ← enableDtr s
  pure { s with dotPrintTime := 30000, dotFeedTime := 2100, maxChunkHeight := 255 }

/-- Reset text formatting parameters. -/
def therm_setDefault (fw : Nat) (s : State) : Except Fault State := do
  let s ← therm_therm_online s
  let s ← therm_justify 76 s
  let s ← therm_therm_inverseOff fw s
  let s ← therm_therm_doubleHeightOff s
  let s ← therm_setLineHeight 30 s
  let s ← therm_therm_boldOff s
  let s ← therm_therm_underlineOff s
  let s ← therm_setBarcodeHeight 50 s
  let s ← therm_setSize 115 s
  let s ← therm_setCharset 0 s
  therm_setCodePage 0 s

/-- The state of the globals when the program starts: statics are zero,
`dtrPin` is `(uint8_t)-1`; the badge's part is given. -/
def bootState (ms : Nat) (rxFuture : List (List Nat × Nat)) : State :=
  { printMode := 0, prevByte := 0, column := 0, maxColumn := 0, charHeight := 0,
    lineSpacing := 0, barcodeHeight := 0, maxChunkHeight := 0, dtrPin := 255,
    dtrEnabled := false, resumeTime := 0, dotPrintTime := 0, dotFeedTime := 0,
    systick_ms := ms, rxbuf := List.replicate 8 0, rxptr := 0, rxFuture := rxFuture,
    pin := [], log := [] }

-- === Sequences of public operations ===

/-- The public operations of the driver (the functions declared in
`Adafruit_Thermal.h` that the source defines, and the constructor). -/
inductive Op where
  | init
  | write (c : Nat)
  | begin (heatTime : Nat)
  | boldOff | boldOn
  | doubleHeightOff | doubleHeightOn
  | doubleWidthOff | doubleWidthOn
  | feed (x : Nat)
  | feedRows (rows : Nat)
  | flush
  | inverseOff | inverseOn
  | justify (value : Nat)
  | offline | online
  | printBarcode (text : List Nat) (type : Nat)
  | printBitmap (w h : Int) (bitmap : List Nat)
  | normal
  | reset
  | setBarcodeHeight (val : Nat)
  | setCharSpacing (spacing : Int)
  | setCharset (val : Nat)
  | setCodePage (val : Nat)
  | setDefault
  | setLineHeight (val : Int)
  | setMaxChunkHeight (val : Int)
  | setSize (value : Nat)
  | setTimes (p f : Nat)
  | sleep
  | sleepAfter (seconds : Nat)
  | strikeOff | strikeOn
  | tab
  | timeoutSet (x : Nat)
  | timeoutWait
  | underlineOff
  | underlineOn (weight : Nat)
  | upsideDownOff | upsideDownOn
  | wake
  | hasPaper

/-- One call of a public operation; arguments are converted to the C
parameter types, results other than the state are dropped.  `fuel` bounds
the passes of the two loops that need not end. -/
def step (fw fuel : Nat) (op : Op) (s : State) : Except Fault State :=
  match op with
  | Op.init => pure (therm_init s)
  | Op.write c => do
    let r ← write (u8 c) s
    pure r.2
  | Op.begin heatTime => therm_begin fw (u8 heatTime) s
  | Op.boldOff => therm_therm_boldOff s
  | Op.boldOn => therm_boldOn s
  | Op.doubleHeightOff => therm_therm_doubleHeightOff s
  | Op.doubleHeightOn => therm_doubleHeightOn s
  | Op.doubleWidthOff => therm_doubleWidthOff s
  | Op.doubleWidthOn => therm_doubleWidthOn s
  | Op.feed x => therm_feed fw (u8 x) s
  | Op.feedRows rows => therm_feedRows (u8 rows) s
  | Op.flush => therm_flush s
  | Op.inverseOff => therm_therm_inverseOff fw s
  | Op.inverseOn => therm_inverseOn fw s
  | Op.justify value => therm_justify (u8 value) s
  | Op.offline => therm_offline s
  | Op.online => therm_therm_online s
  | Op.printBarcode text type => therm_printBarcode fw fuel (text.map u8) (u8 type) s
  | Op.printBitmap w h bitmap => therm_printBitmap fuel (i32 w) (i32 h) (bitmap.map u8) s
  | Op.normal => therm_normal s
  | Op.reset => therm_reset fw s
  | Op.setBarcodeHeight val => therm_setBarcodeHeight (u8 val) s
  | Op.setCharSpacing spacing => therm_setCharSpacing spacing s
  | Op.setCharset val => therm_setCharset (u8 val) s
  | Op.setCodePage val => therm_setCodePage (u8 val) s
  | Op.setDefault => therm_setDefault fw s
  | Op.setLineHeight val => therm_setLineHeight val s
  | Op.setMaxChunkHeight val => pure (therm_setMaxChunkHeight val s)
  | Op.setSize value => therm_setSize (u8 value) s
  | Op.setTimes p f => pure (therm_setTimes p f s)
  | Op.sleep => therm_sleep fw s
  | Op.sleepAfter seconds => therm_sleepAfter fw (seconds % 65536) s
  | Op.strikeOff => therm_strikeOff s
  | Op.strikeOn => therm_strikeOn s
  | Op.tab => therm_tab s
  | Op.timeoutSet x => pure (therm_therm_timeoutSet x s)
  | Op.timeoutWait => therm_therm_timeoutWait s
  | Op.underlineOff => therm_therm_underlineOff s
  | Op.underlineOn weight => therm_underlineOn (u8 weight) s
  | Op.upsideDownOff => therm_upsideDownOff s
  | Op.upsideDownOn => therm_upsideDownOn s
  | Op.wake => therm_therm_wake fw s
  | Op.hasPaper => do
    let r ← therm_hasPaper fw s
    pure r.2

/-- A sequence of public operations, first to last. -/
def run (fw fuel : Nat) : List Op → State → Except Fault State
  | [], s => pure s
  | op :: ops, s => do
    let s ← step fw fuel op s
    run fw fuel ops s

-- === Auxiliary definitions of the proofs ===

/-- The tick at which the clock loop of `therm_timeoutWait` ends. -/
def wakeTick (resumeTime ms : Nat) : Nat := (clockLoop resumeTime spinFuel ms).getD ms

/-- The driver's variables that no timing call touches. -/
def settings (s : State) : Nat × Nat × Nat × Nat × Nat × Nat × Nat × Nat × Nat × Bool × Nat × Nat :=
  (s.printMode, s.prevByte, s.column, s.maxColumn, s.charHeight, s.lineSpacing,
   s.barcodeHeight, s.maxChunkHeight, s.dtrPin, s.dtrEnabled, s.dotPrintTime, s.dotFeedTime)

/-- The mechanical time `write` adds to the byte time at a line break, in
the driver's 32-bit arithmetic. -/
def newlineCost (s : State) : Nat :=
  if s.prevByte = ASCII_LF then u32 ((s.charHeight + s.lineSpacing) * s.dotFeedTime)
  else u32 (u32 (s.charHeight * s.dotPrintTime) + u32 (s.lineSpacing * s.dotFeedTime))

/-- A state as `therm_begin` leaves it (firmware 2.68, heat time 120). -/
def readyState : State :=
  { printMode := 0, prevByte := 10, column := 0, maxColumn := 32, charHeight := 24,
    lineSpacing := 6, barcodeHeight := 50, maxChunkHeight := 255, dtrPin := 255,
    dtrEnabled := false, resumeTime := 51573, dotPrintTime := 30000, dotFeedTime := 2100,
    systick_ms := 51, rxbuf := List.replicate 8 0, rxptr := 0, rxFuture := [],
    pin := [], log := [] }

/-- The state in which the `j`-th poll of `therm_hasPaper` finds the receive
buffer: after `j` delays of 100 ms. -/
def pollState (j : Nat) (s : State) : State := (priv_delay 100)^[j] s

/-- The status query, by firmware. -/
def statusQuery (fw : Nat) : List Nat :=
  if fw ≥ 264 then [ASCII_ESC, 118, 0] else [ASCII_GS, 114, 0]

/-- The badge's receive side. -/
def rxPart (s : State) : List Nat × Nat × List (List Nat × Nat) := (s.rxbuf, s.rxptr, s.rxFuture)

/-- A state like `readyState` in which the printer's reply 4 ("paper out")
arrives during the second delay. -/
def replyState : State :=
  { readyState with
    rxFuture := [([0, 0, 0, 0, 0, 0, 0, 0], 0), ([4, 0, 0, 0, 0, 0, 0, 0], 1)] }

/-- The log of bytes sent one by one through `priv_writeBytes`. -/
def pacedBytes : List Nat → List Ev
  | [] => []
  | c :: cs => [Ev.wait, Ev.tx c, Ev.arm 573] ++ pacedBytes cs

/-- The bytes among a list of events. -/
def txOf (evs : List Ev) : List Nat :=
  evs.filterMap (fun e => match e with
    | Ev.tx b => some b
    | _ => none)

/-- The arms among a list of events. -/
def armsOf (evs : List Ev) : List Nat :=
  evs.filterMap (fun e => match e with
    | Ev.arm x => some x
    | _ => none)

/-- The log that `therm_printBarcode` adds on firmware >= 264. -/
def barcodeLogNew (text : List Nat) (type : Nat) (s : State) : List Ev :=
  [Ev.wait, Ev.tx ASCII_ESC, Ev.tx 100, Ev.tx 1, Ev.arm 1719,
   Ev.arm (u32 (s.dotFeedTime * s.charHeight)),
   Ev.wait, Ev.tx ASCII_GS, Ev.tx 72, Ev.tx 2, Ev.arm 1719,
   Ev.wait, Ev.tx ASCII_GS, Ev.tx 119, Ev.tx 3, Ev.arm 1719,
   Ev.wait, Ev.tx ASCII_GS, Ev.tx 107, Ev.tx type, Ev.arm 1719,
   Ev.wait, Ev.tx (min text.length 255), Ev.arm 573]
  ++ pacedBytes (text.take (min text.length 255))
  ++ [Ev.arm (u32 ((s.barcodeHeight + 40) * s.dotPrintTime))]

/-- The clamp of the specification: `x` brought into the range `lo..hi`. -/
def clamp (x lo hi : Int) : Int := min (max x lo) hi

/-- The log of data bytes sent with a wait each and no arm. -/
def streamedBytes : List Nat → List Ev
  | [] => []
  | b :: bs => [Ev.wait, Ev.tx b] ++ streamedBytes bs

/-- The clipped rows of the source: `n` rows from position `i`, `c` bytes of
each, the rows `rb` bytes apart. -/
def rowsFrom (bitmap : List Nat) (rb c : Nat) : Nat → Nat → List Nat
  | 0, _ => []
  | n + 1, i => (bitmap.drop i).take c ++ rowsFrom bitmap rb c n (i + rb)

/-- The log of a sequence of chunks, each given by its height and its data
bytes; `c` is the clipped row length and `dpt` the dot print time. -/
def chunkLog (c dpt : Nat) : List (Nat × List Nat) → List Ev
  | [] => []
  | ch :: rest =>
    [Ev.wait, Ev.tx ASCII_DC2, Ev.tx 42, Ev.tx ch.1, Ev.tx c, Ev.arm 2292]
      ++ streamedBytes ch.2 ++ [Ev.arm (u32 (ch.1 * dpt))] ++ chunkLog c dpt rest

/-- The bytes of a sequence of chunks: each 4-byte header followed by the
chunk's data. -/
def chunkStream (c : Nat) : List (Nat × List Nat) → List Nat
  | [] => []
  | ch :: rest => [ASCII_DC2, 42, ch.1, c] ++ ch.2 ++ chunkStream c rest

/-- The data of a sequence of chunks, headers left out. -/
def chunkData : List (Nat × List Nat) → List Nat
  | [] => []
  | ch :: rest => ch.2 ++ chunkData rest

/-- The data the specification expects from `printBitmap`: for each row
`r = 0 .. h-1` of the source, its first `c` bytes (`rb` is the row length). -/
def clippedImage (bitmap : List Nat) (rb c h : Nat) : List Nat :=
  ((List.range h).map (fun r => (bitmap.drop (r * rb)).take c)).flatten

/-- A 20-dot wide, 3-row image: three bytes per row. -/
def demoBitmap : List Nat := [1, 2, 3, 4, 5, 6, 7, 8, 9]

/-- The two variables of the column invariant. -/
def colw (s : State) : Nat × Nat := (s.column, s.maxColumn)

/-- A step that leaves the column where it is or returns it to 0, and leaves
maxColumn as it is or sets it to one of its two values. -/
def Quiet (s s' : State) : Prop :=
  (s'.maxColumn = s.maxColumn ∨ s'.maxColumn = 16 ∨ s'.maxColumn = 32) ∧
  (s'.column = s.column ∨ s'.column = 0)

/-- The horizontal tab: the one operation that moves the column forward by
more than one. -/
def Op.isTab : Op → Bool
  | Op.tab => true
  | _ => false

/-- A run in which no step is a tab and no step lowers maxColumn. -/
def widthKept (fw fuel : Nat) : List Op → State → Bool
  | [], _ => true
  | op :: ops, s =>
    match step fw fuel op s with
    | Except.ok s1 =>
      !op.isTab && decide (s.maxColumn ≤ s1.maxColumn) && widthKept fw fuel ops s1
    | Except.error _ => true

/-- The state that reset leaves when called in `readyState`. -/
def resetState : State :=
  match therm_reset 268 readyState with
  | Except.ok s => s
  | Except.error _ => readyState

/-- The mechanical time of a line break as the specification writes it, in
exact arithmetic: the feed of a blank line when the previous byte was a
newline, the print of a text line otherwise. -/
def breakTime (s : State) : Nat :=
  if s.prevByte = ASCII_LF then (s.charHeight + s.lineSpacing) * s.dotFeedTime
  else s.charHeight * s.dotPrintTime + s.lineSpacing * s.dotFeedTime

/-- The microseconds elapsed from the clock reading of state `s` to the
reading at tick `ms`, measured modulo 2^32. -/
def elapsedSince (s : State) (ms : Nat) : Nat :=
  (u32 (ms * 1000) + 4294967296 - micros s) % 4294967296

/-- The clock reading at which a wait started in state `s` returns (Timed
mode). -/
def waitReading (s : State) : Nat := u32 (wakeTick s.resumeTime s.systick_ms * 1000)

/-- The argument of the arm that `write c` makes in state `s`. -/
def writeArm (c : Nat) (s : State) : Nat :=
  if c = ASCII_LF ∨ s.column = s.maxColumn then u32 (BYTE_TIME + newlineCost s) else BYTE_TIME

/-- One call of a mode-bit operation: `(true, mask)` is
`priv_setPrintMode(mask)`, `(false, mask)` is `priv_unsetPrintMode(mask)`. -/
def modeCall (call : Bool × Nat) (s : State) : Except Fault State :=
  if call.1 then priv_setPrintMode call.2 s else priv_unsetPrintMode call.2 s

/-- A sequence of mode-bit calls, first to last. -/
def modeCalls : List (Bool × Nat) → State → Except Fault State
  | [], s => pure s
  | call :: rest, s => do
    let s ← modeCall call s
    modeCalls rest s

/-- The mode bits of the specification after one call: OR for a set, AND-NOT
for a clear. -/
def applyModeBits (call : Bool × Nat) (m : Nat) : Nat :=
  if call.1 then m ||| call.2 else Nat.ldiff m call.2

/-- The OR / AND-NOT fold of the specification over a sequence of calls. -/
def foldModeBits : List (Bool × Nat) → Nat → Nat
  | [], m => m
  | call :: rest, m => foldModeBits rest (applyModeBits call m)

/-- The bytes the specification expects from a sequence of calls: ESC '!' and
the updated bitmask for each. -/
def modeBytes : List (Bool × Nat) → Nat → List Nat
  | [], _ => []
  | call :: rest, m =>
    [ASCII_ESC, 33, applyModeBits call m] ++ modeBytes rest (applyModeBits call m)

/-- A state in SignalPin mode whose pin reads low 481 times: the ready state
of a build that has a DTR pin. -/
def signalPinState : State :=
  { readyState with dtrEnabled := true, pin := List.replicate 481 false }

/-- The driver's variables and the badge's side of a state: everything but
the observation log. -/
def machine (s : State) : State := { s with log := [] }

/-- The events of `n` passes of the old-firmware wake loop: a NUL sent by the
byte helper (wait, byte, arm of one byte time), then the arm of 10 ms. -/
def wakeNuls (n : Nat) : List Ev :=
  (List.replicate n [Ev.wait, Ev.tx 0, Ev.arm 573, Ev.arm 10000]).flatten

/-- The variables that `therm_reset` assigns. -/
def resetFields (s : State) : Nat × Nat × Nat × Nat × Nat × Nat :=
  (s.prevByte, s.column, s.maxColumn, s.charHeight, s.lineSpacing, s.barcodeHeight)

/-- The bytes `therm_begin` sends with firmware 2.64 or later and no DTR
pin. -/
def beginBytes (heatTime : Nat) : List Nat :=
  [255, ASCII_ESC, 56, 0, 0, ASCII_ESC, 64, ASCII_ESC, 68, 4, 8, 12, 16, 20, 24, 28, 0,
   ASCII_ESC, 55, 11, heatTime, 40, ASCII_DC2, 35, 74]

/-- The bytes `therm_begin` sends with firmware older than 2.64 and no DTR
pin. -/
def beginBytesOld (heatTime : Nat) : List Nat :=
  255 :: List.replicate 10 0 ++
    [ASCII_ESC, 64, ASCII_ESC, 55, 11, heatTime, 40, ASCII_DC2, 35, 74]

/-- The chunk heights the specification expects for `h` rows and limit `L`:
`h / L` full chunks, then the remainder if there is one. -/
def chunkHeights (h L : Nat) : List Nat :=
  List.replicate (h / L) L ++ (if h % L = 0 then [] else [h % L])

/-- The chunks of an image whose heights are given, the first starting at
row `row`: each with the clipped rows it covers. -/
def chunksFrom (bitmap : List Nat) (rb c : Nat) : List Nat → Nat → List (Nat × List Nat)
  | [], _ => []
  | m :: ms, row => (m, rowsFrom bitmap rb c m (row * rb)) :: chunksFrom bitmap rb c ms (row + m)

/-- The two variables of the handshake: the pin number and the flag. -/
def dtrOf (s : State) : Nat × Bool := (s.dtrPin, s.dtrEnabled)

/-- What a state holds besides timing: every variable of the driver and of
the badge except resumeTime, dotPrintTime, dotFeedTime and the clock, and of
the observation log only the bytes sent. -/
def untimed (s : State) : Nat × Nat × Nat × Nat × Nat × Nat × Nat × Nat × Nat × Bool ×
    List Nat × Nat × List (List Nat × Nat) × List Bool × List Nat :=
  (s.printMode, s.prevByte, s.column, s.maxColumn, s.charHeight, s.lineSpacing,
   s.barcodeHeight, s.maxChunkHeight, s.dtrPin, s.dtrEnabled, s.rxbuf, s.rxptr, s.rxFuture,
   s.pin, sent s)

/-- The untimed part of a result that carries a value beside the state. -/
def untimedWith {α : Type} (r : α × State) : α × (Nat × Nat × Nat × Nat × Nat × Nat × Nat ×
    Nat × Nat × Bool × List Nat × Nat × List (List Nat × Nat) × List Bool × List Nat) :=
  (r.1, untimed r.2)

/-- The print state named by the specification: mode bits, column, maxColumn,
charHeight, lineSpacing, barcodeHeight, prevByte. -/
def printState (s : State) : Nat × Nat × Nat × Nat × Nat × Nat × Nat :=
  (s.printMode, s.column, s.maxColumn, s.charHeight, s.lineSpacing, s.barcodeHeight, s.prevByte)

/-- The state `s` with other timing values and another clock reading. -/
def retimed (s : State) (rt dp df ms : Nat) : State :=
  { s with resumeTime := rt, dotPrintTime := dp, dotFeedTime := df, systick_ms := ms }

-- === Lemmas ===

@[simp] theorem ok_bind {ε α β : Type} (a : α) (f : α → Except ε β) :
    (Except.ok a >>= f) = f a := rfl

@[simp] theorem error_bind {ε α β : Type} (e : ε) (f : α → Except ε β) :
    (Except.error e >>= f) = Except.error e := rfl

@[simp] theorem pure_eq_ok {ε α : Type} (a : α) : (pure a : Except ε α) = Except.ok a := rfl

theorem bind_eq_ok {ε α β : Type} {x : Except ε α} {f : α → Except ε β} {b : β} :
    (x >>= f) = Except.ok b ↔ ∃ a, x = Except.ok a ∧ f a = Except.ok b := by
  cases x with
  | error e => simp
  | ok a => simp

theorem BYTE_TIME_eq : BYTE_TIME = 573 := by decide

theorem stillEarly_iff (r ms : Nat) :
    stillEarly r ms = true ↔
      2147483648 ≤ (ms * 1000 % 4294967296 + 4294967296 - r % 4294967296) % 4294967296 := by
  unfold stillEarly toLong u32
  simp only [decide_eq_true_eq]
  split <;> omega

theorem clockLoop_ends (r : Nat) : ∀ (n ms : Nat),
    (stillEarly r ms = false ∨
      4294967296 - (ms * 1000 % 4294967296 + 4294967296 - r % 4294967296) % 4294967296 ≤ 1000 * n) →
    ∃ t, clockLoop r (n + 1) ms = some t ∧ stillEarly r t = false ∧ ms ≤ t := by
  intro n
  induction n with
  | zero =>
    intro ms h
    have hne : stillEarly r ms = false := by
      rcases h with h | h
      · exact h
      · by_contra hc
        have := (stillEarly_iff r ms).1 (by simpa using hc)
        omega
    exact ⟨ms, by simp [clockLoop, hne], hne, le_refl _⟩
  | succ n ih =>
    intro ms h
    by_cases he : stillEarly r ms = true
    · have h1 := (stillEarly_iff r ms).1 he
      have hstep : stillEarly r (ms + 1) = false ∨
          4294967296 - ((ms + 1) * 1000 % 4294967296 + 4294967296 - r % 4294967296) % 4294967296
            ≤ 1000 * n := by
        rcases h with h | h
        · simp [he] at h
        · by_cases h2 : stillEarly r (ms + 1) = true
          · right
            have h3 := (stillEarly_iff r (ms + 1)).1 h2
            omega
          · left; simpa using h2
      obtain ⟨t, ht, hd, hle⟩ := ih (ms + 1) hstep
      refine ⟨t, ?_, hd, by omega⟩
      rw [clockLoop, if_pos he]
      exact ht
    · have hne : stillEarly r ms = false := by simpa using he
      exact ⟨ms, by simp [clockLoop, hne], hne, le_refl _⟩

theorem clockLoop_total (r ms : Nat) :
    ∃ t, clockLoop r spinFuel ms = some t ∧ stillEarly r t = false ∧ ms ≤ t := by
  have := clockLoop_ends r 2147484 ms
  apply this
  by_cases he : stillEarly r ms = true
  · right
    have h1 := (stillEarly_iff r ms).1 he
    omega
  · left; simpa using he

theorem clockLoop_wakeTick (r ms : Nat) : clockLoop r spinFuel ms = some (wakeTick r ms) := by
  obtain ⟨t, ht, _⟩ := clockLoop_total r ms
  simp [wakeTick, ht]

theorem timeoutWait_timed (s : State) (h : s.dtrEnabled = false) :
    therm_therm_timeoutWait s =
      Except.ok { s with systick_ms := wakeTick s.resumeTime s.systick_ms,
                         log := s.log ++ [Ev.wait] } := by
  simp [therm_therm_timeoutWait, h, clockLoop_wakeTick, record]

theorem timeoutWait_ok {s s' : State} (h : therm_therm_timeoutWait s = Except.ok s') :
    ∃ ms pin, s' = { s with systick_ms := ms, pin := pin, log := s.log ++ [Ev.wait] } := by
  unfold therm_therm_timeoutWait at h
  split at h
  · split at h
    · simp at h
    · rename_i rest _
      simp at h
      exact ⟨s.systick_ms, rest, by rw [← h]; rfl⟩
  · split at h
    · simp at h
    · rename_i ms _
      simp at h
      exact ⟨ms, s.pin, by rw [← h]; rfl⟩

theorem writeBytes_ok {a : Nat} {s s' : State} (h : priv_writeBytes a s = Except.ok s') :
    ∃ ms pin rt, s' = { s with systick_ms := ms, pin := pin, resumeTime := rt,
                               log := s.log ++ [Ev.wait, Ev.tx a, Ev.arm 573] } := by
  unfold priv_writeBytes at h
  obtain ⟨s1, h1, h2⟩ := bind_eq_ok.1 h
  obtain ⟨ms, pin, rfl⟩ := timeoutWait_ok h1
  simp only [pure_eq_ok, Except.ok.injEq] at h2
  refine ⟨ms, pin, s'.resumeTime, ?_⟩
  subst h2
  cases hd : s.dtrEnabled <;>
    simp [therm_therm_timeoutSet, priv_writeByteToUART, record, hd, BYTE_TIME_eq, u32]

theorem write2Bytes_ok {a b : Nat} {s s' : State} (h : priv_write2Bytes a b s = Except.ok s') :
    ∃ ms pin rt, s' = { s with systick_ms := ms, pin := pin, resumeTime := rt,
                               log := s.log ++ [Ev.wait, Ev.tx a, Ev.tx b, Ev.arm 1146] } := by
  unfold priv_write2Bytes at h
  obtain ⟨s1, h1, h2⟩ := bind_eq_ok.1 h
  obtain ⟨ms, pin, rfl⟩ := timeoutWait_ok h1
  simp only [pure_eq_ok, Except.ok.injEq] at h2
  refine ⟨ms, pin, s'.resumeTime, ?_⟩
  subst h2
  cases hd : s.dtrEnabled <;>
    simp [therm_therm_timeoutSet, priv_writeByteToUART, record, hd, BYTE_TIME_eq, u32]

theorem write3Bytes_ok {a b c : Nat} {s s' : State} (h : priv_write3Bytes a b c s = Except.ok s') :
    ∃ ms pin rt, s' = { s with systick_ms := ms, pin := pin, resumeTime := rt,
                               log := s.log ++ [Ev.wait, Ev.tx a, Ev.tx b, Ev.tx c, Ev.arm 1719] } := by
  unfold priv_write3Bytes at h
  obtain ⟨s1, h1, h2⟩ := bind_eq_ok.1 h
  obtain ⟨ms, pin, rfl⟩ := timeoutWait_ok h1
  simp only [pure_eq_ok, Except.ok.injEq] at h2
  refine ⟨ms, pin, s'.resumeTime, ?_⟩
  subst h2
  cases hd : s.dtrEnabled <;>
    simp [therm_therm_timeoutSet, priv_writeByteToUART, record, hd, BYTE_TIME_eq, u32]

theorem write4Bytes_ok {a b c d : Nat} {s s' : State}
    (h : priv_write4Bytes a b c d s = Except.ok s') :
    ∃ ms pin rt, s' =
      { s with systick_ms := ms, pin := pin, resumeTime := rt,
               log := s.log ++ [Ev.wait, Ev.tx a, Ev.tx b, Ev.tx c, Ev.tx d, Ev.arm 2292] } := by
  unfold priv_write4Bytes at h
  obtain ⟨s1, h1, h2⟩ := bind_eq_ok.1 h
  obtain ⟨ms, pin, rfl⟩ := timeoutWait_ok h1
  simp only [pure_eq_ok, Except.ok.injEq] at h2
  refine ⟨ms, pin, s'.resumeTime, ?_⟩
  subst h2
  cases hd : s.dtrEnabled <;>
    simp [therm_therm_timeoutSet, priv_writeByteToUART, record, hd, BYTE_TIME_eq, u32]

theorem timeoutSet_shape (x : Nat) (s : State) :
    ∃ rt, therm_therm_timeoutSet x s = { s with resumeTime := rt, log := s.log ++ [Ev.arm (u32 x)] } := by
  refine ⟨(therm_therm_timeoutSet x s).resumeTime, ?_⟩
  cases hd : s.dtrEnabled <;> simp [therm_therm_timeoutSet, record, hd]

theorem timeoutWait_total {s : State} (h : s.dtrEnabled = false) :
    ∃ s', therm_therm_timeoutWait s = Except.ok s' := ⟨_, timeoutWait_timed s h⟩

theorem writeBytes_total (a : Nat) {s : State} (h : s.dtrEnabled = false) :
    ∃ s', priv_writeBytes a s = Except.ok s' := by
  simp [priv_writeBytes, timeoutWait_timed s h]

theorem write2Bytes_total (a b : Nat) {s : State} (h : s.dtrEnabled = false) :
    ∃ s', priv_write2Bytes a b s = Except.ok s' := by
  simp [priv_write2Bytes, timeoutWait_timed s h]

theorem write3Bytes_total (a b c : Nat) {s : State} (h : s.dtrEnabled = false) :
    ∃ s', priv_write3Bytes a b c s = Except.ok s' := by
  simp [priv_write3Bytes, timeoutWait_timed s h]

theorem write4Bytes_total (a b c d : Nat) {s : State} (h : s.dtrEnabled = false) :
    ∃ s', priv_write4Bytes a b c d s = Except.ok s' := by
  simp [priv_write4Bytes, timeoutWait_timed s h]

theorem write_dropped (s : State) : write 0x13 s = Except.ok (1, s) := by
  simp [write]

theorem write_ok {c : Nat} {s : State} {r : Nat × State} (hc : c ≠ 0x13)
    (h : write c s = Except.ok r) :
    r.1 = 1 ∧ ∃ ms pin rt, r.2 =
      if c = ASCII_LF ∨ s.column = s.maxColumn then
        { s with systick_ms := ms, pin := pin, resumeTime := rt, column := 0,
                 prevByte := ASCII_LF,
                 log := s.log ++ [Ev.wait, Ev.tx c, Ev.arm (u32 (BYTE_TIME + newlineCost s))] }
      else
        { s with systick_ms := ms, pin := pin, resumeTime := rt, column := u8 (s.column + 1),
                 prevByte := c,
                 log := s.log ++ [Ev.wait, Ev.tx c, Ev.arm BYTE_TIME] } := by
  unfold write at h
  rw [if_pos hc] at h
  obtain ⟨s1, h1, h2⟩ := bind_eq_ok.1 h
  obtain ⟨ms, pin, rfl⟩ := timeoutWait_ok h1
  by_cases hw : c = ASCII_LF ∨ s.column = s.maxColumn
  · simp only [priv_writeByteToUART, record, hw, if_true, pure_eq_ok, Except.ok.injEq] at h2
    refine ⟨by rw [← h2], ms, pin, r.2.resumeTime, ?_⟩
    rw [if_pos hw, ← h2]
    cases hd : s.dtrEnabled <;>
      simp [therm_therm_timeoutSet, record, hd, newlineCost, u32]
  · simp only [priv_writeByteToUART, record, hw, if_false, pure_eq_ok, Except.ok.injEq] at h2
    refine ⟨by rw [← h2], ms, pin, r.2.resumeTime, ?_⟩
    rw [if_neg hw, ← h2]
    cases hd : s.dtrEnabled <;>
      simp [therm_therm_timeoutSet, record, hd, u32, BYTE_TIME_eq]

theorem write_total (c : Nat) {s : State} (h : s.dtrEnabled = false) :
    ∃ r, write c s = Except.ok r := by
  unfold write
  split
  · simp only [timeoutWait_timed s h, ok_bind]
    split <;> exact ⟨_, rfl⟩
  · exact ⟨_, rfl⟩

theorem run_nil (fw fuel : Nat) (s : State) : run fw fuel [] s = Except.ok s := rfl

theorem run_cons (fw fuel : Nat) (op : Op) (ops : List Op) (s : State) :
    run fw fuel (op :: ops) s = (step fw fuel op s >>= fun s1 => run fw fuel ops s1) := rfl

theorem run_append (fw fuel : Nat) (ops1 ops2 : List Op) (s : State) :
    run fw fuel (ops1 ++ ops2) s = (run fw fuel ops1 s >>= fun s1 => run fw fuel ops2 s1) := by
  induction ops1 generalizing s with
  | nil => simp [run_nil]
  | cons op ops ih =>
    simp only [List.cons_append, run_cons]
    cases step fw fuel op s with
    | error e => simp
    | ok s1 => simp [ih]

theorem u8_of_lt {x : Nat} (h : x < 256) : u8 x = x := Nat.mod_eq_of_lt h

theorem step_write_total (fw fuel c : Nat) {s : State} (h : s.dtrEnabled = false) :
    ∃ s', step fw fuel (Op.write c) s = Except.ok s' := by
  obtain ⟨r, hr⟩ := write_total (u8 c) h
  exact ⟨r.2, by simp [step, hr]⟩

theorem run_writes_total (fw fuel : Nat) : ∀ (bytes : List Nat) (s : State),
    s.dtrEnabled = false → ∃ s', run fw fuel (bytes.map Op.write) s = Except.ok s' := by
  intro bytes
  induction bytes with
  | nil => intro s _; exact ⟨s, rfl⟩
  | cons b bs ih =>
    intro s hT
    obtain ⟨s1, h1⟩ := step_write_total fw fuel b hT
    have hT1 : s1.dtrEnabled = false := by
      simp only [step] at h1
      obtain ⟨r, hr, h2⟩ := bind_eq_ok.1 h1
      simp only [pure_eq_ok, Except.ok.injEq] at h2
      subst h2
      by_cases hc : u8 b = 0x13
      · rw [hc, write_dropped] at hr
        simp only [Except.ok.injEq] at hr
        rw [← hr]; exact hT
      · obtain ⟨_, ms, pin, rt, hs⟩ := write_ok hc hr
        rw [hs]; split <;> exact hT
    obtain ⟨s', h2⟩ := ih s1 hT1
    exact ⟨s', by simp [run_cons, h1, h2]⟩

/-- C1 (code defect).  `write` tests `c != 0x13`, that is 19, where the
comment and `ASCII_CR` mean the carriage return 13.  In Timed mode, from every
state, the carriage return is sent, timed and tracked like any other byte, and
the byte 19 is the one that is dropped without any effect. -/
theorem C1_write_sends_CR_drops_0x13 (s : State) (hT : s.dtrEnabled = false) :
    ASCII_CR = 13 ∧
    write 0x13 s = Except.ok (1, s) ∧
    ∃ s', write ASCII_CR s = Except.ok (1, s') ∧
      sent s' = sent s ++ [ASCII_CR] ∧
      s'.log = s.log ++ [Ev.wait, Ev.tx ASCII_CR,
        Ev.arm (if s.column = s.maxColumn then u32 (BYTE_TIME + newlineCost s) else BYTE_TIME)] ∧
      s'.prevByte = (if s.column = s.maxColumn then ASCII_LF else ASCII_CR) ∧
      s'.column = (if s.column = s.maxColumn then 0 else u8 (s.column + 1)) := by
  refine ⟨rfl, write_dropped s, ?_⟩
  obtain ⟨r, hr⟩ := write_total ASCII_CR hT
  obtain ⟨h1, ms, pin, rt, h2⟩ := write_ok (by decide) hr
  refine ⟨r.2, ?_, ?_⟩
  · rw [hr, ← h1]
  · have hne : ¬ (ASCII_CR = ASCII_LF) := by decide
    by_cases hw : s.column = s.maxColumn
    · simp only [hne, false_or, hw, if_true] at h2
      rw [h2]; simp [sent, hw]
    · simp only [hne, false_or, hw, if_false] at h2
      rw [h2]; simp [sent, hw]

/-- C1, at a concrete state: the carriage return goes out to the printer. -/
theorem C1_write_sends_CR_drops_0x13_witness :
    readyState.dtrEnabled = false ∧
    ∃ s', write ASCII_CR readyState = Except.ok (1, s') ∧ sent s' = sent readyState ++ [ASCII_CR] :=
  ⟨rfl, by
    obtain ⟨_, _, s', h1, h2, _⟩ := C1_write_sends_CR_drops_0x13 readyState rfl
    exact ⟨s', h1, h2⟩⟩

theorem land4_eq_zero_iff (sb : Nat) :
    decide (andInt (sb : Int) 0b00000100 = 0) = !(sb.testBit 2) := by
  have h1 : ((sb : Int) % 4294967296).toNat = sb % 2 ^ 32 := by omega
  have h3 : ((0b00000100 : Int) % 4294967296).toNat = 2 ^ 2 := by decide
  have h2 := Nat.and_two_pow (sb % 2 ^ 32) 2
  have h4 : (sb % 2 ^ 32).testBit 2 = sb.testBit 2 := by
    rw [Nat.testBit_mod_two_pow]; simp
  unfold andInt toLong
  rw [h1, h3, h2, h4]
  cases sb.testBit 2 <;> simp

theorem shiftLoop_ok : ∀ (n i : Nat) (buf : List Nat), i + n < buf.length →
    ∃ buf', shiftLoop n i buf = Except.ok buf' ∧ buf'.length = buf.length ∧
      ∀ j, buf'[j]? = if i ≤ j ∧ j < i + n then buf[j + 1]? else buf[j]? := by
  intro n
  induction n with
  | zero =>
    intro i buf _
    refine ⟨buf, rfl, rfl, ?_⟩
    intro j
    rw [if_neg (by omega)]
  | succ n ih =>
    intro i buf hlen
    have hv : buf.get? (i + 1) = some (buf[i + 1]) := by
      rw [List.get?_eq_getElem?]; exact List.getElem?_eq_getElem (by omega)
    obtain ⟨buf', h1, h2, h3⟩ := ih (i + 1) (buf.set i buf[i + 1]) (by simp; omega)
    refine ⟨buf', ?_, by simpa using h2, ?_⟩
    · rw [shiftLoop, hv]; exact h1
    · intro j
      rw [h3 j]
      simp only [List.getElem?_set]
      by_cases hj : i = j
      · subst hj
        have : i < buf.length := by omega
        simp [this, List.getElem?_eq_getElem (show i + 1 < buf.length by omega)]
      · by_cases h4 : i + 1 ≤ j ∧ j < i + 1 + n
        · have h5 : i ≤ j ∧ j < i + (n + 1) := by omega
          have h6 : ¬ i = j + 1 := by omega
          simp [h4, h5, h6]
        · have h5 : ¬ (i ≤ j ∧ j < i + (n + 1)) := by omega
          simp [h4, h5, hj]

theorem readByte_ok {s : State} {sb : Nat} (hn : 0 < s.rxptr) (hn2 : s.rxptr ≤ 127)
    (hlen : s.rxptr < s.rxbuf.length) (hhead : s.rxbuf.head? = some sb) :
    ∃ buf, priv_readByteFromUART s =
        Except.ok ((sb : Int), { s with rxbuf := buf, rxptr := s.rxptr - 1 }) ∧
      buf.length = s.rxbuf.length ∧
      (∀ j, j < s.rxptr → buf[j]? = s.rxbuf[j + 1]?) ∧
      (∀ j, s.rxptr ≤ j → buf[j]? = s.rxbuf[j]?) := by
  obtain ⟨buf, h1, h2, h3⟩ := shiftLoop_ok s.rxptr 0 s.rxbuf (by omega)
  have h0 : s.rxbuf[0]? = some sb := by
    cases hb : s.rxbuf with
    | nil => rw [hb] at hhead; simp at hhead
    | cons x xs => rw [hb] at hhead; simpa using hhead
  refine ⟨buf, ?_, h2, ?_, ?_⟩
  · unfold priv_readByteFromUART
    have : (s.rxptr != 0) = true := by simp; omega
    simp [this, h0, h1, show ¬ 127 < s.rxptr by omega]
  · intro j hj; rw [h3 j]; simp [hj]
  · intro j hj; rw [h3 j]; simp [show ¬ j < s.rxptr by omega]

theorem pollLoop_found : ∀ (k n : Nat) (s : State), k < n →
    (∀ j, j < k → priv_UARThasBytes (pollState j s) = false) →
    priv_UARThasBytes (pollState k s) = true →
    pollLoop n s = priv_readByteFromUART (pollState k s) := by
  intro k
  induction k with
  | zero =>
    intro n s hn _ hk
    cases n with
    | zero => omega
    | succ n =>
      simp only [pollState, Function.iterate_zero, id_eq] at hk
      simp [pollLoop, hk, pollState]
  | succ k ih =>
    intro n s hn hj hk
    cases n with
    | zero => omega
    | succ n =>
      have h0 := hj 0 (by omega)
      simp only [pollState, Function.iterate_zero, id_eq] at h0
      rw [pollLoop, h0]
      simp only [Bool.false_eq_true, if_false]
      rw [ih n (priv_delay 100 s) (by omega)]
      · simp [pollState, Function.iterate_succ_apply]
      · intro j hjk
        have := hj (j + 1) (by omega)
        simpa [pollState, Function.iterate_succ_apply] using this
      · simpa [pollState, Function.iterate_succ_apply] using hk

theorem pollLoop_none : ∀ (n : Nat) (s : State),
    (∀ j, j < n → priv_UARThasBytes (pollState j s) = false) →
    pollLoop n s = Except.ok (-1, pollState n s) := by
  intro n
  induction n with
  | zero => intro s _; rfl
  | succ n ih =>
    intro s hj
    have h0 := hj 0 (by omega)
    simp only [pollState, Function.iterate_zero, id_eq] at h0
    rw [pollLoop, h0]
    simp only [Bool.false_eq_true, if_false]
    rw [ih (priv_delay 100 s)]
    · simp [pollState, Function.iterate_succ_apply]
    · intro j hjk
      have := hj (j + 1) (by omega)
      simpa [pollState, Function.iterate_succ_apply] using this

theorem delay_shape (ms : Nat) (s : State) :
    ∃ buf n fut, priv_delay ms s =
      { s with systick_ms := s.systick_ms + ms, rxbuf := buf, rxptr := n, rxFuture := fut,
               log := s.log ++ [Ev.delay ms] } := by
  unfold priv_delay record
  cases h : s.rxFuture with
  | nil => exact ⟨s.rxbuf, s.rxptr, [], by simp [h]⟩
  | cons e rest => exact ⟨e.1, e.2, rest, by simp [h]⟩

theorem delay_rx_congr (ms : Nat) {s t : State} (h : rxPart t = rxPart s) :
    rxPart (priv_delay ms t) = rxPart (priv_delay ms s) := by
  simp only [rxPart, Prod.mk.injEq] at h
  obtain ⟨h1, h2, h3⟩ := h
  unfold priv_delay record rxPart
  simp only [h3]
  cases s.rxFuture with
  | nil => simp [h1, h2, h3]
  | cons e rest => simp

theorem pollState_rx_congr : ∀ (j : Nat) {s t : State}, rxPart t = rxPart s →
    rxPart (pollState j t) = rxPart (pollState j s) := by
  intro j
  induction j with
  | zero => intro s t h; exact h
  | succ j ih =>
    intro s t h
    simp only [pollState, Function.iterate_succ_apply]
    exact ih (delay_rx_congr 100 h)

theorem pollState_shape : ∀ (j : Nat) (s : State),
    ∃ buf n fut, pollState j s =
      { s with systick_ms := s.systick_ms + 100 * j, rxbuf := buf, rxptr := n, rxFuture := fut,
               log := s.log ++ List.replicate j (Ev.delay 100) } := by
  intro j
  induction j with
  | zero => intro s; exact ⟨s.rxbuf, s.rxptr, s.rxFuture, by simp [pollState]⟩
  | succ j ih =>
    intro s
    obtain ⟨b1, n1, f1, h1⟩ := delay_shape 100 s
    obtain ⟨b2, n2, f2, h2⟩ := ih (priv_delay 100 s)
    refine ⟨b2, n2, f2, ?_⟩
    have : pollState (j + 1) s = pollState j (priv_delay 100 s) := by
      simp [pollState, Function.iterate_succ_apply]
    rw [this, h2, h1]
    simp [List.replicate_succ, Nat.mul_add, Nat.add_assoc, Nat.add_comm]

theorem hasBytes_congr {s t : State} (h : rxPart t = rxPart s) :
    priv_UARThasBytes t = priv_UARThasBytes s := by
  simp only [rxPart, Prod.mk.injEq] at h
  simp [priv_UARThasBytes, h.2.1]

theorem sent_replicate_delay (l : List Ev) (j : Nat) :
    (l ++ List.replicate j (Ev.delay 100)).filterMap (fun e => match e with
      | Ev.tx b => some b
      | _ => none) = l.filterMap (fun e => match e with
      | Ev.tx b => some b
      | _ => none) := by
  induction j with
  | zero => simp
  | succ j ih =>
    rw [List.replicate_succ', ← List.append_assoc, List.filterMap_append, ih]
    simp

theorem statusQuery_ok {fw : Nat} {s s1 : State} (h : sendStatusQuery fw s = Except.ok s1) :
    ∃ ms pin rt, s1 =
      { s with systick_ms := ms, pin := pin, resumeTime := rt,
               log := s.log ++ ([Ev.wait] ++ (statusQuery fw).map Ev.tx ++ [Ev.arm 1719]) } := by
  unfold statusQuery
  unfold sendStatusQuery at h
  split at h
  · rename_i hfw
    obtain ⟨ms, pin, rt, h1⟩ := write3Bytes_ok h
    exact ⟨ms, pin, rt, by rw [h1]; simp [hfw]⟩
  · rename_i hfw
    obtain ⟨ms, pin, rt, h1⟩ := write3Bytes_ok h
    exact ⟨ms, pin, rt, by rw [h1]; simp [hfw]⟩

theorem statusQuery_total (fw : Nat) {s : State} (hT : s.dtrEnabled = false) :
    ∃ s1, sendStatusQuery fw s = Except.ok s1 := by
  unfold sendStatusQuery
  split
  · exact write3Bytes_total _ _ _ hT
  · exact write3Bytes_total _ _ _ hT

/-- C4 (counterexample).  In the state `therm_begin` leaves, with an empty
receive buffer and nothing ever arriving, `therm_hasPaper` returns false
("no paper"), not true. -/
theorem C4_counterexample :
    (therm_hasPaper 268 readyState).map (fun r => (r.1, r.2.rxptr, (sent r.2))) =
      Except.ok (false, 0, [27, 118, 0]) := by
  decide

/-- C4 (amended).  In Timed mode, if the byte source reports no available
byte on each of the 10 polls, `therm_hasPaper` returns false ("no paper"): the
status keeps its initial value -1, whose bit 2 is set.  The query has been
sent, ten delays of 100 ms have passed, and the driver's settings are
unchanged. -/
theorem C4_hasPaper_no_reply_is_false (fw : Nat) (s : State) (hT : s.dtrEnabled = false)
    (hnone : ∀ j, j < 10 → priv_UARThasBytes (pollState j s) = false) :
    ∃ s', therm_hasPaper fw s = Except.ok (false, s') ∧
      sent s' = sent s ++ statusQuery fw ∧
      s'.log = s.log ++ ([Ev.wait] ++ (statusQuery fw).map Ev.tx ++ [Ev.arm 1719])
                 ++ List.replicate 10 (Ev.delay 100) ∧
      settings s' = settings s := by
  obtain ⟨s1, h1⟩ := statusQuery_total fw hT
  obtain ⟨ms, pin, rt, hs1⟩ := statusQuery_ok h1
  have hrx : rxPart s1 = rxPart s := by rw [hs1]; rfl
  have hp := pollLoop_none 10 s1 (fun j hj => by
    rw [hasBytes_congr (pollState_rx_congr j hrx)]; exact hnone j hj)
  obtain ⟨buf, n, fut, hps⟩ := pollState_shape 10 s1
  refine ⟨pollState 10 s1, ?_, ?_, ?_, ?_⟩
  · unfold therm_hasPaper
    rw [h1]
    simp only [ok_bind, hp, pure_eq_ok]
    have hbit : decide (andInt (-1) 0b00000100 = 0) = false := by decide
    rw [hbit]
  · rw [hps, hs1]
    simp only [sent]
    rw [sent_replicate_delay]
    simp [List.filterMap_append, List.filterMap_map]
    induction statusQuery fw with
    | nil => rfl
    | cons x xs ih => simp [List.filterMap_cons, ih]
  · rw [hps, hs1]
  · rw [hps, hs1]; rfl

/-- C4 (amended), at a concrete state. -/
theorem C4_hasPaper_no_reply_is_false_witness :
    ∃ s', therm_hasPaper 268 readyState = Except.ok (false, s') ∧
      sent s' = sent readyState ++ statusQuery 268 := by
  obtain ⟨s', h1, h2, _⟩ := C4_hasPaper_no_reply_is_false 268 readyState rfl
    (by intro j hj; interval_cases j <;> rfl)
  exact ⟨s', h1, h2⟩

/-- C5.  In Timed mode, let the `k`-th poll (`k < 10`) be the first to find
the receive buffer non-empty, with `n` bytes waiting (`n <= 127`, the buffer
longer than `n`) and the byte `sb` at its head.  Then `therm_hasPaper` first
sends the status query (ESC v 0 on firmware >= 264, GS r 0 below), the poll
loop that runs after it returns `sb`, the result is true exactly when bit 2
of `sb` is clear, and exactly one byte has left the receive buffer: `n - 1`
bytes wait and each of them has moved down one place. -/
theorem C5_hasPaper_status_bit (fw : Nat) (s : State) (k sb : Nat)
    (hT : s.dtrEnabled = false) (hk : k < 10)
    (hnone : ∀ j, j < k → priv_UARThasBytes (pollState j s) = false)
    (hn : 0 < (pollState k s).rxptr) (hn2 : (pollState k s).rxptr ≤ 127)
    (hlen : (pollState k s).rxptr < (pollState k s).rxbuf.length)
    (hhead : (pollState k s).rxbuf.head? = some sb) :
    ∃ s1 s', sendStatusQuery fw s = Except.ok s1 ∧
      sent s1 = sent s ++ statusQuery fw ∧
      pollLoop 10 s1 = Except.ok ((sb : Int), s') ∧
      therm_hasPaper fw s = Except.ok (!(sb.testBit 2), s') ∧
      sent s' = sent s ++ statusQuery fw ∧
      s'.rxptr = (pollState k s).rxptr - 1 ∧
      (∀ j, j < (pollState k s).rxptr → s'.rxbuf[j]? = (pollState k s).rxbuf[j + 1]?) ∧
      settings s' = settings s := by
  obtain ⟨s1, h1⟩ := statusQuery_total fw hT
  obtain ⟨ms, pin, rt, hs1⟩ := statusQuery_ok h1
  have hrx : rxPart s1 = rxPart s := by rw [hs1]; rfl
  have hrxk := pollState_rx_congr k hrx
  simp only [rxPart, Prod.mk.injEq] at hrxk
  obtain ⟨e1, e2, e3⟩ := hrxk
  have hfound := pollLoop_found k 10 s1 hk (fun j hj => by
    rw [hasBytes_congr (pollState_rx_congr j hrx)]; exact hnone j hj)
    (by simp [priv_UARThasBytes, e2]; omega)
  obtain ⟨buf, hb1, hb2, hb3, _⟩ := @readByte_ok (pollState k s1) sb
    (by rw [e2]; exact hn) (by rw [e2]; exact hn2) (by rw [e1, e2]; exact hlen)
    (by rw [e1]; exact hhead)
  obtain ⟨pb, pn, pf, hps⟩ := pollState_shape k s1
  have hsent1 : sent s1 = sent s ++ statusQuery fw := by
    rw [hs1]
    simp only [sent]
    simp [List.filterMap_append, List.filterMap_map]
    induction statusQuery fw with
    | nil => rfl
    | cons x xs ih => simp [List.filterMap_cons, ih]
  refine ⟨s1, _, h1, hsent1, hfound.trans hb1, ?_, ?_, ?_, ?_, ?_⟩
  · unfold therm_hasPaper
    rw [h1]
    simp only [ok_bind, hfound, hb1, pure_eq_ok, land4_eq_zero_iff]
  · rw [← hsent1]
    simp only [sent]
    rw [hps]
    exact sent_replicate_delay _ _
  · simp only [e2]
  · intro j hj
    rw [hb3 j (by rw [e2]; exact hj), e1]
  · rw [hps, hs1]; rfl

/-- C5, at a concrete run: the reply 4 arrives during the second delay, so
the third poll finds it, and the answer is "no paper". -/
theorem C5_hasPaper_status_bit_witness :
    ∃ s', therm_hasPaper 268 replyState = Except.ok (false, s') ∧ s'.rxptr = 0 := by
  obtain ⟨_, s', _, _, _, h1, _, h2, _⟩ :=
    C5_hasPaper_status_bit 268 replyState 2 4 rfl (by decide)
      (by intro j hj; interval_cases j <;> rfl) (by decide) (by decide) (by decide) rfl
  exact ⟨s', h1, h2⟩

theorem sent_eq_txOf (s : State) : sent s = txOf s.log := rfl

theorem arms_eq_armsOf (s : State) : arms s = armsOf s.log := rfl

theorem txOf_append (a b : List Ev) : txOf (a ++ b) = txOf a ++ txOf b := by
  simp [txOf, List.filterMap_append]

theorem armsOf_append (a b : List Ev) : armsOf (a ++ b) = armsOf a ++ armsOf b := by
  simp [armsOf, List.filterMap_append]

theorem pacedBytes_append (a b : List Nat) : pacedBytes (a ++ b) = pacedBytes a ++ pacedBytes b := by
  induction a with
  | nil => rfl
  | cons x xs ih => simp [pacedBytes, ih]

theorem txOf_pacedBytes (l : List Nat) : txOf (pacedBytes l) = l := by
  induction l with
  | nil => rfl
  | cons x xs ih =>
    rw [pacedBytes, txOf_append, ih]
    rfl

theorem armsOf_pacedBytes (l : List Nat) : armsOf (pacedBytes l) = List.replicate l.length 573 := by
  induction l with
  | nil => rfl
  | cons x xs ih =>
    rw [pacedBytes, armsOf_append, ih]
    rfl

theorem charAt_lt {text : List Nat} {i : Nat} (h : i < text.length) :
    charAt text i = Except.ok text[i] := by
  unfold charAt
  rw [List.get?_eq_getElem?, List.getElem?_append_left h, List.getElem?_eq_getElem h]
  rfl

theorem charAt_length (text : List Nat) : charAt text text.length = Except.ok 0 := by
  unfold charAt
  rw [List.get?_eq_getElem?, List.getElem?_append_right (le_refl _)]
  simp

theorem strlen_of_nonzero {text : List Nat} (h : ∀ c ∈ text, c ≠ 0) :
    strlen text = text.length := by
  unfold strlen
  rw [List.takeWhile_eq_self_iff.2]
  intro c hc
  simpa using h c hc

theorem barcodeDataLoop_ok (text : List Nat) : ∀ (n i : Nat) (s s' : State),
    i + n ≤ text.length → barcodeDataLoop text n i s = Except.ok s' →
    ∃ ms pin rt, s' =
      { s with systick_ms := ms, pin := pin, resumeTime := rt,
               log := s.log ++ pacedBytes ((text.drop i).take n) } := by
  intro n
  induction n with
  | zero =>
    intro i s s' _ h
    simp only [barcodeDataLoop, pure_eq_ok, Except.ok.injEq] at h
    subst h
    exact ⟨s.systick_ms, s.pin, s.resumeTime, by simp [pacedBytes]⟩
  | succ n ih =>
    intro i s s' hlen h
    rw [barcodeDataLoop, charAt_lt (by omega)] at h
    simp only [ok_bind] at h
    obtain ⟨s1, h1, h2⟩ := bind_eq_ok.1 h
    obtain ⟨ms1, pin1, rt1, hs1⟩ := writeBytes_ok h1
    obtain ⟨ms, pin, rt, hs'⟩ := ih (i + 1) s1 s' (by omega) h2
    refine ⟨ms, pin, rt, ?_⟩
    rw [hs', hs1]
    have hd : List.drop i text = text[i] :: List.drop (i + 1) text :=
      List.drop_eq_getElem_cons (by omega)
    rw [hd, List.take_succ_cons, pacedBytes]
    simp only [List.append_assoc]

theorem barcodeDataLoop_total (text : List Nat) : ∀ (n i : Nat) (s : State),
    i + n ≤ text.length → s.dtrEnabled = false →
    ∃ s', barcodeDataLoop text n i s = Except.ok s' := by
  intro n
  induction n with
  | zero => intro i s _ _; exact ⟨s, rfl⟩
  | succ n ih =>
    intro i s hlen hT
    obtain ⟨s1, h1⟩ := writeBytes_total text[i] hT
    obtain ⟨ms1, pin1, rt1, hs1⟩ := writeBytes_ok h1
    obtain ⟨s', h2⟩ := ih (i + 1) s1 (by omega) (by rw [hs1]; exact hT)
    exact ⟨s', by rw [barcodeDataLoop, charAt_lt (by omega)]; simp [h1, h2]⟩

theorem feed_new_ok {fw x : Nat} {s s' : State} (hfw : fw ≥ 264)
    (h : therm_feed fw x s = Except.ok s') :
    ∃ ms pin rt, s' =
      { s with systick_ms := ms, pin := pin, resumeTime := rt, prevByte := ASCII_LF, column := 0,
               log := s.log ++ [Ev.wait, Ev.tx ASCII_ESC, Ev.tx 100, Ev.tx x, Ev.arm 1719,
                                Ev.arm (u32 (s.dotFeedTime * s.charHeight))] } := by
  unfold therm_feed at h
  rw [if_pos hfw] at h
  obtain ⟨s1, h1, h2⟩ := bind_eq_ok.1 h
  obtain ⟨ms, pin, rt, hs1⟩ := write3Bytes_ok h1
  simp only [pure_eq_ok, Except.ok.injEq] at h2
  obtain ⟨rt2, h3⟩ := timeoutSet_shape (u32 (s1.dotFeedTime * s1.charHeight)) s1
  rw [h3] at h2
  refine ⟨ms, pin, rt2, ?_⟩
  rw [← h2, hs1]
  simp [u32]

theorem feed_new_total {fw : Nat} (x : Nat) {s : State} (hfw : fw ≥ 264)
    (hT : s.dtrEnabled = false) : ∃ s', therm_feed fw x s = Except.ok s' := by
  obtain ⟨s1, h1⟩ := write3Bytes_total ASCII_ESC 100 x hT
  unfold therm_feed
  rw [if_pos hfw, h1]
  exact ⟨_, rfl⟩

theorem printBarcode_new_ok {fw fuel type : Nat} {text : List Nat} {s s' : State}
    (hfw : fw ≥ 264) (htext : ∀ c ∈ text, c ≠ 0)
    (h : therm_printBarcode fw fuel text type s = Except.ok s') :
    (∃ ms pin rt, s' =
      { s with systick_ms := ms, pin := pin, resumeTime := rt, prevByte := ASCII_LF, column := 0,
               log := s.log ++ barcodeLogNew text type s }) ∧
    (s.dtrEnabled = false →
      s'.resumeTime = u32 (micros s' + u32 ((s.barcodeHeight + 40) * s.dotPrintTime))) := by
  unfold therm_printBarcode at h
  obtain ⟨s1, h1, h⟩ := bind_eq_ok.1 h
  obtain ⟨ms1, pin1, rt1, hs1⟩ := feed_new_ok hfw h1
  obtain ⟨s2, h2, h⟩ := bind_eq_ok.1 h
  obtain ⟨ms2, pin2, rt2, hs2⟩ := write3Bytes_ok h2
  obtain ⟨s3, h3, h⟩ := bind_eq_ok.1 h
  obtain ⟨ms3, pin3, rt3, hs3⟩ := write3Bytes_ok h3
  obtain ⟨s4, h4, h⟩ := bind_eq_ok.1 h
  obtain ⟨ms4, pin4, rt4, hs4⟩ := write3Bytes_ok h4
  obtain ⟨s5, h5, h⟩ := bind_eq_ok.1 h
  unfold barcodeData at h5
  rw [if_pos hfw, strlen_of_nonzero htext] at h5
  obtain ⟨s6, h6, h7⟩ := bind_eq_ok.1 h5
  obtain ⟨ms6, pin6, rt6, hs6⟩ := writeBytes_ok h6
  have hlen : (if text.length > 255 then 255 else text.length) = min text.length 255 := by
    split <;> omega
  rw [hlen] at h7
  obtain ⟨ms5, pin5, rt5, hs5⟩ := barcodeDataLoop_ok text _ 0 s6 s5 (by omega) h7
  simp only [pure_eq_ok, Except.ok.injEq] at h
  obtain ⟨rt7, h8⟩ := timeoutSet_shape (u32 ((s5.barcodeHeight + 40) * s5.dotPrintTime)) s5
  constructor
  · rw [h8] at h
    refine ⟨ms5, pin5, rt7, ?_⟩
    rw [← h, hs5, hs6, hs4, hs3, hs2, hs1]
    have hu : u8 (min text.length 255) = min text.length 255 := u8_of_lt (by omega)
    simp [barcodeLogNew, hlen, hu, u32]
  · intro hT
    have hT5 : s5.dtrEnabled = false := by rw [hs5, hs6, hs4, hs3, hs2, hs1]; exact hT
    have e1 : s5.barcodeHeight = s.barcodeHeight := by rw [hs5, hs6, hs4, hs3, hs2, hs1]
    have e2 : s5.dotPrintTime = s.dotPrintTime := by rw [hs5, hs6, hs4, hs3, hs2, hs1]
    rw [← h]
    simp [therm_therm_timeoutSet, hT5, record, micros, e1, e2, u32]

theorem printBarcode_new_total {fw : Nat} (fuel type : Nat) {text : List Nat} {s : State}
    (hfw : fw ≥ 264) (htext : ∀ c ∈ text, c ≠ 0) (hT : s.dtrEnabled = false) :
    ∃ s', therm_printBarcode fw fuel text type s = Except.ok s' := by
  obtain ⟨s1, h1⟩ := feed_new_total 1 hfw hT
  obtain ⟨ms1, pin1, rt1, hs1⟩ := feed_new_ok hfw h1
  have hT1 : s1.dtrEnabled = false := by rw [hs1]; exact hT
  obtain ⟨s2, h2⟩ := write3Bytes_total ASCII_GS 72 2 hT1
  obtain ⟨ms2, pin2, rt2, hs2⟩ := write3Bytes_ok h2
  have hT2 : s2.dtrEnabled = false := by rw [hs2]; exact hT1
  obtain ⟨s3, h3⟩ := write3Bytes_total ASCII_GS 119 3 hT2
  obtain ⟨ms3, pin3, rt3, hs3⟩ := write3Bytes_ok h3
  have hT3 : s3.dtrEnabled = false := by rw [hs3]; exact hT2
  obtain ⟨s4, h4⟩ := write3Bytes_total ASCII_GS 107 type hT3
  obtain ⟨ms4, pin4, rt4, hs4⟩ := write3Bytes_ok h4
  have hT4 : s4.dtrEnabled = false := by rw [hs4]; exact hT3
  have hlen : (if text.length > 255 then 255 else text.length) = min text.length 255 := by
    split <;> omega
  obtain ⟨s6, h6⟩ := writeBytes_total (u8 (min text.length 255)) hT4
  obtain ⟨ms6, pin6, rt6, hs6⟩ := writeBytes_ok h6
  have hT6 : s6.dtrEnabled = false := by rw [hs6]; exact hT4
  obtain ⟨s5, h5⟩ := barcodeDataLoop_total text (min text.length 255) 0 s6 (by omega) hT6
  have hdata : barcodeData fw fuel text s4 = Except.ok s5 := by
    unfold barcodeData
    rw [if_pos hfw, strlen_of_nonzero htext]
    simp only [hlen, h6, ok_bind, h5]
  unfold therm_printBarcode
  simp only [h1, h2, h3, h4, hdata, ok_bind, pure_eq_ok]
  exact ⟨_, rfl⟩

/-- C7.  On firmware >= 264, for every text of `n` non-NUL characters and
every type byte: whenever `therm_printBarcode` returns (it does in Timed
mode), the bytes it has sent are exactly ESC d 1, GS H 2, GS w 3, GS k type,
the length byte min(n, 255) and the first min(n, 255) characters of the text,
with no terminator; prevByte is the newline; the last call of
`therm_timeoutSet` has the argument (barcodeHeight + 40) * dotPrintTime in the driver's 32-bit
arithmetic, and in Timed mode resumeTime is the clock reading plus that
argument. -/
theorem C7_printBarcode_new_firmware (fw fuel type : Nat) (text : List Nat) (s : State)
    (hfw : fw ≥ 264) (htext : ∀ c ∈ text, c ≠ 0) :
    (∀ s', therm_printBarcode fw fuel text type s = Except.ok s' →
      sent s' = sent s ++
          [ASCII_ESC, 100, 1, ASCII_GS, 72, 2, ASCII_GS, 119, 3, ASCII_GS, 107, type]
          ++ [min text.length 255] ++ text.take (min text.length 255) ∧
      s'.prevByte = ASCII_LF ∧
      (arms s').getLast? = some (u32 ((s.barcodeHeight + 40) * s.dotPrintTime)) ∧
      (s.dtrEnabled = false →
        s'.resumeTime = u32 (micros s' + u32 ((s.barcodeHeight + 40) * s.dotPrintTime)))) ∧
    (s.dtrEnabled = false → ∃ s', therm_printBarcode fw fuel text type s = Except.ok s') := by
  constructor
  · intro s' h
    obtain ⟨⟨ms, pin, rt, hs⟩, hres⟩ := printBarcode_new_ok hfw htext h
    refine ⟨?_, by rw [hs], ?_, hres⟩
    · rw [sent_eq_txOf, sent_eq_txOf, hs]
      simp only [barcodeLogNew, txOf_append, txOf_pacedBytes]
      simp [txOf]
    · rw [arms_eq_armsOf, hs]
      simp only [barcodeLogNew, armsOf_append]
      rw [← List.append_assoc, ← List.append_assoc]
      exact List.getLast?_concat _
  · intro hT
    exact printBarcode_new_total fuel type hfw htext hT

set_option maxRecDepth 100000 in
/-- C7, at a 300-character text: the length byte is 255 and 255 characters
follow. -/

theorem C7_printBarcode_new_firmware_witness :
    ∃ s', therm_printBarcode 268 0 (List.replicate 300 65) 73 readyState = Except.ok s' ∧
      sent s' = [27, 100, 1, 29, 72, 2, 29, 119, 3, 29, 107, 73, 255] ++ List.replicate 255 65 ∧
      (arms s').getLast? = some 2700000 := by
  have h := C7_printBarcode_new_firmware 268 0 73 (List.replicate 300 65) readyState
    (by decide) (by intro c hc; rw [List.eq_of_mem_replicate hc]; decide)
  obtain ⟨s', hs'⟩ := h.2 rfl
  obtain ⟨h1, _, h3, _⟩ := h.1 s' hs'
  refine ⟨s', hs', ?_, ?_⟩
  · rw [h1]; rfl
  · rw [h3]; rfl

theorem i32_of_range {x : Int} (h1 : -2147483648 ≤ x) (h2 : x ≤ 2147483647) : i32 x = x := by
  unfold i32 toLong
  split <;> omega

theorem i32_natCast {n : Nat} (h : n ≤ 2147483647) : i32 (n : Int) = (n : Int) :=
  i32_of_range (by omega) (by omega)

theorem i32_succ {i : Nat} (h : i + 1 ≤ 2147483647) :
    i32 ((i : Int) + 1) = ((i + 1 : Nat) : Int) := by
  rw [i32_of_range (by omega) (by omega)]
  rfl

theorem i32_rowEnd {i c rb : Nat} (h1 : i + c ≤ 2147483647) (h2 : i + rb ≤ 2147483647) :
    i32 (((i + c : Nat) : Int) + i32 ((rb : Int) - (c : Int))) = ((i + rb : Nat) : Int) := by
  rw [i32_of_range (x := (rb : Int) - (c : Int)) (by omega) (by omega),
    i32_of_range (by omega) (by omega)]
  omega

theorem rowBytesOf_pos {w : Int} (hw : 1 ≤ w) (hw2 : w ≤ 2147483640) :
    1 ≤ rowBytesOf w ∧ w ≤ 8 * rowBytesOf w ∧ 8 * (rowBytesOf w - 1) < w ∧
      rowBytesOf w = (w + 7) / 8 := by
  have h : rowBytesOf w = (w + 7) / 8 := by
    unfold rowBytesOf
    rw [i32_of_range (by omega) (by omega)]
    exact Int.tdiv_eq_ediv (show (0 : Int) ≤ w + 7 by omega) (by omega)
  rw [h]
  omega

theorem rowBytesClippedOf_eq {w : Int} (hw : 1 ≤ w) (hw2 : w ≤ 2147483640) :
    rowBytesClippedOf w = min (rowBytesOf w) 48 ∧ 1 ≤ rowBytesClippedOf w ∧
      rowBytesClippedOf w ≤ 48 ∧ rowBytesClippedOf w ≤ rowBytesOf w := by
  have h := rowBytesOf_pos hw hw2
  unfold rowBytesClippedOf
  split <;> omega

theorem tdiv_256_bounds {c : Int} (h1 : 1 ≤ c) (h2 : c ≤ 48) :
    Int.tdiv 256 c = 256 / c ∧ 5 ≤ 256 / c ∧ 256 / c ≤ 256 := by
  have h : Int.tdiv 256 c = 256 / c :=
    Int.tdiv_eq_ediv (show (0 : Int) ≤ 256 by omega) (by omega)
  refine ⟨h, ?_, ?_⟩
  · rw [Int.le_ediv_iff_mul_le (by omega)]
    omega
  · exact Int.ediv_le_self _ (by omega)

/-- C10 (counterexample).  At width 2147483647 (at least 377) with
maxChunkHeight 255, in Timed mode: the clipped row length is -268435455, not
48, and the chunk-height limit is 1, not min(5, 255) = 5. -/
theorem C10_counterexample :
    rowBytesClippedOf 2147483647 = -268435455 ∧
      readyState.dtrEnabled = false ∧ readyState.maxChunkHeight = 255 ∧
      chunkHeightLimit (rowBytesClippedOf 2147483647) readyState = Except.ok 1 := by
  decide

/-- C10 (amended).  In Timed mode, for every width `1 <= w <= 2147483640`
(the widths for which the `int` sum `w + 7` does not overflow) and every
maxChunkHeight `m` in 1..255, the chunk-height limit that `therm_printBitmap`
computes is clamp(256 / clipped, 1, m) = min(256 / clipped, m), a value in
1..255, with clipped = min(rowBytes, 48) and rowBytes = ceil(w / 8); for
`w >= 377` clipped is 48 and the limit is min(5, m). -/
theorem C10_chunkHeightLimit_timed (w : Int) (s : State) (hw : 1 ≤ w) (hw2 : w ≤ 2147483640)
    (hT : s.dtrEnabled = false) (hm1 : 1 ≤ s.maxChunkHeight) (hm2 : s.maxChunkHeight ≤ 255) :
    chunkHeightLimit (rowBytesClippedOf w) s
        = Except.ok (clamp (256 / rowBytesClippedOf w) 1 s.maxChunkHeight) ∧
    clamp (256 / rowBytesClippedOf w) 1 s.maxChunkHeight
        = min (256 / rowBytesClippedOf w) s.maxChunkHeight ∧
    (1 ≤ clamp (256 / rowBytesClippedOf w) 1 s.maxChunkHeight ∧
      clamp (256 / rowBytesClippedOf w) 1 s.maxChunkHeight ≤ 255) ∧
    rowBytesClippedOf w = min (rowBytesOf w) 48 ∧
    (w ≤ 8 * rowBytesOf w ∧ 8 * (rowBytesOf w - 1) < w) ∧
    (377 ≤ w → rowBytesClippedOf w = 48 ∧
      chunkHeightLimit (rowBytesClippedOf w) s = Except.ok (min 5 (s.maxChunkHeight : Int))) := by
  obtain ⟨hc, hc1, hc2, _⟩ := rowBytesClippedOf_eq hw hw2
  obtain ⟨hr1, hr2, hr3, _⟩ := rowBytesOf_pos hw hw2
  obtain ⟨hd, hd1, hd2⟩ := tdiv_256_bounds hc1 hc2
  have hlim : chunkHeightLimit (rowBytesClippedOf w) s
      = Except.ok (min (256 / rowBytesClippedOf w) s.maxChunkHeight) := by
    unfold chunkHeightLimit
    simp only [hT, Bool.false_eq_true, if_false, show ¬ rowBytesClippedOf w = 0 by omega, hd]
    split
    · rw [pure_eq_ok, min_eq_right (by omega)]
    · rw [if_neg (by omega), pure_eq_ok, min_eq_left (by omega)]
  have hclamp : clamp (256 / rowBytesClippedOf w) 1 s.maxChunkHeight
      = min (256 / rowBytesClippedOf w) s.maxChunkHeight := by
    unfold clamp
    rw [max_eq_left (by omega)]
  refine ⟨by rw [hclamp]; exact hlim, hclamp, by rw [hclamp]; omega, hc, ⟨hr2, hr3⟩, ?_⟩
  intro h377
  have h48 : rowBytesClippedOf w = 48 := by omega
  refine ⟨h48, ?_⟩
  rw [hlim, h48]
  rfl

/-- C10, at the default maxChunkHeight 255 and the full width 384: the limit
is 5 rows. -/
theorem C10_chunkHeightLimit_timed_witness :
    chunkHeightLimit (rowBytesClippedOf 384) readyState = Except.ok 5 := by
  have h := (C10_chunkHeightLimit_timed 384 readyState (by decide) (by decide) rfl (by decide)
    (by decide)).2.2.2.2.2 (by decide)
  rw [h.2]
  rfl

theorem streamedBytes_append (a b : List Nat) :
    streamedBytes (a ++ b) = streamedBytes a ++ streamedBytes b := by
  induction a with
  | nil => rfl
  | cons x xs ih => simp [streamedBytes, ih]

theorem txOf_streamedBytes (l : List Nat) : txOf (streamedBytes l) = l := by
  induction l with
  | nil => rfl
  | cons x xs ih =>
    rw [streamedBytes, txOf_append, ih]
    rfl

theorem armsOf_streamedBytes (l : List Nat) : armsOf (streamedBytes l) = [] := by
  induction l with
  | nil => rfl
  | cons x xs ih =>
    rw [streamedBytes, armsOf_append, ih]
    rfl

theorem txOf_chunkLog (c dpt : Nat) (chunks : List (Nat × List Nat)) :
    txOf (chunkLog c dpt chunks) = chunkStream c chunks := by
  induction chunks with
  | nil => rfl
  | cons ch rest ih =>
    simp only [chunkLog, chunkStream, txOf_append, txOf_streamedBytes, ih]
    simp [txOf]

theorem rowsFrom_length (bitmap : List Nat) (rb c : Nat) : ∀ (n i : Nat),
    (n = 0 ∨ i + (n - 1) * rb + c ≤ bitmap.length) →
    (rowsFrom bitmap rb c n i).length = n * c := by
  intro n
  induction n with
  | zero => intro i _; simp [rowsFrom]
  | succ n ih =>
    intro i h
    have h1 : i + n * rb + c ≤ bitmap.length := by
      rcases h with h | h
      · omega
      · simpa using h
    have h2 : n = 0 ∨ (i + rb) + (n - 1) * rb + c ≤ bitmap.length := by
      rcases Nat.eq_zero_or_pos n with h0 | h0
      · exact Or.inl h0
      · right
        obtain ⟨m, rfl⟩ : ∃ m, n = m + 1 := ⟨n - 1, by omega⟩
        simp only [Nat.add_sub_cancel]
        have : (m + 1) * rb = m * rb + rb := by ring
        omega
    have h3 : i + c ≤ bitmap.length := by
      have : 0 ≤ n * rb := Nat.zero_le _
      omega
    rw [rowsFrom, List.length_append, ih (i + rb) h2, List.length_take, List.length_drop]
    have : (n + 1) * c = n * c + c := by ring
    omega

theorem rowsFrom_add (bitmap : List Nat) (rb c : Nat) : ∀ (a b i : Nat),
    rowsFrom bitmap rb c (a + b) i
      = rowsFrom bitmap rb c a i ++ rowsFrom bitmap rb c b (i + a * rb) := by
  intro a
  induction a with
  | zero => intro b i; simp [rowsFrom]
  | succ a ih =>
    intro b i
    have h1 : a + 1 + b = (a + b) + 1 := by omega
    have h2 : i + (a + 1) * rb = i + rb + a * rb := by ring
    rw [h1, rowsFrom, rowsFrom, ih, h2, List.append_assoc]

theorem bitmapAt_ok {bitmap : List Nat} {i b : Nat}
    (h : bitmapAt bitmap (i : Int) = Except.ok b) :
    ∃ hi : i < bitmap.length, bitmap[i] = b := by
  unfold bitmapAt at h
  rw [if_neg (by omega)] at h
  simp only [Int.toNat_ofNat, List.get?_eq_getElem?] at h
  by_cases hi : i < bitmap.length
  · rw [List.getElem?_eq_getElem hi] at h
    simp only [pure_eq_ok, Except.ok.injEq] at h
    exact ⟨hi, h⟩
  · rw [List.getElem?_eq_none (by omega)] at h
    simp at h

theorem bitmapAt_lt {bitmap : List Nat} {i : Nat} (hi : i < bitmap.length) :
    bitmapAt bitmap (i : Int) = Except.ok bitmap[i] := by
  unfold bitmapAt
  rw [if_neg (by omega)]
  simp only [Int.toNat_ofNat, List.get?_eq_getElem?, List.getElem?_eq_getElem hi]
  rfl

theorem bitmapRowLoop_ok (bitmap : List Nat) : ∀ (n i : Nat) (s : State) (r : Int × State),
    i + n ≤ 2147483647 →
    bitmapRowLoop bitmap n (i : Int) s = Except.ok r →
    r.1 = ((i + n : Nat) : Int) ∧ (n = 0 ∨ i + n ≤ bitmap.length) ∧
    ∃ ms pin, r.2 =
      { s with systick_ms := ms, pin := pin,
               log := s.log ++ streamedBytes ((bitmap.drop i).take n) } := by
  intro n
  induction n with
  | zero =>
    intro i s r _ h
    simp only [bitmapRowLoop, pure_eq_ok, Except.ok.injEq] at h
    subst h
    exact ⟨rfl, Or.inl rfl, s.systick_ms, s.pin, by simp [streamedBytes]⟩
  | succ n ih =>
    intro i s r hr h
    rw [bitmapRowLoop, i32_succ (by omega)] at h
    obtain ⟨s1, h1, h2⟩ := bind_eq_ok.1 h
    obtain ⟨ms1, pin1, hs1⟩ := timeoutWait_ok h1
    obtain ⟨b, h3, h4⟩ := bind_eq_ok.1 h2
    obtain ⟨hi, hb⟩ := bitmapAt_ok h3
    have h5 : bitmapRowLoop bitmap n ((i + 1 : Nat) : Int) (priv_writeByteToUART b s1)
        = Except.ok r := h4
    obtain ⟨e1, e2, ms, pin, e3⟩ := ih (i + 1) _ r (by omega) h5
    refine ⟨by rw [e1]; congr 1; omega, Or.inr (by omega), ms, pin, ?_⟩
    rw [e3, hs1, List.drop_eq_getElem_cons hi, List.take_succ_cons, hb]
    simp [priv_writeByteToUART, record, streamedBytes]

theorem bitmapRowLoop_total (bitmap : List Nat) : ∀ (n i : Nat) (s : State),
    i + n ≤ 2147483647 → i + n ≤ bitmap.length → s.dtrEnabled = false →
    ∃ r, bitmapRowLoop bitmap n (i : Int) s = Except.ok r := by
  intro n
  induction n with
  | zero => intro i s _ _ _; exact ⟨_, rfl⟩
  | succ n ih =>
    intro i s hrg hlen hT
    obtain ⟨r, hr⟩ := ih (i + 1)
      (priv_writeByteToUART bitmap[i]
        { s with systick_ms := wakeTick s.resumeTime s.systick_ms, log := s.log ++ [Ev.wait] })
      (by omega) (by omega) hT
    refine ⟨r, ?_⟩
    rw [bitmapRowLoop, i32_succ (by omega), timeoutWait_timed s hT]
    simp only [ok_bind, bitmapAt_lt (show i < bitmap.length by omega)]
    exact hr

theorem bitmapChunkRows_ok (bitmap : List Nat) (rb c : Nat) (hc : 1 ≤ c) (hcr : c ≤ rb) :
    ∀ (n i : Nat) (s : State) (r : Int × State),
    i + n * rb ≤ 2147483647 →
    bitmapChunkRows bitmap (rb : Int) (c : Int) n (i : Int) s = Except.ok r →
    r.1 = ((i + n * rb : Nat) : Int) ∧ (n = 0 ∨ i + (n - 1) * rb + c ≤ bitmap.length) ∧
    ∃ ms pin, r.2 =
      { s with systick_ms := ms, pin := pin,
               log := s.log ++ streamedBytes (rowsFrom bitmap rb c n i) } := by
  intro n
  induction n with
  | zero =>
    intro i s r _ h
    simp only [bitmapChunkRows, pure_eq_ok, Except.ok.injEq] at h
    subst h
    exact ⟨by simp, Or.inl rfl, s.systick_ms, s.pin, by simp [rowsFrom, streamedBytes]⟩
  | succ n ih =>
    intro i s r hrg h
    have hrg1 : (n + 1) * rb = n * rb + rb := by ring
    rw [bitmapChunkRows] at h
    obtain ⟨r1, h1, h2⟩ := bind_eq_ok.1 h
    simp only [Int.toNat_ofNat] at h1
    obtain ⟨e1, e2, ms1, pin1, e3⟩ := bitmapRowLoop_ok bitmap c i s r1 (by omega) h1
    have hpos : i32 (r1.1 + i32 ((rb : Int) - (c : Int))) = ((i + rb : Nat) : Int) := by
      rw [e1]; exact i32_rowEnd (by omega) (by omega)
    rw [hpos] at h2
    obtain ⟨f1, f2, ms, pin, f3⟩ := ih (i + rb) r1.2 r (by omega) h2
    have hic : i + c ≤ bitmap.length := by omega
    refine ⟨by rw [f1]; congr 1; ring, Or.inr ?_, ms, pin, ?_⟩
    · simp only [Nat.add_sub_cancel]
      rcases Nat.eq_zero_or_pos n with h0 | h0
      · subst h0; simpa using hic
      · rcases f2 with f2 | f2
        · omega
        · obtain ⟨m, rfl⟩ : ∃ m, n = m + 1 := ⟨n - 1, by omega⟩
          simp only [Nat.add_sub_cancel] at f2
          have : (m + 1) * rb = m * rb + rb := by ring
          omega
    · rw [f3, e3, rowsFrom, streamedBytes_append]
      simp

theorem bitmapChunkRows_total (bitmap : List Nat) (rb c : Nat) (hcr : c ≤ rb) :
    ∀ (n i : Nat) (s : State), i + n * rb ≤ 2147483647 →
    (n = 0 ∨ i + (n - 1) * rb + c ≤ bitmap.length) → s.dtrEnabled = false →
    ∃ r, bitmapChunkRows bitmap (rb : Int) (c : Int) n (i : Int) s = Except.ok r := by
  intro n
  induction n with
  | zero => intro i s _ _ _; exact ⟨_, rfl⟩
  | succ n ih =>
    intro i s hrg hlen hT
    have hrg1 : (n + 1) * rb = n * rb + rb := by ring
    have h1 : i + n * rb + c ≤ bitmap.length := by
      rcases hlen with h | h
      · omega
      · simpa using h
    have hic : i + c ≤ bitmap.length := by
      have : 0 ≤ n * rb := Nat.zero_le _
      omega
    obtain ⟨r1, hr1⟩ := bitmapRowLoop_total bitmap c i s (by omega) hic hT
    obtain ⟨e1, _, ms1, pin1, e3⟩ := bitmapRowLoop_ok bitmap c i s r1 (by omega) hr1
    have hpos : i32 (r1.1 + i32 ((rb : Int) - (c : Int))) = ((i + rb : Nat) : Int) := by
      rw [e1]; exact i32_rowEnd (by omega) (by omega)
    have h2 : n = 0 ∨ (i + rb) + (n - 1) * rb + c ≤ bitmap.length := by
      rcases Nat.eq_zero_or_pos n with h0 | h0
      · exact Or.inl h0
      · right
        obtain ⟨m, rfl⟩ : ∃ m, n = m + 1 := ⟨n - 1, by omega⟩
        simp only [Nat.add_sub_cancel]
        have : (m + 1) * rb = m * rb + rb := by ring
        omega
    obtain ⟨r, hr⟩ := ih (i + rb) r1.2 (by omega) h2 (by rw [e3]; exact hT)
    refine ⟨r, ?_⟩
    rw [bitmapChunkRows]
    simp only [Int.toNat_ofNat, hr1, ok_bind, hpos]
    exact hr

theorem chunkHeight_i32 {h rowStart : Nat} (L : Nat) (hlt : rowStart < h)
    (hh : h ≤ 2147483647) :
    (if i32 ((h : Int) - (rowStart : Int)) > (L : Int) then (L : Int)
      else i32 ((h : Int) - (rowStart : Int))) = ((min (h - rowStart) L : Nat) : Int) := by
  rw [i32_of_range (x := (h : Int) - (rowStart : Int)) (by omega) (by omega)]
  split <;> omega

theorem rowStart_i32 {h rowStart L : Nat} (hlt : rowStart < h) (hrg2 : h + L ≤ 2147483647) :
    i32 ((rowStart : Int) + (L : Int)) = ((rowStart + L : Nat) : Int) := by
  rw [i32_of_range (by omega) (by omega)]
  push_cast
  rfl

theorem chunk_range {h rb rowStart m i : Nat} (hrg : h * rb ≤ 2147483647)
    (hm : rowStart + m ≤ h) (hi : i = rowStart * rb) : i + m * rb ≤ 2147483647 := by
  have e1 : (rowStart + m) * rb ≤ h * rb := Nat.mul_le_mul_right rb hm
  have e2 : (rowStart + m) * rb = rowStart * rb + m * rb := by ring
  omega

theorem bitmapLoop_ok (bitmap : List Nat) (h rb c L : Nat) (hc : 1 ≤ c) (hc2 : c ≤ 255)
    (hcr : c ≤ rb) (hL : 1 ≤ L) (hL2 : L ≤ 255)
    (hrg : h * rb ≤ 2147483647) (hrg2 : h + L ≤ 2147483647) :
    ∀ (fuel rowStart i : Nat) (s s' : State), (rowStart < h → i = rowStart * rb) →
    bitmapLoop (h : Int) bitmap (rb : Int) (c : Int) (L : Int) fuel (rowStart : Int) (i : Int) s
      = Except.ok s' →
    ∃ chunks : List (Nat × List Nat),
      (∃ ms pin rt, s' =
        { s with systick_ms := ms, pin := pin, resumeTime := rt,
                 log := s.log ++ chunkLog c s.dotPrintTime chunks }) ∧
      (∀ ch ∈ chunks, 1 ≤ ch.1 ∧ ch.1 ≤ L ∧ ch.2.length = ch.1 * c) ∧
      chunkData chunks = rowsFrom bitmap rb c (h - rowStart) (rowStart * rb) := by
  intro fuel
  induction fuel with
  | zero =>
    intro rowStart i s s' _ hrun
    unfold bitmapLoop at hrun
    by_cases hlt : (rowStart : Int) < (h : Int)
    · rw [if_pos hlt] at hrun
      simp at hrun
    · rw [if_neg hlt] at hrun
      simp only [pure_eq_ok, Except.ok.injEq] at hrun
      subst hrun
      have h0 : h - rowStart = 0 := by omega
      exact ⟨[], ⟨s.systick_ms, s.pin, s.resumeTime, by simp [chunkLog]⟩,
        by simp, by rw [h0]; rfl⟩
  | succ fuel ih =>
    intro rowStart i s s' hi hrun
    unfold bitmapLoop at hrun
    by_cases hlt : (rowStart : Int) < (h : Int)
    · rw [if_pos hlt] at hrun
      have hlt' : rowStart < h := by omega
      have hch := chunkHeight_i32 L hlt' (show h ≤ 2147483647 by omega)
      simp only [hch] at hrun
      generalize hm : min (h - rowStart) L = m at hrun
      obtain ⟨s1, h1, hrun⟩ := bind_eq_ok.1 hrun
      obtain ⟨ms1, pin1, rt1, hs1⟩ := write4Bytes_ok h1
      obtain ⟨r, h2, hrun⟩ := bind_eq_ok.1 hrun
      simp only [Int.toNat_ofNat] at h2
      obtain ⟨e1, e2, ms2, pin2, e3⟩ := bitmapChunkRows_ok bitmap rb c hc hcr m i s1 r
        (chunk_range hrg (by omega) (hi hlt')) h2
      obtain ⟨rt3, h3⟩ := timeoutSet_shape
        (u32 (((m : Int) % 4294967296).toNat * r.2.dotPrintTime)) r.2
      rw [h3, e1] at hrun
      have hrs := rowStart_i32 hlt' hrg2
      rw [hrs] at hrun
      obtain ⟨chunks, ⟨ms, pin, rt, hs'⟩, hall, hdata⟩ :=
        ih (rowStart + L) (i + m * rb) _ s' (by
          intro hnext
          have hmin : m = L := by omega
          rw [hmin, hi hlt']
          ring) hrun
      have hmin1 : 1 ≤ m := by omega
      have hmin2 : m ≤ L := by omega
      have hlen : (rowsFrom bitmap rb c m i).length = m * c :=
        rowsFrom_length bitmap rb c _ i (by
          rcases e2 with e2 | e2
          · omega
          · exact Or.inr e2)
      refine ⟨(m, rowsFrom bitmap rb c m i) :: chunks, ⟨ms, pin, rt, ?_⟩, ?_, ?_⟩
      · rw [hs', e3, hs1]
        have hu1 : u8i (m : Int) = m := by unfold u8i; omega
        have hu2 : u8i (c : Int) = c := by unfold u8i; omega
        have hu3 : ((m : Int) % 4294967296).toNat = m := by omega
        simp [chunkLog, hu1, hu2, hu3, u32]
      · intro ch hmem
        rcases List.mem_cons.1 hmem with e | e
        · subst e
          exact ⟨hmin1, hmin2, hlen⟩
        · exact hall ch e
      · rw [chunkData, hdata, hi hlt']
        by_cases hfull : h - rowStart > L
        · have hmin : m = L := by omega
          have hsplit : h - rowStart = L + (h - (rowStart + L)) := by omega
          have e6 : (rowStart + L) * rb = rowStart * rb + L * rb := by ring
          rw [hmin, hsplit, rowsFrom_add, e6]
        · have hmin : m = h - rowStart := by omega
          have h0 : h - (rowStart + L) = 0 := by omega
          rw [hmin, h0]
          simp [rowsFrom]
    · rw [if_neg hlt] at hrun
      simp only [pure_eq_ok, Except.ok.injEq] at hrun
      subst hrun
      have h0 : h - rowStart = 0 := by omega
      exact ⟨[], ⟨s.systick_ms, s.pin, s.resumeTime, by simp [chunkLog]⟩,
        by simp, by rw [h0]; rfl⟩

theorem bitmapLoop_total (bitmap : List Nat) (h rb c L : Nat) (hc : 1 ≤ c) (hcr : c ≤ rb)
    (hL : 1 ≤ L) (hlen : h * rb ≤ bitmap.length)
    (hrg : h * rb ≤ 2147483647) (hrg2 : h + L ≤ 2147483647) :
    ∀ (fuel rowStart i : Nat) (s : State), (rowStart < h → i = rowStart * rb) →
    h ≤ rowStart + fuel * L → s.dtrEnabled = false →
    ∃ s', bitmapLoop (h : Int) bitmap (rb : Int) (c : Int) (L : Int) fuel (rowStart : Int)
      (i : Int) s = Except.ok s' := by
  intro fuel
  induction fuel with
  | zero =>
    intro rowStart i s _ hfuel _
    unfold bitmapLoop
    rw [if_neg (by omega)]
    exact ⟨s, rfl⟩
  | succ fuel ih =>
    intro rowStart i s hi hfuel hT
    unfold bitmapLoop
    by_cases hlt : (rowStart : Int) < (h : Int)
    · rw [if_pos hlt]
      have hlt' : rowStart < h := by omega
      have hch := chunkHeight_i32 L hlt' (show h ≤ 2147483647 by omega)
      simp only [hch]
      generalize hm : min (h - rowStart) L = m
      have hm1 : 1 ≤ m := by omega
      have hm2 : rowStart + m ≤ h := by omega
      obtain ⟨s1, h1⟩ := write4Bytes_total ASCII_DC2 42 (u8i (m : Int)) (u8i (c : Int)) hT
      obtain ⟨ms1, pin1, rt1, hs1⟩ := write4Bytes_ok h1
      have hT1 : s1.dtrEnabled = false := by rw [hs1]; exact hT
      have hbound : i + (m - 1) * rb + c ≤ bitmap.length := by
        have e1 : (rowStart + m) * rb ≤ h * rb := Nat.mul_le_mul_right rb hm2
        obtain ⟨k, rfl⟩ : ∃ k, m = k + 1 := ⟨m - 1, by omega⟩
        have e2 : (rowStart + (k + 1)) * rb = rowStart * rb + k * rb + rb := by ring
        rw [hi hlt']
        simp only [Nat.add_sub_cancel]
        omega
      obtain ⟨r, h2⟩ := bitmapChunkRows_total bitmap rb c hcr m i s1
        (chunk_range hrg (by omega) (hi hlt')) (Or.inr hbound) hT1
      obtain ⟨e1, _, ms2, pin2, e3⟩ := bitmapChunkRows_ok bitmap rb c hc hcr m i s1 r
        (chunk_range hrg (by omega) (hi hlt')) h2
      have hT2 : r.2.dtrEnabled = false := by rw [e3]; exact hT1
      obtain ⟨rt3, h3⟩ := timeoutSet_shape
        (u32 (((m : Int) % 4294967296).toNat * r.2.dotPrintTime)) r.2
      have hrs := rowStart_i32 hlt' hrg2
      obtain ⟨s', h4⟩ := ih (rowStart + L) (i + m * rb)
        (therm_therm_timeoutSet (u32 (((m : Int) % 4294967296).toNat * r.2.dotPrintTime)) r.2)
        (by
          intro hnext
          have hmin : m = L := by omega
          rw [hmin, hi hlt']
          ring)
        (by
          have : (fuel + 1) * L = fuel * L + L := by ring
          omega)
        (by rw [h3]; exact hT2)
      refine ⟨s', ?_⟩
      simp only [h1, ok_bind, Int.toNat_ofNat, h2, hrs, e1]
      exact h4
    · rw [if_neg hlt]
      exact ⟨s, rfl⟩

theorem bitmapLoop_zero_limit (bitmap : List Nat) (h rb c : Int) :
    ∀ (fuel : Nat) (rowStart i : Int) (s : State), rowStart < h →
    -2147483648 ≤ rowStart → rowStart ≤ 2147483647 → s.dtrEnabled = false →
    bitmapLoop h bitmap rb c 0 fuel rowStart i s = Except.error Fault.outOfFuel := by
  intro fuel
  induction fuel with
  | zero =>
    intro rowStart i s hlt _ _ _
    unfold bitmapLoop
    rw [if_pos hlt]
    rfl
  | succ fuel ih =>
    intro rowStart i s hlt hlo hhi hT
    unfold bitmapLoop
    rw [if_pos hlt]
    have hrs : i32 (rowStart + 0) = rowStart := by
      rw [add_zero]
      exact i32_of_range hlo hhi
    have hch : (if i32 (h - rowStart) > 0 then (0 : Int) else i32 (h - rowStart)) ≤ 0 := by
      split <;> omega
    dsimp only
    generalize (if i32 (h - rowStart) > 0 then (0 : Int) else i32 (h - rowStart)) = ch at hch ⊢
    have htn : ch.toNat = 0 := Int.toNat_eq_zero.2 hch
    obtain ⟨s1, h1⟩ := write4Bytes_total ASCII_DC2 42 (u8i ch) (u8i c) hT
    obtain ⟨ms1, pin1, rt1, hs1⟩ := write4Bytes_ok h1
    have hT1 : s1.dtrEnabled = false := by rw [hs1]; exact hT
    obtain ⟨rt3, h3⟩ := timeoutSet_shape
      (u32 ((ch % 4294967296).toNat * s1.dotPrintTime)) s1
    simp only [h1, ok_bind, htn, bitmapChunkRows, pure_eq_ok, hrs]
    exact ih rowStart i _ hlt hlo hhi (by rw [h3]; exact hT1)

theorem rowsFrom_eq_flatten (bitmap : List Nat) (rb c : Nat) : ∀ (n i : Nat),
    rowsFrom bitmap rb c n i
      = ((List.range n).map (fun r => (bitmap.drop (i + r * rb)).take c)).flatten := by
  intro n
  induction n with
  | zero => intro i; rfl
  | succ n ih =>
    intro i
    rw [rowsFrom_add bitmap rb c n 1 i, ih i, List.range_succ, List.map_append,
      List.flatten_append]
    simp [rowsFrom]

theorem rowsFrom_eq_clippedImage (bitmap : List Nat) (rb c h : Nat) :
    rowsFrom bitmap rb c h 0 = clippedImage bitmap rb c h := by
  rw [rowsFrom_eq_flatten]
  simp [clippedImage]

/-- C8 (code defect).  `therm_setMaxChunkHeight` stores any value whose low
byte is 0 (0, 256, ...) as maxChunkHeight 0.  Then, in Timed mode, for every
image with `1 <= w <= 2147483640` (the widths for which the `int` sum `w + 7`
does not overflow) and `h >= 1`, the chunk-height limit of
`therm_printBitmap` is 0, not at least 1 (the floor at 1 sits in the `else`
branch of the ceiling test and is skipped), the row counter never advances,
and the loop never ends: whatever the budget of passes, the run stops with it
used up. -/
theorem C8_printBitmap_zero_maxChunkHeight (fuel : Nat) (v w h : Int) (bitmap : List Nat)
    (s : State) (hT : s.dtrEnabled = false) (hv : v % 256 = 0) (hw : 1 ≤ w)
    (hw2 : w ≤ 2147483640) (hh : 1 ≤ h) :
    (therm_setMaxChunkHeight v s).maxChunkHeight = 0 ∧
    chunkHeightLimit (rowBytesClippedOf w) (therm_setMaxChunkHeight v s) = Except.ok 0 ∧
    therm_printBitmap fuel w h bitmap (therm_setMaxChunkHeight v s)
      = Except.error Fault.outOfFuel := by
  obtain ⟨hc, hc1, hc2, _⟩ := rowBytesClippedOf_eq hw hw2
  obtain ⟨hd, hd1, hd2⟩ := tdiv_256_bounds hc1 hc2
  have hm : (therm_setMaxChunkHeight v s).maxChunkHeight = 0 := by
    simp [therm_setMaxChunkHeight, u8i, hv]
  have hT' : (therm_setMaxChunkHeight v s).dtrEnabled = false := hT
  have hlim : chunkHeightLimit (rowBytesClippedOf w) (therm_setMaxChunkHeight v s)
      = Except.ok 0 := by
    unfold chunkHeightLimit
    simp only [hT', Bool.false_eq_true, if_false, show ¬ rowBytesClippedOf w = 0 by omega,
      hd, hm]
    rw [if_pos (by simp; omega)]
    rfl
  refine ⟨hm, hlim, ?_⟩
  unfold therm_printBitmap
  simp only [hlim, ok_bind]
  rw [bitmapLoop_zero_limit bitmap h _ _ fuel 0 0 _ (by omega) (by omega) (by omega) hT']
  rfl

/-- C8, at a one-row image of eight dots after `setMaxChunkHeight(0)`. -/
theorem C8_printBitmap_zero_maxChunkHeight_witness :
    therm_printBitmap 1000000 8 1 [255] (therm_setMaxChunkHeight 0 readyState)
      = Except.error Fault.outOfFuel :=
  (C8_printBitmap_zero_maxChunkHeight 1000000 0 8 1 [255] readyState rfl (by decide)
    (by decide) (by decide) (by decide)).2.2

theorem chunkHeightLimit_cases {c : Int} {s : State} {L : Int} (hc1 : 1 ≤ c) (hc2 : c ≤ 48)
    (hm : s.maxChunkHeight ≤ 255) (h : chunkHeightLimit c s = Except.ok L) :
    (1 ≤ L ∧ L ≤ 255) ∨ (L = 0 ∧ s.dtrEnabled = false) := by
  obtain ⟨hd, hd1, hd2⟩ := tdiv_256_bounds hc1 hc2
  unfold chunkHeightLimit at h
  cases hT : s.dtrEnabled
  · simp only [hT, Bool.false_eq_true, if_false, show ¬ c = 0 by omega, hd] at h
    by_cases h0 : L = 0
    · exact Or.inr ⟨h0, rfl⟩
    · left
      split at h
      · simp only [pure_eq_ok, Except.ok.injEq] at h
        omega
      · rw [if_neg (by omega)] at h
        simp only [pure_eq_ok, Except.ok.injEq] at h
        omega
  · simp only [hT, if_true, pure_eq_ok, Except.ok.injEq] at h
    left
    omega

theorem chunkHeightLimit_timed_total {c : Int} {s : State} (hc1 : 1 ≤ c) (hc2 : c ≤ 48)
    (hT : s.dtrEnabled = false) (hm1 : 1 ≤ s.maxChunkHeight) :
    ∃ L : Nat, 1 ≤ L ∧ chunkHeightLimit c s = Except.ok (L : Int) := by
  obtain ⟨hd, hd1, hd2⟩ := tdiv_256_bounds hc1 hc2
  unfold chunkHeightLimit
  simp only [hT, Bool.false_eq_true, if_false, show ¬ c = 0 by omega, hd]
  split
  · exact ⟨s.maxChunkHeight, hm1, rfl⟩
  · rw [if_neg (by omega)]
    exact ⟨(256 / c).toNat, by omega, by
      rw [pure_eq_ok]; congr 1; omega⟩

/-- C9 (counterexample).  In the state `therm_begin` leaves, the image of
width 2147483647 and height 1 over a source buffer of 268435456 = ceil(w / 8)
bytes: the `int` sum `w + 7` overflows, the row length comes out negative,
and the call sends the header 18, 42, 1, 1 and not one data byte, where the
claim has 48 data bytes after the header. -/
theorem C9_counterexample :
    (therm_printBitmap 1 2147483647 1 (List.replicate 268435456 7) readyState).map sent
      = Except.ok [18, 42, 1, 1] := by
  decide

/-- C9 (amended).  For every image whose size keeps the function's `int`
arithmetic from overflowing (`1 <= w <= 2147483640`, `0 <= h <= 2147483392`,
`h * rowBytes <= 2147483647`), whose source buffer has `h * rowBytes` bytes
(`rowBytes = ceil(w / 8)`, `clipped = min(rowBytes, 48)`), and every state
whose maxChunkHeight is a byte: whenever `therm_printBitmap`
returns, the bytes it has sent are a sequence of chunks, each a 4-byte header
DC2 '*' height clipped followed by height * clipped data bytes, and the data
bytes of all chunks together are exactly the first `clipped` bytes of each of
the `h` rows of the source, in order: `h * clipped` bytes, the trailing
`rowBytes - clipped` bytes of every row skipped; prevByte is the newline
afterwards.  In Timed mode with maxChunkHeight at least 1 and a budget of at
least `h` passes the operation does return. -/
theorem C9_printBitmap_data_stream (fuel : Nat) (w h : Int) (bitmap : List Nat) (s : State)
    (hw : 1 ≤ w) (hw2 : w ≤ 2147483640) (hh : 0 ≤ h) (hh2 : h ≤ 2147483392)
    (hsz : h * rowBytesOf w ≤ 2147483647)
    (hlen : bitmap.length = h.toNat * (rowBytesOf w).toNat)
    (hm : s.maxChunkHeight ≤ 255) :
    (∀ s', therm_printBitmap fuel w h bitmap s = Except.ok s' →
      ∃ chunks : List (Nat × List Nat),
        sent s' = sent s ++ chunkStream (rowBytesClippedOf w).toNat chunks ∧
        (∀ ch ∈ chunks, 1 ≤ ch.1 ∧ ch.1 ≤ 255 ∧
          ch.2.length = ch.1 * (rowBytesClippedOf w).toNat) ∧
        chunkData chunks
          = clippedImage bitmap (rowBytesOf w).toNat (rowBytesClippedOf w).toNat h.toNat ∧
        (chunkData chunks).length = h.toNat * (rowBytesClippedOf w).toNat ∧
        s'.prevByte = ASCII_LF) ∧
    (s.dtrEnabled = false → 1 ≤ s.maxChunkHeight → h.toNat ≤ fuel →
      ∃ s', therm_printBitmap fuel w h bitmap s = Except.ok s') := by
  obtain ⟨hc, hc1, hc2, hc3⟩ := rowBytesClippedOf_eq hw hw2
  obtain ⟨hr1, _, _, _⟩ := rowBytesOf_pos hw hw2
  obtain ⟨rb, hrb⟩ : ∃ rb : Nat, rowBytesOf w = (rb : Int) := ⟨(rowBytesOf w).toNat, by omega⟩
  obtain ⟨c, hcN⟩ : ∃ c : Nat, rowBytesClippedOf w = (c : Int) :=
    ⟨(rowBytesClippedOf w).toNat, by omega⟩
  obtain ⟨hN, hhN⟩ : ∃ hN : Nat, h = (hN : Int) := ⟨h.toNat, by omega⟩
  subst hhN
  simp only [hrb, hcN, Int.toNat_ofNat] at hlen ⊢
  have hrgN : hN * rb ≤ 2147483647 := by
    rw [hrb] at hsz
    exact_mod_cast hsz
  have hc1' : 1 ≤ c := by omega
  have hc2' : c ≤ 255 := by omega
  have hcr : c ≤ rb := by omega
  constructor
  · intro s' hrun
    unfold therm_printBitmap at hrun
    simp only [hrb, hcN] at hrun
    obtain ⟨L, hL, hrun2⟩ := bind_eq_ok.1 hrun
    obtain ⟨s1, hloop, hfin⟩ := bind_eq_ok.1 hrun2
    simp only [pure_eq_ok, Except.ok.injEq] at hfin
    have hbound : hN = 0 ∨ 0 + (hN - 1) * rb + c ≤ bitmap.length := by
      rcases Nat.eq_zero_or_pos hN with h0 | h0
      · exact Or.inl h0
      · right
        obtain ⟨k, rfl⟩ : ∃ k, hN = k + 1 := ⟨hN - 1, by omega⟩
        have : (k + 1) * rb = k * rb + rb := by ring
        simp only [Nat.add_sub_cancel]
        omega
    rcases chunkHeightLimit_cases (by omega) (by omega) hm hL with ⟨hL1, hL2⟩ | ⟨hL0, hT⟩
    · obtain ⟨LN, hLN⟩ : ∃ LN : Nat, L = (LN : Int) := ⟨L.toNat, by omega⟩
      subst hLN
      have hloop' : bitmapLoop (hN : Int) bitmap (rb : Int) (c : Int) (LN : Int) fuel
          ((0 : Nat) : Int) ((0 : Nat) : Int) s = Except.ok s1 := hloop
      obtain ⟨chunks, ⟨ms, pin, rt, hs1⟩, hall, hdata⟩ :=
        bitmapLoop_ok bitmap hN rb c LN hc1' hc2' hcr (by omega) (by omega) hrgN (by omega)
          fuel 0 0 s s1 (by intro _; simp) hloop'
      simp only [Nat.sub_zero, Nat.zero_mul] at hdata
      refine ⟨chunks, ?_, ?_, ?_, ?_, by rw [← hfin]⟩
      · rw [← hfin, sent_eq_txOf, sent_eq_txOf]
        simp only []
        rw [hs1]
        simp only [txOf_append, txOf_chunkLog]
      · intro ch hmem
        obtain ⟨a1, a2, a3⟩ := hall ch hmem
        exact ⟨a1, by omega, a3⟩
      · rw [hdata, rowsFrom_eq_clippedImage]
      · rw [hdata]
        exact rowsFrom_length bitmap rb c hN 0 hbound
    · subst hL0
      rcases Nat.eq_zero_or_pos hN with h0 | h0
      · subst h0
        unfold bitmapLoop at hloop
        rw [if_neg (by simp)] at hloop
        simp only [pure_eq_ok, Except.ok.injEq] at hloop
        subst hloop
        refine ⟨[], by rw [← hfin]; simp [chunkStream, sent], by simp, ?_, by simp [chunkData],
          by rw [← hfin]⟩
        simp [chunkData, clippedImage]
      · rw [bitmapLoop_zero_limit bitmap _ _ _ fuel 0 0 s (by omega) (by omega) (by omega) hT]
          at hloop
        simp at hloop
  · intro hT hm1 hfuel
    obtain ⟨LN, hLN1, hLN⟩ := chunkHeightLimit_timed_total (c := (c : Int)) (by omega)
      (by omega) hT hm1
    have hLN2 : LN ≤ 255 := by
      rcases chunkHeightLimit_cases (by omega) (by omega) hm hLN with ⟨_, h2⟩ | ⟨h0, _⟩
      · omega
      · omega
    obtain ⟨s1, hs1⟩ := bitmapLoop_total bitmap hN rb c LN hc1' hcr hLN1 (by omega) hrgN
      (by omega) fuel 0 0 s (by intro _; simp) (by
        have : fuel * 1 ≤ fuel * LN := Nat.mul_le_mul_left fuel hLN1
        omega) hT
    have hs1' : bitmapLoop (hN : Int) bitmap (rb : Int) (c : Int) (LN : Int) fuel 0 0 s
        = Except.ok s1 := hs1
    unfold therm_printBitmap
    simp only [hrb, hcN, hLN, ok_bind, hs1', pure_eq_ok]
    exact ⟨_, rfl⟩

/-- C9, at a 3-row image of 20 dots width. -/
theorem C9_printBitmap_data_stream_witness :
    ∃ s', therm_printBitmap 3 20 3 demoBitmap readyState = Except.ok s' ∧
      s'.prevByte = ASCII_LF := by
  have h := C9_printBitmap_data_stream 3 20 3 demoBitmap readyState (by decide) (by decide)
    (by decide) (by decide) (by decide) (by decide) (by decide)
  obtain ⟨s', hs'⟩ := h.2 rfl (by decide) (by decide)
  obtain ⟨_, _, _, _, _, h5⟩ := h.1 s' hs'
  exact ⟨s', hs', h5⟩

theorem quiet_of_colw {s s' : State} (h : colw s' = colw s) : Quiet s s' := by
  simp only [colw, Prod.mk.injEq] at h
  exact ⟨Or.inl h.2, Or.inl h.1⟩

theorem quiet_trans {s s1 s' : State} (h1 : Quiet s s1) (h2 : Quiet s1 s') : Quiet s s' := by
  obtain ⟨a1, a2⟩ := h1
  obtain ⟨b1, b2⟩ := h2
  constructor
  · rcases b1 with b1 | b1 | b1
    · rw [b1]; exact a1
    · exact Or.inr (Or.inl b1)
    · exact Or.inr (Or.inr b1)
  · rcases b2 with b2 | b2
    · rw [b2]; exact a2
    · exact Or.inr b2

theorem settings_colw {s s' : State} (h : settings s' = settings s) : colw s' = colw s := by
  simp only [settings, Prod.mk.injEq] at h
  simp [colw, h.2.2.1, h.2.2.2.1]

theorem settings_timeoutSet (x : Nat) (s : State) :
    settings (therm_therm_timeoutSet x s) = settings s := by
  obtain ⟨rt, h⟩ := timeoutSet_shape x s
  rw [h]; rfl

theorem settings_timeoutWait {s s' : State} (h : therm_therm_timeoutWait s = Except.ok s') :
    settings s' = settings s := by
  obtain ⟨ms, pin, rfl⟩ := timeoutWait_ok h
  rfl

theorem settings_writeBytes {a : Nat} {s s' : State} (h : priv_writeBytes a s = Except.ok s') :
    settings s' = settings s := by
  obtain ⟨ms, pin, rt, rfl⟩ := writeBytes_ok h
  rfl

theorem settings_write2Bytes {a b : Nat} {s s' : State}
    (h : priv_write2Bytes a b s = Except.ok s') : settings s' = settings s := by
  obtain ⟨ms, pin, rt, rfl⟩ := write2Bytes_ok h
  rfl

theorem settings_write3Bytes {a b c : Nat} {s s' : State}
    (h : priv_write3Bytes a b c s = Except.ok s') : settings s' = settings s := by
  obtain ⟨ms, pin, rt, rfl⟩ := write3Bytes_ok h
  rfl

theorem settings_write4Bytes {a b c d : Nat} {s s' : State}
    (h : priv_write4Bytes a b c d s = Except.ok s') : settings s' = settings s := by
  obtain ⟨ms, pin, rt, rfl⟩ := write4Bytes_ok h
  rfl

theorem settings_delay (ms : Nat) (s : State) : settings (priv_delay ms s) = settings s := by
  obtain ⟨buf, n, fut, h⟩ := delay_shape ms s
  rw [h]; rfl

theorem settings_readByte {s : State} {r : Int × State}
    (h : priv_readByteFromUART s = Except.ok r) : settings r.2 = settings s := by
  unfold priv_readByteFromUART at h
  split at h
  · split at h
    · simp at h
    · split at h
      · simp at h
      · obtain ⟨buf, _, h2⟩ := bind_eq_ok.1 h
        simp only [pure_eq_ok, Except.ok.injEq] at h2
        rw [← h2]; rfl
  · simp only [pure_eq_ok, Except.ok.injEq] at h
    rw [← h]

theorem settings_pollLoop : ∀ (n : Nat) (s : State) (r : Int × State),
    pollLoop n s = Except.ok r → settings r.2 = settings s := by
  intro n
  induction n with
  | zero =>
    intro s r h
    simp only [pollLoop, pure_eq_ok, Except.ok.injEq] at h
    rw [← h]
  | succ n ih =>
    intro s r h
    rw [pollLoop] at h
    split at h
    · exact settings_readByte h
    · exact (ih _ r h).trans (settings_delay 100 s)

theorem settings_wakeLoop : ∀ (n : Nat) (s s' : State),
    wakeLoop n s = Except.ok s' → settings s' = settings s := by
  intro n
  induction n with
  | zero =>
    intro s s' h
    simp only [wakeLoop, pure_eq_ok, Except.ok.injEq] at h
    rw [← h]
  | succ n ih =>
    intro s s' h
    rw [wakeLoop] at h
    obtain ⟨s1, h1, h2⟩ := bind_eq_ok.1 h
    exact ((ih _ s' h2).trans (settings_timeoutSet _ _)).trans (settings_writeBytes h1)

theorem settings_barcodeDataLoop (text : List Nat) : ∀ (n i : Nat) (s s' : State),
    barcodeDataLoop text n i s = Except.ok s' → settings s' = settings s := by
  intro n
  induction n with
  | zero =>
    intro i s s' h
    simp only [barcodeDataLoop, pure_eq_ok, Except.ok.injEq] at h
    rw [← h]
  | succ n ih =>
    intro i s s' h
    rw [barcodeDataLoop] at h
    obtain ⟨c, _, h1⟩ := bind_eq_ok.1 h
    obtain ⟨s1, h2, h3⟩ := bind_eq_ok.1 h1
    exact (ih _ _ s' h3).trans (settings_writeBytes h2)

theorem settings_barcodeCopyLoop (text : List Nat) : ∀ (fuel i : Nat) (s s' : State),
    barcodeCopyLoop text fuel i s = Except.ok s' → settings s' = settings s := by
  intro fuel
  induction fuel with
  | zero =>
    intro i s s' h
    simp [barcodeCopyLoop] at h
  | succ fuel ih =>
    intro i s s' h
    rw [barcodeCopyLoop] at h
    obtain ⟨c, _, h1⟩ := bind_eq_ok.1 h
    obtain ⟨s1, h2, h3⟩ := bind_eq_ok.1 h1
    split at h3
    · exact (ih _ _ s' h3).trans (settings_writeBytes h2)
    · simp only [pure_eq_ok, Except.ok.injEq] at h3
      rw [← h3]
      exact settings_writeBytes h2

theorem settings_bitmapRowLoop (bitmap : List Nat) : ∀ (n : Nat) (i : Int) (s : State)
    (r : Int × State), bitmapRowLoop bitmap n i s = Except.ok r → settings r.2 = settings s := by
  intro n
  induction n with
  | zero =>
    intro i s r h
    simp only [bitmapRowLoop, pure_eq_ok, Except.ok.injEq] at h
    rw [← h]
  | succ n ih =>
    intro i s r h
    rw [bitmapRowLoop] at h
    obtain ⟨s1, h1, h2⟩ := bind_eq_ok.1 h
    obtain ⟨b, _, h3⟩ := bind_eq_ok.1 h2
    have h4 : settings (priv_writeByteToUART b s1) = settings s1 := rfl
    exact ((ih _ _ r h3).trans h4).trans (settings_timeoutWait h1)

theorem settings_bitmapChunkRows (bitmap : List Nat) (rb c : Int) : ∀ (n : Nat) (i : Int)
    (s : State) (r : Int × State),
    bitmapChunkRows bitmap rb c n i s = Except.ok r → settings r.2 = settings s := by
  intro n
  induction n with
  | zero =>
    intro i s r h
    simp only [bitmapChunkRows, pure_eq_ok, Except.ok.injEq] at h
    rw [← h]
  | succ n ih =>
    intro i s r h
    rw [bitmapChunkRows] at h
    obtain ⟨r1, h1, h2⟩ := bind_eq_ok.1 h
    exact (ih _ _ r h2).trans (settings_bitmapRowLoop bitmap _ _ _ r1 h1)

theorem settings_bitmapLoop (h : Int) (bitmap : List Nat) (rb c L : Int) :
    ∀ (fuel : Nat) (rowStart i : Int) (s s' : State),
    bitmapLoop h bitmap rb c L fuel rowStart i s = Except.ok s' → settings s' = settings s := by
  intro fuel
  induction fuel with
  | zero =>
    intro rowStart i s s' hrun
    unfold bitmapLoop at hrun
    split at hrun
    · simp at hrun
    · simp only [pure_eq_ok, Except.ok.injEq] at hrun
      rw [← hrun]
  | succ fuel ih =>
    intro rowStart i s s' hrun
    unfold bitmapLoop at hrun
    split at hrun
    · obtain ⟨s1, h1, h2⟩ := bind_eq_ok.1 hrun
      obtain ⟨r, h3, h4⟩ := bind_eq_ok.1 h2
      exact (((ih _ _ _ s' h4).trans (settings_timeoutSet _ _)).trans
        (settings_bitmapChunkRows bitmap _ _ _ _ _ r h3)).trans (settings_write4Bytes h1)
    · simp only [pure_eq_ok, Except.ok.injEq] at hrun
      rw [← hrun]

theorem colw_writeBytes {a : Nat} {s s' : State} (h : priv_writeBytes a s = Except.ok s') :
    colw s' = colw s := settings_colw (settings_writeBytes h)

theorem colw_write2Bytes {a b : Nat} {s s' : State}
    (h : priv_write2Bytes a b s = Except.ok s') : colw s' = colw s :=
  settings_colw (settings_write2Bytes h)

theorem colw_write3Bytes {a b c : Nat} {s s' : State}
    (h : priv_write3Bytes a b c s = Except.ok s') : colw s' = colw s :=
  settings_colw (settings_write3Bytes h)

theorem colw_write4Bytes {a b c d : Nat} {s s' : State}
    (h : priv_write4Bytes a b c d s = Except.ok s') : colw s' = colw s :=
  settings_colw (settings_write4Bytes h)

theorem setPrintMode_quiet {mask : Nat} {s s' : State}
    (h : priv_setPrintMode mask s = Except.ok s') : Quiet s s' := by
  unfold priv_setPrintMode priv_writePrintMode at h
  obtain ⟨s1, h1, h2⟩ := bind_eq_ok.1 h
  have hc := colw_write3Bytes h1
  simp only [colw, Prod.mk.injEq] at hc
  simp only [pure_eq_ok, Except.ok.injEq] at h2
  rw [← h2]
  refine ⟨Or.inr ?_, Or.inl hc.1⟩
  simp only []
  split
  · exact Or.inl rfl
  · exact Or.inr rfl

theorem unsetPrintMode_quiet {mask : Nat} {s s' : State}
    (h : priv_unsetPrintMode mask s = Except.ok s') : Quiet s s' := by
  unfold priv_unsetPrintMode priv_writePrintMode at h
  obtain ⟨s1, h1, h2⟩ := bind_eq_ok.1 h
  have hc := colw_write3Bytes h1
  simp only [colw, Prod.mk.injEq] at hc
  simp only [pure_eq_ok, Except.ok.injEq] at h2
  rw [← h2]
  refine ⟨Or.inr ?_, Or.inl hc.1⟩
  simp only []
  split
  · exact Or.inl rfl
  · exact Or.inr rfl

theorem write_shape {c : Nat} {s : State} {r : Nat × State} (h : write c s = Except.ok r) :
    Quiet s r.2 ∨
      (r.2.maxColumn = s.maxColumn ∧ r.2.column = u8 (s.column + 1) ∧ s.column ≠ s.maxColumn) := by
  by_cases hc : c = 0x13
  · rw [hc, write_dropped] at h
    simp only [Except.ok.injEq] at h
    rw [← h]
    exact Or.inl (quiet_of_colw rfl)
  · obtain ⟨_, ms, pin, rt, hs⟩ := write_ok hc h
    by_cases hw : c = ASCII_LF ∨ s.column = s.maxColumn
    · rw [if_pos hw] at hs
      rw [hs]
      exact Or.inl ⟨Or.inl rfl, Or.inr rfl⟩
    · rw [if_neg hw] at hs
      rw [hs]
      exact Or.inr ⟨rfl, rfl, fun e => hw (Or.inr e)⟩

theorem feedLoop_quiet : ∀ (x : Nat) (s s' : State), feedLoop x s = Except.ok s' → Quiet s s' := by
  intro x
  induction x with
  | zero =>
    intro s s' h
    simp only [feedLoop, pure_eq_ok, Except.ok.injEq] at h
    rw [← h]
    exact quiet_of_colw rfl
  | succ x ih =>
    intro s s' h
    rw [feedLoop] at h
    obtain ⟨r, h1, h2⟩ := bind_eq_ok.1 h
    obtain ⟨_, ms, pin, rt, hs⟩ := write_ok (show ASCII_LF ≠ 0x13 by decide) h1
    rw [if_pos (Or.inl rfl)] at hs
    have hq : Quiet s r.2 := by rw [hs]; exact ⟨Or.inl rfl, Or.inr rfl⟩
    exact quiet_trans hq (ih _ _ h2)

theorem feed_quiet {fw x : Nat} {s s' : State} (h : therm_feed fw x s = Except.ok s') :
    Quiet s s' := by
  unfold therm_feed at h
  split at h
  · obtain ⟨s1, h1, h2⟩ := bind_eq_ok.1 h
    have hc := colw_write3Bytes h1
    simp only [colw, Prod.mk.injEq] at hc
    simp only [pure_eq_ok, Except.ok.injEq] at h2
    have hs := settings_colw (settings_timeoutSet (u32 (s1.dotFeedTime * s1.charHeight)) s1)
    simp only [colw, Prod.mk.injEq] at hs
    rw [← h2]
    exact ⟨Or.inl (hs.2.trans hc.2), Or.inr rfl⟩
  · exact feedLoop_quiet x s s' h

theorem feedRows_quiet {rows : Nat} {s s' : State} (h : therm_feedRows rows s = Except.ok s') :
    Quiet s s' := by
  unfold therm_feedRows at h
  obtain ⟨s1, h1, h2⟩ := bind_eq_ok.1 h
  have hc := colw_write3Bytes h1
  simp only [colw, Prod.mk.injEq] at hc
  simp only [pure_eq_ok, Except.ok.injEq] at h2
  have hs := settings_colw (settings_timeoutSet (u32 (rows * s1.dotFeedTime)) s1)
  simp only [colw, Prod.mk.injEq] at hs
  rw [← h2]
  exact ⟨Or.inl (hs.2.trans hc.2), Or.inr rfl⟩

theorem setSize_quiet {value : Nat} {s s' : State} (h : therm_setSize value s = Except.ok s') :
    Quiet s s' := by
  unfold therm_setSize at h
  obtain ⟨s1, h1, h2⟩ := bind_eq_ok.1 h
  have hc := colw_write3Bytes h1
  simp only [colw, Prod.mk.injEq] at hc
  simp only [pure_eq_ok, Except.ok.injEq] at h2
  rw [← h2]
  refine ⟨Or.inr ?_, Or.inl ?_⟩
  · simp only [hc.2]
    split
    · exact Or.inr rfl
    · split
      · exact Or.inl rfl
      · exact Or.inr rfl
  · simp only [hc.1]
    split
    · rfl
    · split <;> rfl

theorem reset_colw {fw : Nat} {s s' : State} (h : therm_reset fw s = Except.ok s') :
    s'.column = 0 ∧ s'.maxColumn = 32 := by
  unfold therm_reset at h
  obtain ⟨s1, h1, h2⟩ := bind_eq_ok.1 h
  split at h2
  · obtain ⟨s2, h3, h4⟩ := bind_eq_ok.1 h2
    obtain ⟨s3, h5, h6⟩ := bind_eq_ok.1 h4
    have e := ((colw_write4Bytes h6).trans (colw_write4Bytes h5)).trans (colw_write2Bytes h3)
    simp only [colw, Prod.mk.injEq] at e
    exact e
  · simp only [pure_eq_ok, Except.ok.injEq] at h2
    rw [← h2]
    exact ⟨rfl, rfl⟩

theorem wake_colw {fw : Nat} {s s' : State} (h : therm_therm_wake fw s = Except.ok s') :
    colw s' = colw s := by
  unfold therm_therm_wake at h
  obtain ⟨s1, h1, h2⟩ := bind_eq_ok.1 h
  have e1 := (colw_writeBytes h1).trans (settings_colw (settings_timeoutSet 0 s))
  split at h2
  · exact ((colw_write4Bytes h2).trans (settings_colw (settings_delay 50 s1))).trans e1
  · exact (settings_colw (settings_wakeLoop 10 s1 s' h2)).trans e1

theorem enableDtr_colw {s s' : State} (h : enableDtr s = Except.ok s') : colw s' = colw s := by
  unfold enableDtr at h
  split at h
  · obtain ⟨s1, h1, h2⟩ := bind_eq_ok.1 h
    simp only [pure_eq_ok, Except.ok.injEq] at h2
    rw [← h2]
    exact (show colw { s1 with dtrEnabled := true } = colw s1 from rfl).trans
      (colw_write3Bytes h1)
  · simp only [pure_eq_ok, Except.ok.injEq] at h
    rw [← h]

theorem begin_colw {fw heatTime : Nat} {s s' : State}
    (h : therm_begin fw heatTime s = Except.ok s') : s'.column = 0 ∧ s'.maxColumn = 32 := by
  unfold therm_begin at h
  obtain ⟨s1, _, h⟩ := bind_eq_ok.1 h
  obtain ⟨s2, h2, h⟩ := bind_eq_ok.1 h
  obtain ⟨s3, h3, h⟩ := bind_eq_ok.1 h
  obtain ⟨s4, h4, h⟩ := bind_eq_ok.1 h
  obtain ⟨s5, h5, h⟩ := bind_eq_ok.1 h
  obtain ⟨s6, h6, h⟩ := bind_eq_ok.1 h
  simp only [pure_eq_ok, Except.ok.injEq] at h
  have e := (((enableDtr_colw h6).trans (colw_write3Bytes h5)).trans
    (colw_write3Bytes h4)).trans (colw_write2Bytes h3)
  simp only [colw, Prod.mk.injEq] at e
  obtain ⟨r1, r2⟩ := reset_colw h2
  rw [← h]
  exact ⟨e.1.trans r1, e.2.trans r2⟩

theorem inverseOff_quiet {fw : Nat} {s s' : State}
    (h : therm_therm_inverseOff fw s = Except.ok s') : Quiet s s' := by
  unfold therm_therm_inverseOff at h
  split at h
  · exact quiet_of_colw (colw_write3Bytes h)
  · exact unsetPrintMode_quiet h

theorem inverseOn_quiet {fw : Nat} {s s' : State}
    (h : therm_inverseOn fw s = Except.ok s') : Quiet s s' := by
  unfold therm_inverseOn at h
  split at h
  · exact quiet_of_colw (colw_write3Bytes h)
  · exact setPrintMode_quiet h

theorem setLineHeight_colw {val : Int} {s s' : State}
    (h : therm_setLineHeight val s = Except.ok s') : colw s' = colw s := by
  unfold therm_setLineHeight at h
  have e := colw_write3Bytes h
  exact e

theorem setBarcodeHeight_colw {val : Nat} {s s' : State}
    (h : therm_setBarcodeHeight val s = Except.ok s') : colw s' = colw s := by
  unfold therm_setBarcodeHeight at h
  have e := colw_write3Bytes h
  exact e

theorem setDefault_quiet {fw : Nat} {s s' : State}
    (h : therm_setDefault fw s = Except.ok s') : Quiet s s' := by
  unfold therm_setDefault at h
  obtain ⟨s1, h1, h⟩ := bind_eq_ok.1 h
  obtain ⟨s2, h2, h⟩ := bind_eq_ok.1 h
  obtain ⟨s3, h3, h⟩ := bind_eq_ok.1 h
  obtain ⟨s4, h4, h⟩ := bind_eq_ok.1 h
  obtain ⟨s5, h5, h⟩ := bind_eq_ok.1 h
  obtain ⟨s6, h6, h⟩ := bind_eq_ok.1 h
  obtain ⟨s7, h7, h⟩ := bind_eq_ok.1 h
  obtain ⟨s8, h8, h⟩ := bind_eq_ok.1 h
  obtain ⟨s9, h9, h⟩ := bind_eq_ok.1 h
  obtain ⟨s10, h10, h⟩ := bind_eq_ok.1 h
  have q1 : Quiet s s1 := quiet_of_colw (colw_write3Bytes h1)
  have q2 : Quiet s1 s2 := quiet_of_colw (colw_write3Bytes h2)
  have q3 : Quiet s2 s3 := inverseOff_quiet h3
  have q4 : Quiet s3 s4 := unsetPrintMode_quiet h4
  have q5 : Quiet s4 s5 := quiet_of_colw (setLineHeight_colw h5)
  have q6 : Quiet s5 s6 := unsetPrintMode_quiet h6
  have q7 : Quiet s6 s7 := quiet_of_colw (colw_write3Bytes h7)
  have q8 : Quiet s7 s8 := quiet_of_colw (setBarcodeHeight_colw h8)
  have q9 : Quiet s8 s9 := setSize_quiet h9
  have q10 : Quiet s9 s10 := quiet_of_colw (colw_write3Bytes h10)
  have q11 : Quiet s10 s' := quiet_of_colw (colw_write3Bytes h)
  exact quiet_trans q1 (quiet_trans q2 (quiet_trans q3 (quiet_trans q4 (quiet_trans q5
    (quiet_trans q6 (quiet_trans q7 (quiet_trans q8 (quiet_trans q9
    (quiet_trans q10 q11)))))))))

theorem barcodeData_colw {fw fuel : Nat} {text : List Nat} {s s' : State}
    (h : barcodeData fw fuel text s = Except.ok s') : colw s' = colw s := by
  unfold barcodeData at h
  split at h
  · obtain ⟨s1, h1, h2⟩ := bind_eq_ok.1 h
    exact (settings_colw (settings_barcodeDataLoop text _ _ _ _ h2)).trans (colw_writeBytes h1)
  · exact settings_colw (settings_barcodeCopyLoop text _ _ _ _ h)

theorem printBarcode_quiet {fw fuel type : Nat} {text : List Nat} {s s' : State}
    (h : therm_printBarcode fw fuel text type s = Except.ok s') : Quiet s s' := by
  unfold therm_printBarcode at h
  obtain ⟨s1, h1, h⟩ := bind_eq_ok.1 h
  obtain ⟨s2, h2, h⟩ := bind_eq_ok.1 h
  obtain ⟨s3, h3, h⟩ := bind_eq_ok.1 h
  obtain ⟨s4, h4, h⟩ := bind_eq_ok.1 h
  obtain ⟨s5, h5, h⟩ := bind_eq_ok.1 h
  simp only [pure_eq_ok, Except.ok.injEq] at h
  have e0 := settings_colw
    (settings_timeoutSet (u32 ((s5.barcodeHeight + 40) * s5.dotPrintTime)) s5)
  have e : colw s' = colw s1 := by
    rw [← h]
    exact (show colw { therm_therm_timeoutSet (u32 ((s5.barcodeHeight + 40) * s5.dotPrintTime)) s5
        with prevByte := ASCII_LF } = colw s5 from e0).trans
      ((((barcodeData_colw h5).trans (colw_write3Bytes h4)).trans (colw_write3Bytes h3)).trans
        (colw_write3Bytes h2))
  exact quiet_trans (feed_quiet h1) (quiet_of_colw e)

theorem printBitmap_colw {fuel : Nat} {w h : Int} {bitmap : List Nat} {s s' : State}
    (hrun : therm_printBitmap fuel w h bitmap s = Except.ok s') : colw s' = colw s := by
  unfold therm_printBitmap at hrun
  obtain ⟨L, _, h1⟩ := bind_eq_ok.1 hrun
  obtain ⟨s1, h2, h3⟩ := bind_eq_ok.1 h1
  simp only [pure_eq_ok, Except.ok.injEq] at h3
  rw [← h3]
  exact (show colw { s1 with prevByte := ASCII_LF } = colw s1 from rfl).trans
    (settings_colw (settings_bitmapLoop _ _ _ _ _ _ _ _ _ _ h2))

theorem hasPaper_colw {fw : Nat} {s : State} {r : Bool × State}
    (h : therm_hasPaper fw s = Except.ok r) : colw r.2 = colw s := by
  unfold therm_hasPaper at h
  obtain ⟨s1, h1, h2⟩ := bind_eq_ok.1 h
  obtain ⟨r1, h3, h4⟩ := bind_eq_ok.1 h2
  simp only [pure_eq_ok, Except.ok.injEq] at h4
  rw [← h4]
  obtain ⟨ms, pin, rt, hs1⟩ := statusQuery_ok h1
  exact (settings_colw (settings_pollLoop 10 s1 r1 h3)).trans (by rw [hs1]; rfl)

theorem sleepAfter_colw {fw seconds : Nat} {s s' : State}
    (h : therm_sleepAfter fw seconds s = Except.ok s') : colw s' = colw s := by
  unfold therm_sleepAfter at h
  split at h
  · exact colw_write4Bytes h
  · exact colw_write3Bytes h

theorem tab_shape {s s' : State} (h : therm_tab s = Except.ok s') :
    s'.maxColumn = s.maxColumn ∧ s'.column = u8 ((s.column + 4) &&& 0b11111100) := by
  unfold therm_tab at h
  obtain ⟨s1, h1, h2⟩ := bind_eq_ok.1 h
  have hc := colw_writeBytes h1
  simp only [colw, Prod.mk.injEq] at hc
  simp only [pure_eq_ok, Except.ok.injEq] at h2
  rw [← h2]
  exact ⟨hc.2, by simp only [hc.1]⟩

theorem step_shape {fw fuel : Nat} {op : Op} {s s' : State}
    (h : step fw fuel op s = Except.ok s') :
    Quiet s s' ∨
    (s'.maxColumn = s.maxColumn ∧ s'.column = u8 (s.column + 1) ∧ s.column ≠ s.maxColumn) ∨
    (op.isTab = true ∧ s'.maxColumn = s.maxColumn ∧
      s'.column = u8 ((s.column + 4) &&& 0b11111100)) := by
  cases op with
  | init =>
    simp only [step, pure_eq_ok, Except.ok.injEq] at h
    rw [← h]; exact Or.inl (quiet_of_colw rfl)
  | write c =>
    simp only [step] at h
    obtain ⟨r, h1, h2⟩ := bind_eq_ok.1 h
    simp only [pure_eq_ok, Except.ok.injEq] at h2
    rw [← h2]
    rcases write_shape h1 with q | q
    · exact Or.inl q
    · exact Or.inr (Or.inl q)
  | begin heatTime =>
    obtain ⟨e1, e2⟩ := begin_colw (show therm_begin fw (u8 heatTime) s = Except.ok s' from h)
    exact Or.inl ⟨Or.inr (Or.inr e2), Or.inr e1⟩
  | boldOff => exact Or.inl (unsetPrintMode_quiet (show priv_unsetPrintMode BOLD_MASK s = _ from h))
  | boldOn => exact Or.inl (setPrintMode_quiet (show priv_setPrintMode BOLD_MASK s = _ from h))
  | doubleHeightOff =>
    exact Or.inl (unsetPrintMode_quiet (show priv_unsetPrintMode DOUBLE_HEIGHT_MASK s = _ from h))
  | doubleHeightOn =>
    exact Or.inl (setPrintMode_quiet (show priv_setPrintMode DOUBLE_HEIGHT_MASK s = _ from h))
  | doubleWidthOff =>
    exact Or.inl (unsetPrintMode_quiet (show priv_unsetPrintMode DOUBLE_WIDTH_MASK s = _ from h))
  | doubleWidthOn =>
    exact Or.inl (setPrintMode_quiet (show priv_setPrintMode DOUBLE_WIDTH_MASK s = _ from h))
  | feed x => exact Or.inl (feed_quiet (show therm_feed fw (u8 x) s = _ from h))
  | feedRows rows => exact Or.inl (feedRows_quiet (show therm_feedRows (u8 rows) s = _ from h))
  | flush =>
    exact Or.inl (quiet_of_colw (colw_writeBytes (show priv_writeBytes ASCII_FF s = _ from h)))
  | inverseOff => exact Or.inl (inverseOff_quiet (show therm_therm_inverseOff fw s = _ from h))
  | inverseOn => exact Or.inl (inverseOn_quiet (show therm_inverseOn fw s = _ from h))
  | justify value =>
    simp only [step, therm_justify] at h
    exact Or.inl (quiet_of_colw (colw_write3Bytes h))
  | offline =>
    exact Or.inl (quiet_of_colw (colw_write3Bytes (show priv_write3Bytes ASCII_ESC 61 0 s = _ from h)))
  | online =>
    exact Or.inl (quiet_of_colw (colw_write3Bytes (show priv_write3Bytes ASCII_ESC 61 1 s = _ from h)))
  | printBarcode text type =>
    exact Or.inl (printBarcode_quiet
      (show therm_printBarcode fw fuel (text.map u8) (u8 type) s = _ from h))
  | printBitmap w hh bitmap =>
    exact Or.inl (quiet_of_colw (printBitmap_colw
      (show therm_printBitmap fuel (i32 w) (i32 hh) (bitmap.map u8) s = _ from h)))
  | normal =>
    simp only [step, therm_normal, priv_writePrintMode] at h
    have e := colw_write3Bytes h
    exact Or.inl (quiet_of_colw e)
  | reset =>
    obtain ⟨e1, e2⟩ := reset_colw (show therm_reset fw s = Except.ok s' from h)
    exact Or.inl ⟨Or.inr (Or.inr e2), Or.inr e1⟩
  | setBarcodeHeight val =>
    exact Or.inl (quiet_of_colw (setBarcodeHeight_colw
      (show therm_setBarcodeHeight (u8 val) s = _ from h)))
  | setCharSpacing spacing =>
    simp only [step, therm_setCharSpacing] at h
    exact Or.inl (quiet_of_colw (colw_write3Bytes h))
  | setCharset val =>
    simp only [step, therm_setCharset] at h
    exact Or.inl (quiet_of_colw (colw_write3Bytes h))
  | setCodePage val =>
    simp only [step, therm_setCodePage] at h
    exact Or.inl (quiet_of_colw (colw_write3Bytes h))
  | setDefault => exact Or.inl (setDefault_quiet (show therm_setDefault fw s = _ from h))
  | setLineHeight val =>
    exact Or.inl (quiet_of_colw (setLineHeight_colw (show therm_setLineHeight val s = _ from h)))
  | setMaxChunkHeight val =>
    simp only [step, pure_eq_ok, Except.ok.injEq] at h
    rw [← h]; exact Or.inl (quiet_of_colw rfl)
  | setSize value => exact Or.inl (setSize_quiet (show therm_setSize (u8 value) s = _ from h))
  | setTimes p f =>
    simp only [step, pure_eq_ok, Except.ok.injEq] at h
    rw [← h]; exact Or.inl (quiet_of_colw rfl)
  | sleep =>
    exact Or.inl (quiet_of_colw (sleepAfter_colw (show therm_sleepAfter fw 1 s = _ from h)))
  | sleepAfter seconds =>
    exact Or.inl (quiet_of_colw (sleepAfter_colw
      (show therm_sleepAfter fw (seconds % 65536) s = _ from h)))
  | strikeOff => exact Or.inl (unsetPrintMode_quiet (show priv_unsetPrintMode STRIKE_MASK s = _ from h))
  | strikeOn => exact Or.inl (setPrintMode_quiet (show priv_setPrintMode STRIKE_MASK s = _ from h))
  | tab =>
    obtain ⟨e1, e2⟩ := tab_shape (show therm_tab s = Except.ok s' from h)
    exact Or.inr (Or.inr ⟨rfl, e1, e2⟩)
  | timeoutSet x =>
    simp only [step, pure_eq_ok, Except.ok.injEq] at h
    rw [← h]; exact Or.inl (quiet_of_colw (settings_colw (settings_timeoutSet x s)))
  | timeoutWait =>
    exact Or.inl (quiet_of_colw (settings_colw
      (settings_timeoutWait (show therm_therm_timeoutWait s = _ from h))))
  | underlineOff =>
    exact Or.inl (quiet_of_colw (colw_write3Bytes (show priv_write3Bytes ASCII_ESC 45 0 s = _ from h)))
  | underlineOn weight =>
    simp only [step, therm_underlineOn] at h
    exact Or.inl (quiet_of_colw (colw_write3Bytes h))
  | upsideDownOff =>
    exact Or.inl (unsetPrintMode_quiet (show priv_unsetPrintMode UPDOWN_MASK s = _ from h))
  | upsideDownOn =>
    exact Or.inl (setPrintMode_quiet (show priv_setPrintMode UPDOWN_MASK s = _ from h))
  | wake => exact Or.inl (quiet_of_colw (wake_colw (show therm_therm_wake fw s = _ from h)))
  | hasPaper =>
    simp only [step] at h
    obtain ⟨r, h1, h2⟩ := bind_eq_ok.1 h
    simp only [pure_eq_ok, Except.ok.injEq] at h2
    rw [← h2]
    exact Or.inl (quiet_of_colw (hasPaper_colw h1))

theorem u8_lt (x : Nat) : u8 x < 256 := Nat.mod_lt _ (by decide)

theorem step_byte_inv {fw fuel : Nat} {op : Op} {s s' : State}
    (h : step fw fuel op s = Except.ok s')
    (hs : s.column < 256 ∧ (s.maxColumn = 16 ∨ s.maxColumn = 32)) :
    s'.column < 256 ∧ (s'.maxColumn = 16 ∨ s'.maxColumn = 32) := by
  obtain ⟨hcol, hmax⟩ := hs
  rcases step_shape h with ⟨q1, q2⟩ | ⟨e1, e2, _⟩ | ⟨_, e1, e2⟩
  · constructor
    · rcases q2 with q2 | q2 <;> omega
    · rcases q1 with q1 | q1 | q1
      · rw [q1]; exact hmax
      · exact Or.inl q1
      · exact Or.inr q1
  · exact ⟨by rw [e2]; exact u8_lt _, by rw [e1]; exact hmax⟩
  · exact ⟨by rw [e2]; exact u8_lt _, by rw [e1]; exact hmax⟩

theorem step_le_inv {fw fuel : Nat} {op : Op} {s s' : State}
    (h : step fw fuel op s = Except.ok s') (hs : s.column ≤ s.maxColumn)
    (htab : op.isTab = false) (hw : s.maxColumn ≤ s'.maxColumn) :
    s'.column ≤ s'.maxColumn := by
  rcases step_shape h with ⟨_, q2⟩ | ⟨e1, e2, e3⟩ | ⟨e0, _, _⟩
  · rcases q2 with q2 | q2 <;> omega
  · have : u8 (s.column + 1) ≤ s.column + 1 := Nat.mod_le _ _
    omega
  · rw [htab] at e0
    exact absurd e0 (by decide)

theorem run_inv (fw fuel : Nat) : ∀ (ops : List Op) (s s' : State),
    run fw fuel ops s = Except.ok s' →
    (s.column < 256 ∧ (s.maxColumn = 16 ∨ s.maxColumn = 32) →
      s'.column < 256 ∧ (s'.maxColumn = 16 ∨ s'.maxColumn = 32)) ∧
    (s.column ≤ s.maxColumn → widthKept fw fuel ops s = true → s'.column ≤ s'.maxColumn) := by
  intro ops
  induction ops with
  | nil =>
    intro s s' h
    simp only [run_nil, Except.ok.injEq] at h
    subst h
    exact ⟨fun h => h, fun h _ => h⟩
  | cons op ops ih =>
    intro s s' h
    rw [run_cons] at h
    obtain ⟨s1, h1, h2⟩ := bind_eq_ok.1 h
    obtain ⟨i1, i2⟩ := ih s1 s' h2
    constructor
    · intro hs
      exact i1 (step_byte_inv h1 hs)
    · intro hs hk
      simp only [widthKept, h1, Bool.and_eq_true, Bool.not_eq_true', decide_eq_true_eq] at hk
      exact i2 (step_le_inv h1 hs hk.1.1 hk.1.2) hk.2

set_option maxRecDepth 100000 in
/-- C3 (counterexample).  From the boot state, reset followed by 32 writes of
the letter A leaves column = 32 = maxColumn; a tab after them leaves
column = 36; and 20 writes followed by doubleWidthOn leave column = 20 with
maxColumn = 16.  In each of the three states column < maxColumn fails. -/

theorem C3_counterexample :
    (run 268 0 (Op.reset :: List.replicate 32 (Op.write 65)) (bootState 0 [])).map colw
      = Except.ok (32, 32) ∧
    (run 268 0 (Op.reset :: (List.replicate 32 (Op.write 65) ++ [Op.tab])) (bootState 0 [])).map
        colw = Except.ok (36, 32) ∧
    (run 268 0 (Op.reset :: (List.replicate 20 (Op.write 65) ++ [Op.doubleWidthOn]))
        (bootState 0 [])).map colw = Except.ok (20, 16) := by
  decide

/-- C3 (amended).  In every state reachable from reset by any sequence of
public operations, column is a byte (0 <= column <= 255) and maxColumn is 16
or 32.  If moreover no step of the run is a tab and no step lowers maxColumn,
then 0 <= column <= maxColumn, where column = maxColumn is reached (a full
line before the wrap). -/
theorem C3_column_within_line (fw fuel : Nat) (ops : List Op) (s0 s1 s' : State)
    (hreset : therm_reset fw s0 = Except.ok s1)
    (hrun : run fw fuel ops s1 = Except.ok s') :
    (s'.column < 256 ∧ (s'.maxColumn = 16 ∨ s'.maxColumn = 32)) ∧
    (widthKept fw fuel ops s1 = true → s'.column ≤ s'.maxColumn) := by
  obtain ⟨e1, e2⟩ := reset_colw hreset
  obtain ⟨i1, i2⟩ := run_inv fw fuel ops s1 s' hrun
  exact ⟨i1 ⟨by omega, Or.inr e2⟩, fun hk => i2 (by omega) hk⟩

set_option maxRecDepth 100000 in
/-- C3 (amended), at a concrete run: a full line of 32 letters and one more
byte after reset. -/

theorem C3_column_within_line_witness :
    ∃ s', run 268 0 (List.replicate 33 (Op.write 65)) resetState = Except.ok s' ∧
      s'.column ≤ s'.maxColumn := by
  obtain ⟨s', hs'⟩ := run_writes_total 268 0 (List.replicate 33 65) resetState rfl
  rw [List.map_replicate] at hs'
  exact ⟨s', hs', (C3_column_within_line 268 0 (List.replicate 33 (Op.write 65)) readyState
    resetState s' (by decide) hs').2 (by decide)⟩

theorem write_timed {c : Nat} (s : State) (hc : c ≠ 0x13) (hT : s.dtrEnabled = false) :
    write c s = Except.ok (1,
      if c = ASCII_LF ∨ s.column = s.maxColumn then
        { s with systick_ms := wakeTick s.resumeTime s.systick_ms,
                 resumeTime := u32 (u32 (wakeTick s.resumeTime s.systick_ms * 1000)
                   + u32 (u32 (BYTE_TIME + newlineCost s))),
                 column := 0, prevByte := ASCII_LF,
                 log := s.log ++ [Ev.wait, Ev.tx c, Ev.arm (u32 (BYTE_TIME + newlineCost s))] }
      else
        { s with systick_ms := wakeTick s.resumeTime s.systick_ms,
                 resumeTime := u32 (u32 (wakeTick s.resumeTime s.systick_ms * 1000)
                   + u32 BYTE_TIME),
                 column := u8 (s.column + 1), prevByte := c,
                 log := s.log ++ [Ev.wait, Ev.tx c, Ev.arm BYTE_TIME] }) := by
  unfold write
  rw [if_pos hc, timeoutWait_timed s hT]
  by_cases hw : c = ASCII_LF ∨ s.column = s.maxColumn
  · simp [priv_writeByteToUART, record, hw, therm_therm_timeoutSet, hT, micros, newlineCost, u32]
  · simp [priv_writeByteToUART, record, hw, therm_therm_timeoutSet, hT, micros, u32,
      BYTE_TIME_eq]

theorem newlineCost_eq (s : State) : newlineCost s = breakTime s % 4294967296 := by
  unfold newlineCost breakTime u32
  split <;> omega

/-- C13.  For every byte `c` that `write` does not drop (the code drops
0x13): whenever `write c` returns, it returns 1 and has sent exactly the one
byte `c`; if `c` is the newline or column = maxColumn beforehand, then
afterwards column = 0 and prevByte = newline whatever `c` was, otherwise
column is one more (mod 256) and prevByte = `c`.  In particular a write of the
newline always leaves column = 0 and prevByte = newline.  In Timed mode the
call does return. -/
theorem C13_write_state_transition (c : Nat) (s : State) (hc : c ≠ 0x13) :
    (∀ r, write c s = Except.ok r →
      r.1 = 1 ∧ sent r.2 = sent s ++ [c] ∧
      (c = ASCII_LF ∨ s.column = s.maxColumn → r.2.column = 0 ∧ r.2.prevByte = ASCII_LF) ∧
      (¬ (c = ASCII_LF ∨ s.column = s.maxColumn) →
        r.2.column = (s.column + 1) % 256 ∧ r.2.prevByte = c)) ∧
    (∀ r, write ASCII_LF s = Except.ok r → r.2.column = 0 ∧ r.2.prevByte = ASCII_LF) ∧
    (s.dtrEnabled = false → ∃ r, write c s = Except.ok r) := by
  refine ⟨?_, ?_, fun hT => write_total c hT⟩
  · intro r h
    obtain ⟨h1, ms, pin, rt, h2⟩ := write_ok hc h
    refine ⟨h1, ?_, ?_, ?_⟩
    · rw [h2, sent_eq_txOf, sent_eq_txOf]
      split <;> simp [txOf]
    · intro hw
      rw [h2, if_pos hw]
      exact ⟨rfl, rfl⟩
    · intro hw
      rw [h2, if_neg hw]
      exact ⟨rfl, rfl⟩
  · intro r h
    obtain ⟨_, ms, pin, rt, h2⟩ := write_ok (show ASCII_LF ≠ 0x13 by decide) h
    rw [h2, if_pos (Or.inl rfl)]
    exact ⟨rfl, rfl⟩

/-- C13, at the letter A in the state `therm_begin` leaves. -/
theorem C13_write_state_transition_witness :
    ∃ r, write 65 readyState = Except.ok r ∧ r.1 = 1 ∧ r.2.column = 1 ∧ r.2.prevByte = 65 := by
  have h := C13_write_state_transition 65 readyState (by decide)
  obtain ⟨r, hr⟩ := h.2.2 rfl
  obtain ⟨h1, _, _, h4⟩ := h.1 r hr
  obtain ⟨h5, h6⟩ := h4 (by decide)
  exact ⟨r, hr, h1, h5, h6⟩

/-- C14.  In Timed mode, for every byte `c` that `write` does not drop,
`write c` returns 1 and leaves resumeTime = (t + d) mod 2^32, where `t` is the
clock reading at which the byte was sent (the reading of the returned state)
and `d` is BYTE_TIME when no line break occurs,
BYTE_TIME + (charHeight + lineSpacing) * dotFeedTime when a break (newline or
column = maxColumn) occurs and prevByte was the newline, and
BYTE_TIME + charHeight * dotPrintTime + lineSpacing * dotFeedTime when a break
occurs and prevByte was not the newline.  BYTE_TIME is 573; with the defaults
24, 6, 30000, 2100 the three costs are 573, 63573 and 733173. -/
theorem C14_write_timing (c : Nat) (s : State) (hc : c ≠ 0x13) (hT : s.dtrEnabled = false) :
    ∃ s', write c s = Except.ok (1, s') ∧
      (¬ (c = ASCII_LF ∨ s.column = s.maxColumn) →
        s'.resumeTime = (micros s' + BYTE_TIME) % 4294967296) ∧
      ((c = ASCII_LF ∨ s.column = s.maxColumn) → s.prevByte = ASCII_LF →
        s'.resumeTime = (micros s' +
          (BYTE_TIME + (s.charHeight + s.lineSpacing) * s.dotFeedTime)) % 4294967296) ∧
      ((c = ASCII_LF ∨ s.column = s.maxColumn) → s.prevByte ≠ ASCII_LF →
        s'.resumeTime = (micros s' +
          (BYTE_TIME + s.charHeight * s.dotPrintTime + s.lineSpacing * s.dotFeedTime))
            % 4294967296) ∧
      BYTE_TIME = 573 ∧ BYTE_TIME + (24 + 6) * 2100 = 63573 ∧
      BYTE_TIME + 24 * 30000 + 6 * 2100 = 733173 := by
  refine ⟨_, write_timed s hc hT, ?_, ?_, ?_, by decide, by decide, by decide⟩
  · intro hw
    rw [if_neg hw]
    simp only [micros, u32]
    omega
  · intro hw hp
    rw [if_pos hw]
    simp only [micros, u32, newlineCost_eq, breakTime, hp, if_true]
    omega
  · intro hw hp
    rw [if_pos hw]
    simp only [micros, u32, newlineCost_eq, breakTime, hp, if_false]
    omega

/-- C14, at a newline written after a letter with the default timing: the
cost is 733173 microseconds. -/
theorem C14_write_timing_witness :
    ∃ s', write ASCII_LF { readyState with prevByte := 65 } = Except.ok (1, s') ∧
      s'.resumeTime = (micros s' + 733173) % 4294967296 := by
  obtain ⟨s', h1, _, _, h4, _⟩ :=
    C14_write_timing ASCII_LF { readyState with prevByte := 65 } (by decide) rfl
  exact ⟨s', h1, h4 (Or.inl rfl) (by decide)⟩

theorem write3Bytes_timed (a b c : Nat) (s : State) (hT : s.dtrEnabled = false) :
    priv_write3Bytes a b c s = Except.ok
      { s with systick_ms := wakeTick s.resumeTime s.systick_ms,
               resumeTime := u32 (u32 (wakeTick s.resumeTime s.systick_ms * 1000) + 1719),
               log := s.log ++ [Ev.wait, Ev.tx a, Ev.tx b, Ev.tx c, Ev.arm 1719] } := by
  unfold priv_write3Bytes
  rw [timeoutWait_timed s hT]
  simp [priv_writeByteToUART, record, therm_therm_timeoutSet, hT, micros, u32, BYTE_TIME_eq]

theorem timeoutSet_timed (x : Nat) (s : State) (hT : s.dtrEnabled = false) :
    therm_therm_timeoutSet x s =
      { s with resumeTime := u32 (micros s + u32 x), log := s.log ++ [Ev.arm (u32 x)] } := by
  simp [therm_therm_timeoutSet, hT, record]

theorem wakeTick_spec (r ms : Nat) : stillEarly r (wakeTick r ms) = false ∧ ms ≤ wakeTick r ms := by
  obtain ⟨t, ht, h1, h2⟩ := clockLoop_total r ms
  have : wakeTick r ms = t := by simp [wakeTick, ht]
  rw [this]
  exact ⟨h1, h2⟩

theorem feedRows_timed (rows : Nat) (s : State) (hT : s.dtrEnabled = false) :
    therm_feedRows rows s = Except.ok
      { s with systick_ms := wakeTick s.resumeTime s.systick_ms,
               resumeTime := u32 (u32 (wakeTick s.resumeTime s.systick_ms * 1000)
                 + u32 (u32 (rows * s.dotFeedTime))),
               prevByte := ASCII_LF, column := 0,
               log := s.log ++ [Ev.wait, Ev.tx ASCII_ESC, Ev.tx 74, Ev.tx rows, Ev.arm 1719,
                                Ev.arm (u32 (u32 (rows * s.dotFeedTime)))] } := by
  unfold therm_feedRows
  rw [write3Bytes_timed _ _ _ s hT]
  simp [therm_therm_timeoutSet, hT, record, micros]

/-- C20 (counterexample).  In the state `therm_begin` leaves, at clock reading
52000, feedRows(10) leaves resumeTime = 73000 = 52000 + 10 * 2100; the claimed
value 52000 + 3 * 573 + 10 * 2100 is 74719. -/
theorem C20_counterexample :
    (therm_feedRows 10 readyState).map
        (fun s => (s.resumeTime, micros s, micros s + 3 * BYTE_TIME + 10 * s.dotFeedTime))
      = Except.ok (73000, 52000, 74719) := by
  decide

/-- C20 (amended).  For every `rows`, `therm_feedRows rows` in Timed mode
sends ESC 'J' rows and leaves resumeTime = (t + rows * dotFeedTime) mod 2^32,
where `t` is the clock reading at which the bytes were sent: the arm of
3 * BYTE_TIME made by the byte helper is overwritten by the second arm, not
added to.  prevByte is the newline and column is 0. -/
theorem C20_feedRows_timing (rows : Nat) (s : State) (hT : s.dtrEnabled = false) :
    ∃ s', therm_feedRows rows s = Except.ok s' ∧
      sent s' = sent s ++ [ASCII_ESC, 74, rows] ∧
      arms s' = arms s ++ [3 * BYTE_TIME, (rows * s.dotFeedTime) % 4294967296] ∧
      s'.systick_ms = wakeTick s.resumeTime s.systick_ms ∧
      s'.resumeTime = (micros s' + rows * s.dotFeedTime) % 4294967296 ∧
      s'.prevByte = ASCII_LF ∧ s'.column = 0 := by
  refine ⟨_, feedRows_timed rows s hT, ?_, ?_, rfl, ?_, rfl, rfl⟩
  · simp [sent_eq_txOf, txOf]
  · simp [arms_eq_armsOf, armsOf, u32, BYTE_TIME_eq]
  · simp only [micros, u32]
    omega

/-- C20 (amended), at ten rows in the state `therm_begin` leaves. -/
theorem C20_feedRows_timing_witness :
    ∃ s', therm_feedRows 10 readyState = Except.ok s' ∧
      s'.resumeTime = (micros s' + 10 * 2100) % 4294967296 := by
  obtain ⟨s', h1, _, _, _, h2, _⟩ := C20_feedRows_timing 10 readyState rfl
  exact ⟨s', h1, h2⟩

theorem wakeTick_now {r ms : Nat} (h : stillEarly r ms = false) : wakeTick r ms = ms := by
  have e : clockLoop r (2147484 + 1) ms = some ms := by
    rw [clockLoop, h]
    rfl
  unfold wakeTick
  rw [show spinFuel = 2147484 + 1 from rfl, e]
  rfl

/-- C18 (counterexample).  In the state `therm_begin` leaves, after an arm of
3000000000 microseconds (more than 2^31) the wait that follows returns at
once: at the same clock reading, with 0 microseconds elapsed. -/
theorem C18_counterexample :
    (therm_therm_timeoutWait (therm_therm_timeoutSet 3000000000 readyState)).map
        (fun s => (s.systick_ms, elapsedSince readyState s.systick_ms))
      = Except.ok (readyState.systick_ms, 0) := by
  decide

/-- C18 (amended).  In Timed mode, for every clock reading and every duration
`d` that the 32-bit parameter of the arm can hold.  If `d` is at most 2^31
microseconds: after an arm of `d`, the exit test of the wait loop fails at
every clock reading at which fewer than `d` microseconds have elapsed since
the arm, the elapsed time being measured modulo 2^32 (so also across a
rollover of the microsecond clock); and the wait that immediately follows the
arm returns, at a reading with at least `d` microseconds elapsed.  If `d` is
above 2^31: the wait that immediately follows the arm returns at once, at the
clock reading of the arm, with 0 microseconds elapsed. -/
theorem C18_arm_then_wait (d : Nat) (s : State) (hT : s.dtrEnabled = false)
    (hd : d < 4294967296) :
    (d ≤ 2147483648 →
      (∀ ms, elapsedSince s ms < d →
        stillEarly (therm_therm_timeoutSet d s).resumeTime ms = true) ∧
      (∃ s2, therm_therm_timeoutWait (therm_therm_timeoutSet d s) = Except.ok s2 ∧
        d ≤ elapsedSince s s2.systick_ms)) ∧
    (2147483648 < d →
      ∃ s2, therm_therm_timeoutWait (therm_therm_timeoutSet d s) = Except.ok s2 ∧
        s2.systick_ms = s.systick_ms ∧ elapsedSince s s2.systick_ms = 0) := by
  have hres : (therm_therm_timeoutSet d s).resumeTime = u32 (micros s + u32 d) := by
    rw [timeoutSet_timed d s hT]
  have hms : (therm_therm_timeoutSet d s).systick_ms = s.systick_ms := by
    rw [timeoutSet_timed d s hT]
  have hT1 : (therm_therm_timeoutSet d s).dtrEnabled = false := by
    rw [timeoutSet_timed d s hT]; exact hT
  refine ⟨fun hd1 => ?_, fun hd2 => ?_⟩
  · have key : ∀ ms, elapsedSince s ms < d →
        stillEarly (therm_therm_timeoutSet d s).resumeTime ms = true := by
      intro ms he
      rw [stillEarly_iff, hres]
      simp only [elapsedSince, micros, u32] at he ⊢
      omega
    refine ⟨key, _, timeoutWait_timed _ hT1, ?_⟩
    simp only []
    obtain ⟨h1, _⟩ := wakeTick_spec (therm_therm_timeoutSet d s).resumeTime
      (therm_therm_timeoutSet d s).systick_ms
    by_contra hlt
    have := key _ (Nat.lt_of_not_le hlt)
    rw [h1] at this
    exact absurd this (by decide)
  · have hn : stillEarly (therm_therm_timeoutSet d s).resumeTime
        (therm_therm_timeoutSet d s).systick_ms = false := by
      cases hc : stillEarly (therm_therm_timeoutSet d s).resumeTime
          (therm_therm_timeoutSet d s).systick_ms with
      | false => rfl
      | true =>
        rw [stillEarly_iff, hres, hms] at hc
        simp only [micros, u32] at hc
        omega
    refine ⟨_, timeoutWait_timed _ hT1, ?_, ?_⟩
    · simp only []
      rw [wakeTick_now hn, hms]
    · simp only []
      rw [wakeTick_now hn, hms]
      simp only [elapsedSince, micros, u32]
      omega

/-- C18 (amended), in the state `therm_begin` leaves: after an arm of one
second the wait returns with a second elapsed; after an arm of 3000000000
microseconds it returns at the clock reading of the arm. -/
theorem C18_arm_then_wait_witness :
    (∃ s2, therm_therm_timeoutWait (therm_therm_timeoutSet 1000000 readyState) = Except.ok s2 ∧
      1000000 ≤ elapsedSince readyState s2.systick_ms) ∧
    (∃ s2, therm_therm_timeoutWait (therm_therm_timeoutSet 3000000000 readyState)
        = Except.ok s2 ∧
      s2.systick_ms = readyState.systick_ms ∧ elapsedSince readyState s2.systick_ms = 0) :=
  ⟨((C18_arm_then_wait 1000000 readyState rfl (by decide)).1 (by decide)).2,
   (C18_arm_then_wait 3000000000 readyState rfl (by decide)).2 (by decide)⟩


/-- C19 (counterexample).  In the state `therm_begin` leaves, feedRows(0):
the byte helper inside it arms at clock reading 52000 and leaves
resumeTime = 53719; the second arm, of 0 * dotFeedTime at the same reading,
then sets resumeTime = 52000, which is lower. -/
theorem C19_counterexample :
    (priv_write3Bytes ASCII_ESC 74 0 readyState).map
        (fun s1 => (s1.resumeTime,
          (therm_therm_timeoutSet (u32 (0 * s1.dotFeedTime)) s1).resumeTime))
      = Except.ok (53719, 52000) ∧
    (therm_feedRows 0 readyState).map (fun s => s.resumeTime) = Except.ok 52000 := by
  decide

/-- C19 (amended).  In Timed mode an arm of `d` that directly follows a wait
(as in the byte helpers and in `write`) sets resumeTime = t + d, with `t` the
clock reading at which the wait returned, and leaves it greater than or equal
to its previous value provided the 32-bit microsecond counter does not roll
over: the previous resumeTime is at most 2^31 ahead of `t`, and t + d is below
2^32.  This holds for the arm of the three-byte helper (d >= 3 * BYTE_TIME)
and, for a byte that is not dropped, for the arm of `write` (d at least its
cost).  (An arm made without a wait, like the second arm of feedRows, sets
resumeTime = t + d whatever it was before.) -/
theorem C19_arm_after_wait_monotone (d : Nat) (s : State) (hT : s.dtrEnabled = false)
    (hold : s.resumeTime ≤ waitReading s + 2147483648)
    (hnew : waitReading s + d < 4294967296) :
    (∃ s1, therm_therm_timeoutWait s = Except.ok s1 ∧ micros s1 = waitReading s ∧
      s.resumeTime ≤ waitReading s ∧
      (therm_therm_timeoutSet d s1).resumeTime = waitReading s + d ∧
      s.resumeTime ≤ (therm_therm_timeoutSet d s1).resumeTime) ∧
    (∀ a b c, 3 * BYTE_TIME ≤ d → ∃ s', priv_write3Bytes a b c s = Except.ok s' ∧
      s'.resumeTime = waitReading s + 3 * BYTE_TIME ∧ s.resumeTime ≤ s'.resumeTime) ∧
    (∀ c, c ≠ 0x13 → writeArm c s ≤ d →
      ∃ r, write c s = Except.ok r ∧ r.2.resumeTime = waitReading s + writeArm c s ∧
        s.resumeTime ≤ r.2.resumeTime) := by
  obtain ⟨hex, _⟩ := wakeTick_spec s.resumeTime s.systick_ms
  have hex' : ¬ stillEarly s.resumeTime (wakeTick s.resumeTime s.systick_ms) = true := by
    rw [hex]; decide
  rw [stillEarly_iff] at hex'
  have h1 : s.resumeTime ≤ waitReading s := by
    simp only [waitReading, u32] at hold ⊢
    omega
  refine ⟨⟨_, timeoutWait_timed s hT, rfl, h1, ?_, ?_⟩, ?_, ?_⟩
  · simp only [therm_therm_timeoutSet, hT, Bool.false_eq_true, if_false, record, waitReading,
      micros, u32] at hnew ⊢
    omega
  · simp only [therm_therm_timeoutSet, hT, Bool.false_eq_true, if_false, record, waitReading,
      micros, u32] at hnew h1 ⊢
    omega
  · intro a b c hd
    refine ⟨_, write3Bytes_timed a b c s hT, ?_, ?_⟩
    · simp only [waitReading, u32, BYTE_TIME_eq] at hnew hd ⊢
      omega
    · simp only [waitReading, u32, BYTE_TIME_eq] at hnew hd h1 ⊢
      omega
  · intro c hc hd
    refine ⟨_, write_timed s hc hT, ?_, ?_⟩
    · unfold writeArm at hd ⊢
      split
      · simp only [if_true, waitReading, u32, *] at hnew hd ⊢
        omega
      · simp only [if_false, waitReading, u32, BYTE_TIME_eq, *] at hnew hd ⊢
        omega
    · unfold writeArm at hd
      split
      · simp only [if_true, waitReading, u32, *] at hnew hd h1 ⊢
        omega
      · simp only [if_false, waitReading, u32, BYTE_TIME_eq, *] at hnew hd h1 ⊢
        omega

/-- C19 (amended), at an arm of 2000 microseconds in the state `therm_begin`
leaves. -/
theorem C19_arm_after_wait_monotone_witness :
    ∃ s', priv_write3Bytes ASCII_ESC 74 0 readyState = Except.ok s' ∧
      readyState.resumeTime ≤ s'.resumeTime := by
  obtain ⟨s', h1, _, h2⟩ :=
    (C19_arm_after_wait_monotone 2000 readyState rfl (by decide) (by decide)).2.1
      ASCII_ESC 74 0 (by decide)
  exact ⟨s', h1, h2⟩

/-- C17 (counterexample).  setLineHeight(260) sends ESC '3' 4, not
max(260, 24), and stores lineSpacing = 236, which is not 4 - 24. -/
theorem C17_counterexample :
    (therm_setLineHeight 260 readyState).map (fun s => (sent s, s.lineSpacing))
      = Except.ok ([27, 51, 4], 236) := by
  decide

/-- C17 (amended).  For every integer `v`, whenever `therm_setLineHeight v`
returns (it does in Timed mode), the command sent is ESC '3' b with
b = max(v, 24) mod 256 and afterwards lineSpacing = (max(v, 24) - 24) mod 256.
For every `v <= 255` this is b = max(v, 24) and lineSpacing = b - 24; for
v = 10 the byte sent is 24 and lineSpacing = 0. -/
theorem C17_setLineHeight (v : Int) (s : State) :
    (∀ s', therm_setLineHeight v s = Except.ok s' →
      sent s' = sent s ++ [ASCII_ESC, 51, ((max v 24) % 256).toNat] ∧
      s'.lineSpacing = ((max v 24 - 24) % 256).toNat ∧
      (v ≤ 255 → sent s' = sent s ++ [ASCII_ESC, 51, (max v 24).toNat] ∧
        (s'.lineSpacing : Int) = max v 24 - 24) ∧
      (v = 10 → sent s' = sent s ++ [ASCII_ESC, 51, 24] ∧ s'.lineSpacing = 0)) ∧
    (s.dtrEnabled = false → ∃ s', therm_setLineHeight v s = Except.ok s') := by
  have hval : (if v < 24 then (24 : Int) else v) = max v 24 := by
    split <;> omega
  constructor
  · intro s' h
    unfold therm_setLineHeight at h
    simp only [hval] at h
    obtain ⟨ms, pin, rt, hs⟩ := write3Bytes_ok h
    have e1 : sent s' = sent s ++ [ASCII_ESC, 51, ((max v 24) % 256).toNat] := by
      rw [hs]; simp [sent_eq_txOf, txOf, u8i]
    have e2 : s'.lineSpacing = ((max v 24 - 24) % 256).toNat := by
      rw [hs]; rfl
    refine ⟨e1, e2, ?_, ?_⟩
    · intro hv
      have e3 : ((max v 24) % 256).toNat = (max v 24).toNat := by omega
      exact ⟨by rw [e1, e3], by rw [e2]; omega⟩
    · intro hv
      subst hv
      exact ⟨by rw [e1]; rfl, by rw [e2]; rfl⟩
  · intro hT
    unfold therm_setLineHeight
    exact write3Bytes_total _ _ _ hT

/-- C17 (amended), at setLineHeight(10) in the state `therm_begin` leaves. -/
theorem C17_setLineHeight_witness :
    ∃ s', therm_setLineHeight 10 readyState = Except.ok s' ∧
      sent s' = sent readyState ++ [ASCII_ESC, 51, 24] ∧ s'.lineSpacing = 0 := by
  have h := C17_setLineHeight 10 readyState
  obtain ⟨s', hs'⟩ := h.2 rfl
  obtain ⟨_, _, _, h4⟩ := h.1 s' hs'
  exact ⟨s', hs', (h4 rfl).1, (h4 rfl).2⟩

theorem and_not_eq_ldiff {m mask : Nat} (hm : m < 256) (hk : mask < 256) :
    m &&& (255 - mask) = Nat.ldiff m mask := by
  apply Nat.eq_of_testBit_eq
  intro i
  have h1 : (255 - mask) = 2 ^ 8 - (mask + 1) := by omega
  rw [Nat.testBit_and, Nat.testBit_ldiff, h1, Nat.testBit_two_pow_sub_succ (by omega)]
  by_cases hi : i < 8
  · simp [hi]
  · have : m.testBit i = false := Nat.testBit_lt_two_pow (lt_of_lt_of_le hm (by
      calc 256 = 2 ^ 8 := by norm_num
        _ ≤ 2 ^ i := Nat.pow_le_pow_right (by decide) (by omega)))
    simp [hi, this]

theorem and_mask_ne_zero_iff (p i : Nat) : (p &&& (1 <<< i) ≠ 0) ↔ p.testBit i = true := by
  rw [Nat.one_shiftLeft, Nat.and_two_pow]
  cases p.testBit i <;> simp

theorem applyModeBits_lt {call : Bool × Nat} {m : Nat} (hm : m < 256) (hk : call.2 < 256) :
    applyModeBits call m < 256 := by
  unfold applyModeBits
  split
  · exact Nat.or_lt_two_pow (n := 8) hm hk
  · rw [← and_not_eq_ldiff hm hk]
    exact lt_of_le_of_lt Nat.and_le_left hm

theorem modeCall_ok {call : Bool × Nat} {s s' : State} (hm : s.printMode < 256)
    (hk : call.2 < 256) (h : modeCall call s = Except.ok s') :
    ∃ ms pin rt, s' =
      { s with systick_ms := ms, pin := pin, resumeTime := rt,
               printMode := applyModeBits call s.printMode,
               charHeight := if (applyModeBits call s.printMode).testBit 4 then 48 else 24,
               maxColumn := if (applyModeBits call s.printMode).testBit 5 then 16 else 32,
               log := s.log ++ [Ev.wait, Ev.tx ASCII_ESC, Ev.tx 33,
                                Ev.tx (applyModeBits call s.printMode), Ev.arm 1719] } := by
  unfold modeCall at h
  unfold applyModeBits
  by_cases hc : call.1 = true
  · rw [if_pos hc] at h
    simp only [hc, if_true]
    unfold priv_setPrintMode priv_writePrintMode at h
    obtain ⟨s1, h1, h2⟩ := bind_eq_ok.1 h
    obtain ⟨ms, pin, rt, hs1⟩ := write3Bytes_ok h1
    simp only [pure_eq_ok, Except.ok.injEq] at h2
    refine ⟨ms, pin, rt, ?_⟩
    rw [← h2, hs1]
    simp only [DOUBLE_HEIGHT_MASK, DOUBLE_WIDTH_MASK, and_mask_ne_zero_iff]
  · rw [if_neg hc] at h
    have hc2 : call.1 = false := by simpa using hc
    simp only [hc2, Bool.false_eq_true, if_false]
    unfold priv_unsetPrintMode priv_writePrintMode at h
    rw [u8_of_lt hk, and_not_eq_ldiff hm hk] at h
    obtain ⟨s1, h1, h2⟩ := bind_eq_ok.1 h
    obtain ⟨ms, pin, rt, hs1⟩ := write3Bytes_ok h1
    simp only [pure_eq_ok, Except.ok.injEq] at h2
    refine ⟨ms, pin, rt, ?_⟩
    rw [← h2, hs1]
    simp only [DOUBLE_HEIGHT_MASK, DOUBLE_WIDTH_MASK, and_mask_ne_zero_iff]

theorem modeCall_total (call : Bool × Nat) {s : State} (hT : s.dtrEnabled = false) :
    ∃ s', modeCall call s = Except.ok s' := by
  unfold modeCall
  split
  · unfold priv_setPrintMode priv_writePrintMode
    obtain ⟨s1, h1⟩ := write3Bytes_total ASCII_ESC 33 (s.printMode ||| call.2)
      (show ({ s with printMode := s.printMode ||| call.2 } : State).dtrEnabled = false from hT)
    simp only [h1, ok_bind, pure_eq_ok]
    exact ⟨_, rfl⟩
  · unfold priv_unsetPrintMode priv_writePrintMode
    obtain ⟨s1, h1⟩ := write3Bytes_total ASCII_ESC 33 (s.printMode &&& (255 - u8 call.2))
      (show ({ s with printMode := s.printMode &&& (255 - u8 call.2) } : State).dtrEnabled
        = false from hT)
    simp only [h1, ok_bind, pure_eq_ok]
    exact ⟨_, rfl⟩

theorem modeCalls_ok : ∀ (calls : List (Bool × Nat)) (s s' : State), s.printMode < 256 →
    (∀ call ∈ calls, call.2 < 256) → modeCalls calls s = Except.ok s' →
    s'.printMode = foldModeBits calls s.printMode ∧
    sent s' = sent s ++ modeBytes calls s.printMode ∧
    (calls ≠ [] →
      s'.charHeight = (if (foldModeBits calls s.printMode).testBit 4 then 48 else 24) ∧
      s'.maxColumn = (if (foldModeBits calls s.printMode).testBit 5 then 16 else 32)) := by
  intro calls
  induction calls with
  | nil =>
    intro s s' _ _ h
    simp only [modeCalls, pure_eq_ok, Except.ok.injEq] at h
    subst h
    simp [foldModeBits, modeBytes]
  | cons call rest ih =>
    intro s s' hm hk h
    unfold modeCalls at h
    obtain ⟨s1, h1, h2⟩ := bind_eq_ok.1 h
    have hk1 : call.2 < 256 := hk call (List.mem_cons_self _ _)
    obtain ⟨ms, pin, rt, hs1⟩ := modeCall_ok hm hk1 h1
    have hp1 : s1.printMode = applyModeBits call s.printMode := by rw [hs1]
    have hm1 : s1.printMode < 256 := by rw [hp1]; exact applyModeBits_lt hm hk1
    obtain ⟨e1, e2, e3⟩ := ih s1 s' hm1 (fun c hc => hk c (List.mem_cons_of_mem _ hc)) h2
    rw [hp1] at e1 e2 e3
    have hsent : sent s1 = sent s ++ [ASCII_ESC, 33, applyModeBits call s.printMode] := by
      rw [sent_eq_txOf, sent_eq_txOf, hs1]
      simp [txOf_append, txOf]
    refine ⟨by simpa [foldModeBits] using e1, ?_, fun _ => ?_⟩
    · rw [e2, hsent]
      simp [modeBytes]
    · by_cases hr : rest = []
      · subst hr
        simp only [modeCalls, pure_eq_ok, Except.ok.injEq] at h2
        subst h2
        rw [hs1]
        simp [foldModeBits]
      · simpa [foldModeBits] using e3 hr

theorem modeCalls_total : ∀ (calls : List (Bool × Nat)) (s : State), s.printMode < 256 →
    (∀ call ∈ calls, call.2 < 256) → s.dtrEnabled = false →
    ∃ s', modeCalls calls s = Except.ok s' := by
  intro calls
  induction calls with
  | nil => intro s _ _ _; exact ⟨s, rfl⟩
  | cons call rest ih =>
    intro s hm hk hT
    have hk1 : call.2 < 256 := hk call (List.mem_cons_self _ _)
    obtain ⟨s1, h1⟩ := modeCall_total call hT
    obtain ⟨ms, pin, rt, hs1⟩ := modeCall_ok hm hk1 h1
    have hm1 : s1.printMode < 256 := by rw [hs1]; exact applyModeBits_lt hm hk1
    have hT1 : s1.dtrEnabled = false := by rw [hs1]; exact hT
    obtain ⟨s2, h2⟩ := ih s1 hm1 (fun c hc => hk c (List.mem_cons_of_mem _ hc)) hT1
    exact ⟨s2, by unfold modeCalls; simp only [h1, ok_bind, h2]⟩

/-- C16: for every initial state (mode byte below 256, as its C type says) and
every non-empty sequence of `priv_setPrintMode` / `priv_unsetPrintMode` calls
with byte masks, a run that returns ends with the mode byte equal to the
OR / AND-NOT fold of the masks over the initial byte, `charHeight` equal to 48
when bit 4 of that fold is set and 24 otherwise, `maxColumn` equal to 16 when
bit 5 is set and 32 otherwise, and the bytes sent are, per call, ESC '!' and
the updated mode byte; in Timed mode the run always returns. -/
theorem C16_mode_bits_determine_geometry (calls : List (Bool × Nat)) (s : State)
    (hm : s.printMode < 256) (hk : ∀ call ∈ calls, call.2 < 256) (hne : calls ≠ []) :
    (∀ s', modeCalls calls s = Except.ok s' →
      s'.printMode = foldModeBits calls s.printMode ∧
      s'.charHeight = (if (foldModeBits calls s.printMode).testBit 4 then 48 else 24) ∧
      s'.maxColumn = (if (foldModeBits calls s.printMode).testBit 5 then 16 else 32) ∧
      sent s' = sent s ++ modeBytes calls s.printMode) ∧
    (s.dtrEnabled = false → ∃ s', modeCalls calls s = Except.ok s') := by
  refine ⟨fun s' h => ?_, fun hT => modeCalls_total calls s hm hk hT⟩
  obtain ⟨e1, e2, e3⟩ := modeCalls_ok calls s s' hm hk h
  exact ⟨e1, (e3 hne).1, (e3 hne).2, e2⟩

/-- C16 at a concrete run: from the ready state, set double height and bold,
set double width, clear double height. -/
theorem C16_mode_bits_determine_geometry_witness :
    (∀ s', modeCalls [(true, 24), (true, 32), (false, 16)] readyState = Except.ok s' →
      s'.printMode = foldModeBits [(true, 24), (true, 32), (false, 16)] readyState.printMode ∧
      s'.charHeight = (if (foldModeBits [(true, 24), (true, 32), (false, 16)]
        readyState.printMode).testBit 4 then 48 else 24) ∧
      s'.maxColumn = (if (foldModeBits [(true, 24), (true, 32), (false, 16)]
        readyState.printMode).testBit 5 then 16 else 32) ∧
      sent s' = sent readyState ++
        modeBytes [(true, 24), (true, 32), (false, 16)] readyState.printMode) ∧
    (readyState.dtrEnabled = false →
      ∃ s', modeCalls [(true, 24), (true, 32), (false, 16)] readyState = Except.ok s') :=
  C16_mode_bits_determine_geometry [(true, 24), (true, 32), (false, 16)] readyState
    (by decide) (by decide) (by decide)

/-- The concrete run of the C16 example evaluated: mode byte 40, `charHeight`
24, `maxColumn` 16, and three ESC '!' frames. -/
theorem modeCalls_example :
    (modeCalls [(true, 24), (true, 32), (false, 16)] readyState).map
      (fun s => (s.printMode, s.charHeight, s.maxColumn, sent s))
      = Except.ok (40, 24, 16, [27, 33, 24, 27, 33, 56, 27, 33, 40]) := by
  decide

theorem normal_keeps_geometry {s s' : State} (h : therm_normal s = Except.ok s') :
    s'.printMode = 0 ∧ s'.charHeight = s.charHeight ∧ s'.maxColumn = s.maxColumn := by
  unfold therm_normal priv_writePrintMode at h
  obtain ⟨ms, pin, rt, hs⟩ := write3Bytes_ok h
  rw [hs]
  exact ⟨rfl, rfl, rfl⟩

theorem reset_keeps_printMode {fw : Nat} {s s' : State} (h : therm_reset fw s = Except.ok s') :
    s'.printMode = s.printMode ∧ s'.charHeight = 24 ∧ s'.maxColumn = 32 := by
  unfold therm_reset at h
  obtain ⟨s1, h1, h2⟩ := bind_eq_ok.1 h
  obtain ⟨ms, pin, rt, hs1⟩ := write2Bytes_ok h1
  by_cases hfw : fw ≥ 264
  · rw [if_pos hfw] at h2
    obtain ⟨s2, h3, h4⟩ := bind_eq_ok.1 h2
    obtain ⟨s3, h5, h6⟩ := bind_eq_ok.1 h4
    obtain ⟨ms2, pin2, rt2, hs2⟩ := write2Bytes_ok h3
    obtain ⟨ms3, pin3, rt3, hs3⟩ := write4Bytes_ok h5
    obtain ⟨ms4, pin4, rt4, hs4⟩ := write4Bytes_ok h6
    rw [hs4, hs3, hs2, hs1]
    exact ⟨rfl, rfl, rfl⟩
  · rw [if_neg hfw] at h2
    simp only [pure_eq_ok, Except.ok.injEq] at h2
    rw [← h2, hs1]
    exact ⟨rfl, rfl, rfl⟩

/-- C15 (code defect).  Geometry does not follow the mode bits across all
operations.  From a reset, `doubleHeightOn` then `normal` leaves the mode byte
0 (double-height bit clear) with `charHeight` still 48: `therm_normal` clears
the mode byte without the recomputation its siblings `priv_setPrintMode` and
`priv_unsetPrintMode` do.  And `doubleWidthOn` then `reset` leaves the mode
byte 32 (double-width bit set) with `maxColumn` 32: `therm_reset` restores the
geometry but not the mode byte.  No size override is used in either run. -/
theorem C15_geometry_diverges_from_mode_bits :
    (run 268 0 [Op.reset, Op.doubleHeightOn, Op.normal] readyState).map
      (fun s => (s.printMode, s.printMode &&& DOUBLE_HEIGHT_MASK, s.charHeight, s.maxColumn))
      = Except.ok (0, 0, 48, 32) ∧
    (run 268 0 [Op.reset, Op.doubleWidthOn, Op.reset] readyState).map
      (fun s => (s.printMode, s.printMode &&& DOUBLE_WIDTH_MASK, s.charHeight, s.maxColumn))
      = Except.ok (32, 32, 24, 32) := by
  constructor <;> decide

theorem rowBytesClippedOf_zero : rowBytesClippedOf 0 = 0 := by decide

theorem rowBytesClippedOf_ne_zero {w : Int} (hw : 1 ≤ w) (hw3 : w ≤ 2147483647) :
    rowBytesClippedOf w ≠ 0 := by
  by_cases hw2 : w ≤ 2147483640
  · obtain ⟨_, hc1, _, _⟩ := rowBytesClippedOf_eq hw hw2
    omega
  · have h1 : 2147483641 ≤ w := by omega
    interval_cases w <;> decide

/-- C12 (code defect).  In Timed mode `therm_printBitmap` with `w = 0` divides
by zero: `rowBytes = (0 + 7) / 8 = 0`, so `rowBytesClipped = 0` and
`256 / rowBytesClipped` is evaluated, whatever the height, the source and the
state.  The division is safe for every `int` width `w >= 1` in Timed mode (the
divisor is not 0; it is between 1 and 48 as long as `w + 7` does not
overflow), and SignalPin mode never divides: its limit is 255 for every
width. -/
theorem C12_printBitmap_zero_width_divides_by_zero (fuel : Nat) (h : Int) (bitmap : List Nat)
    (s : State) (hT : s.dtrEnabled = false) :
    rowBytesClippedOf 0 = 0 ∧
    chunkHeightLimit (rowBytesClippedOf 0) s = Except.error Fault.divByZero ∧
    therm_printBitmap fuel 0 h bitmap s = Except.error Fault.divByZero ∧
    (∀ w : Int, 1 ≤ w → w ≤ 2147483647 → rowBytesClippedOf w ≠ 0 ∧
      ∃ L, chunkHeightLimit (rowBytesClippedOf w) s = Except.ok L) ∧
    (∀ w : Int, 1 ≤ w → w ≤ 2147483640 →
      1 ≤ rowBytesClippedOf w ∧ rowBytesClippedOf w ≤ 48) ∧
    (∀ (w : Int) (s2 : State), s2.dtrEnabled = true →
      chunkHeightLimit (rowBytesClippedOf w) s2 = Except.ok 255) := by
  have hlim : chunkHeightLimit (rowBytesClippedOf 0) s = Except.error Fault.divByZero := by
    unfold chunkHeightLimit
    simp only [hT, Bool.false_eq_true, if_false, rowBytesClippedOf_zero, if_true]
    rfl
  refine ⟨rowBytesClippedOf_zero, hlim, ?_, ?_, ?_, ?_⟩
  · unfold therm_printBitmap
    simp only [hlim, error_bind]
  · intro w hw hw3
    have hne : rowBytesClippedOf w ≠ 0 := rowBytesClippedOf_ne_zero hw hw3
    refine ⟨hne, ?_⟩
    unfold chunkHeightLimit
    simp only [hT, Bool.false_eq_true, if_false, hne]
    split
    · exact ⟨_, rfl⟩
    · split
      · exact ⟨_, rfl⟩
      · exact ⟨_, rfl⟩
  · intro w hw hw2
    obtain ⟨_, hc1, hc2, _⟩ := rowBytesClippedOf_eq hw hw2
    exact ⟨hc1, hc2⟩
  · intro w s2 hD
    unfold chunkHeightLimit
    simp only [hD, if_true]
    rfl

/-- C12 at the ready state: a zero-width image of height 10. -/
theorem C12_printBitmap_zero_width_divides_by_zero_witness :
    therm_printBitmap 10 0 10 [] readyState = Except.error Fault.divByZero :=
  (C12_printBitmap_zero_width_divides_by_zero 10 10 [] readyState rfl).2.2.1

theorem pinLoop_low : ∀ pin : List Bool, 1 ≤ pin.count false →
    ∃ rest, pinLoop pin = some rest ∧ rest.count false + 1 = pin.count false
  | [], h => by simp at h
  | true :: rest, h => by
    have h2 : 1 ≤ rest.count false := by simpa using h
    obtain ⟨r, hr, hc⟩ := pinLoop_low rest h2
    exact ⟨r, by simp [pinLoop, priv_readDTRpin, hr], by simpa using hc⟩
  | false :: rest, _ => ⟨rest, by simp [pinLoop, priv_readDTRpin, HIGH, LOW], by simp⟩

theorem timeoutWait_pin {s : State} {k : Nat} (hD : s.dtrEnabled = true)
    (hp : k + 1 ≤ s.pin.count false) :
    ∃ s', therm_therm_timeoutWait s = Except.ok s' ∧ s'.dtrEnabled = true ∧
      k ≤ s'.pin.count false := by
  obtain ⟨rest, hr, hc⟩ := pinLoop_low s.pin (by omega)
  refine ⟨record Ev.wait { s with pin := rest }, ?_, hD, ?_⟩
  · unfold therm_therm_timeoutWait
    simp only [hD, if_true, hr]
    rfl
  · show k ≤ rest.count false
    omega

theorem write4Bytes_pin (a b c d : Nat) {s : State} {k : Nat} (hD : s.dtrEnabled = true)
    (hp : k + 1 ≤ s.pin.count false) :
    ∃ s', priv_write4Bytes a b c d s = Except.ok s' ∧ s'.dtrEnabled = true ∧
      k ≤ s'.pin.count false := by
  obtain ⟨s1, h1, hD1, hk1⟩ := timeoutWait_pin hD hp
  unfold priv_write4Bytes
  simp only [h1, ok_bind, pure_eq_ok]
  refine ⟨_, rfl, ?_, ?_⟩
  · simp only [therm_therm_timeoutSet, priv_writeByteToUART, record, hD1, if_true]
  · simp only [therm_therm_timeoutSet, priv_writeByteToUART, record, hD1, if_true]
    exact hk1

theorem bitmapRowLoop_pin (bitmap : List Nat) : ∀ (n i k : Nat) (s : State),
    i + n ≤ 2147483647 →
    i + n ≤ bitmap.length → s.dtrEnabled = true → k + n ≤ s.pin.count false →
    ∃ r, bitmapRowLoop bitmap n (i : Int) s = Except.ok r ∧ r.2.dtrEnabled = true ∧
      k ≤ r.2.pin.count false := by
  intro n
  induction n with
  | zero => intro i k s _ _ hD hp; exact ⟨(_, s), rfl, hD, hp⟩
  | succ n ih =>
    intro i k s hrg hlen hD hp
    obtain ⟨s1, h1, hD1, hk1⟩ := timeoutWait_pin (k := k + n) hD (by omega)
    obtain ⟨r, hr, hDr, hkr⟩ := ih (i + 1) k (priv_writeByteToUART bitmap[i] s1) (by omega)
      (by omega) hD1 hk1
    refine ⟨r, ?_, hDr, hkr⟩
    rw [bitmapRowLoop, i32_succ (by omega), h1]
    simp only [ok_bind, bitmapAt_lt (show i < bitmap.length by omega)]
    exact hr

theorem bitmapChunkRows_pin (bitmap : List Nat) (rb c : Nat) (hcr : c ≤ rb) :
    ∀ (n i k : Nat) (s : State), i + n * rb ≤ 2147483647 →
    (n = 0 ∨ i + (n - 1) * rb + c ≤ bitmap.length) → s.dtrEnabled = true →
    k + n * c ≤ s.pin.count false →
    ∃ r, bitmapChunkRows bitmap (rb : Int) (c : Int) n (i : Int) s = Except.ok r ∧
      r.2.dtrEnabled = true ∧ k ≤ r.2.pin.count false := by
  intro n
  induction n with
  | zero => intro i k s _ _ hD hp; exact ⟨(_, s), rfl, hD, by simpa using hp⟩
  | succ n ih =>
    intro i k s hrg hlen hD hp
    have hrg1 : (n + 1) * rb = n * rb + rb := by ring
    have h1 : i + n * rb + c ≤ bitmap.length := by
      rcases hlen with h | h
      · omega
      · simpa using h
    have hic : i + c ≤ bitmap.length := by
      have : 0 ≤ n * rb := Nat.zero_le _
      omega
    have hsplit : (n + 1) * c = n * c + c := by ring
    obtain ⟨r1, hr1, hD1, hk1⟩ := bitmapRowLoop_pin bitmap c i (k + n * c) s (by omega) hic hD
      (by omega)
    obtain ⟨e1, _, _⟩ := bitmapRowLoop_ok bitmap c i s r1 (by omega) hr1
    have hpos : i32 (r1.1 + i32 ((rb : Int) - (c : Int))) = ((i + rb : Nat) : Int) := by
      rw [e1]; exact i32_rowEnd (by omega) (by omega)
    have h2 : n = 0 ∨ (i + rb) + (n - 1) * rb + c ≤ bitmap.length := by
      rcases Nat.eq_zero_or_pos n with h0 | h0
      · exact Or.inl h0
      · right
        obtain ⟨m, rfl⟩ : ∃ m, n = m + 1 := ⟨n - 1, by omega⟩
        simp only [Nat.add_sub_cancel]
        have : (m + 1) * rb = m * rb + rb := by ring
        omega
    obtain ⟨r, hr, hDr, hkr⟩ := ih (i + rb) k r1.2 (by omega) h2 hD1 hk1
    refine ⟨r, ?_, hDr, hkr⟩
    rw [bitmapChunkRows]
    simp only [Int.toNat_ofNat, hr1, ok_bind, hpos]
    exact hr

theorem bitmapLoop_single (bitmap : List Nat) (h rb c L : Nat) (hc : 1 ≤ c) (hc2 : c ≤ 255)
    (hcr : c ≤ rb) (hh : 1 ≤ h) (hL : h ≤ L) (hL2 : L ≤ 255) (hrg : h * rb ≤ 2147483647)
    (fuel : Nat) (s s' : State)
    (hrun : bitmapLoop (h : Int) bitmap (rb : Int) (c : Int) (L : Int) fuel 0 0 s
      = Except.ok s') :
    ∃ ms pin rt, s' =
      { s with systick_ms := ms, pin := pin, resumeTime := rt,
               log := s.log ++ chunkLog c s.dotPrintTime [(h, rowsFrom bitmap rb c h 0)] } := by
  unfold bitmapLoop at hrun
  rw [if_pos (by omega)] at hrun
  cases fuel with
  | zero => simp at hrun
  | succ fuel =>
    have hch : (if i32 ((h : Int) - 0) > (L : Int) then (L : Int) else i32 ((h : Int) - 0))
        = (h : Int) := by
      rw [i32_of_range (x := (h : Int) - 0) (by omega) (by omega)]
      split <;> omega
    have hrs : i32 ((0 : Int) + (L : Int)) = (L : Int) := by
      rw [i32_of_range (by omega) (by omega)]
      omega
    simp only [hch, hrs] at hrun
    obtain ⟨s1, h1, hrun⟩ := bind_eq_ok.1 hrun
    obtain ⟨ms1, pin1, rt1, hs1⟩ := write4Bytes_ok h1
    obtain ⟨r, h2, hrun⟩ := bind_eq_ok.1 hrun
    simp only [Int.toNat_ofNat] at h2
    have h2' : bitmapChunkRows bitmap (rb : Int) (c : Int) h ((0 : Nat) : Int) s1
        = Except.ok r := h2
    obtain ⟨e1, e2, ms2, pin2, e3⟩ := bitmapChunkRows_ok bitmap rb c hc hcr h 0 s1 r
      (by omega) h2'
    obtain ⟨rt3, h3⟩ := timeoutSet_shape
      (u32 (((h : Int) % 4294967296).toNat * r.2.dotPrintTime)) r.2
    rw [h3] at hrun
    unfold bitmapLoop at hrun
    rw [if_neg (by omega)] at hrun
    simp only [pure_eq_ok, Except.ok.injEq] at hrun
    refine ⟨ms2, pin2, rt3, ?_⟩
    rw [← hrun, e3, hs1]
    have hu1 : u8i (h : Int) = h := by unfold u8i; omega
    have hu2 : u8i (c : Int) = c := by unfold u8i; omega
    have hu3 : ((h : Int) % 4294967296).toNat = h := by omega
    simp [chunkLog, hu1, hu2, hu3, u32]

theorem bitmapLoop_single_pin (bitmap : List Nat) (h rb c L : Nat) (hcr : c ≤ rb)
    (hh : 1 ≤ h) (hL : h ≤ L) (hL2 : L ≤ 255) (hrg : h * rb ≤ 2147483647)
    (hlen : (h - 1) * rb + c ≤ bitmap.length) (fuel : Nat) (s : State)
    (hD : s.dtrEnabled = true) (hp : 1 + h * c ≤ s.pin.count false) :
    ∃ s', bitmapLoop (h : Int) bitmap (rb : Int) (c : Int) (L : Int) (fuel + 1) 0 0 s
      = Except.ok s' := by
  obtain ⟨s1, h1, hD1, hk1⟩ := write4Bytes_pin ASCII_DC2 42 (u8i (h : Int)) (u8i (c : Int))
    (k := 0 + h * c) hD (by omega)
  obtain ⟨r, hr, _, _⟩ := bitmapChunkRows_pin bitmap rb c hcr h 0 0 s1 (by omega)
    (Or.inr (by omega)) hD1 hk1
  have hr' : bitmapChunkRows bitmap (rb : Int) (c : Int) h 0 s1 = Except.ok r := hr
  have hch : (if i32 ((h : Int) - 0) > (L : Int) then (L : Int) else i32 ((h : Int) - 0))
      = (h : Int) := by
    rw [i32_of_range (x := (h : Int) - 0) (by omega) (by omega)]
    split <;> omega
  have hrs : i32 ((0 : Int) + (L : Int)) = (L : Int) := by
    rw [i32_of_range (by omega) (by omega)]
    omega
  unfold bitmapLoop
  rw [if_pos (by omega)]
  simp only [hch, hrs, h1, ok_bind, Int.toNat_ofNat, hr']
  unfold bitmapLoop
  rw [if_neg (by omega)]
  exact ⟨_, rfl⟩

/-- C11 (counterexample).  In SignalPin mode, the image of width 2147483647
and height 1: the only header is 18, 42, 1, 1, whose last byte is not
min(ceil(w / 8), 48) = 48, and no data byte follows it. -/
theorem C11_counterexample :
    signalPinState.dtrEnabled = true ∧
      (therm_printBitmap 1 2147483647 1 (List.replicate 268435456 7) signalPinState).map sent
        = Except.ok [18, 42, 1, 1] := by
  decide

/-- C11 (amended).  In SignalPin mode the chunk-height limit of
`therm_printBitmap` is 255 whatever maxChunkHeight and the width are; for
every `1 <= w <= 2147483640` (the widths for which the `int` sum `w + 7` does
not overflow) the clipped row length is `min(ceil(w / 8), 48)`; and for every
such `w` and `1 <= h <= 255` (source buffer of `h * rowBytes` bytes, at most
2147483647 so that the `int` index does not overflow) a call that returns has
sent exactly one chunk: the header DC2 '*' h clipped, then the `h * clipped`
data bytes, with one header arm and one print arm in the log.  The call
returns when the loop budget is at least one pass and the pin reads low at
least `1 + h * clipped` times. -/
theorem C11_printBitmap_signal_pin_one_chunk (fuel : Nat) (w h : Int) (bitmap : List Nat)
    (s : State) (hD : s.dtrEnabled = true) (hw : 1 ≤ w) (hw2 : w ≤ 2147483640)
    (hh1 : 1 ≤ h) (hh2 : h ≤ 255) (hsz : h * rowBytesOf w ≤ 2147483647)
    (hlen : bitmap.length = h.toNat * (rowBytesOf w).toNat) :
    chunkHeightLimit (rowBytesClippedOf w) s = Except.ok 255 ∧
    rowBytesClippedOf w = min ((w + 7) / 8) 48 ∧
    (∀ s', therm_printBitmap fuel w h bitmap s = Except.ok s' →
      sent s' = sent s ++ [ASCII_DC2, 42, h.toNat, (rowBytesClippedOf w).toNat]
        ++ clippedImage bitmap (rowBytesOf w).toNat (rowBytesClippedOf w).toNat h.toNat ∧
      (clippedImage bitmap (rowBytesOf w).toNat (rowBytesClippedOf w).toNat h.toNat).length
        = h.toNat * (rowBytesClippedOf w).toNat ∧
      arms s' = arms s ++ [4 * BYTE_TIME, u32 (h.toNat * s.dotPrintTime)]) ∧
    (1 ≤ fuel → 1 + h.toNat * (rowBytesClippedOf w).toNat ≤ s.pin.count false →
      ∃ s', therm_printBitmap fuel w h bitmap s = Except.ok s') := by
  obtain ⟨hc, hc1, hc2, hc3⟩ := rowBytesClippedOf_eq hw hw2
  obtain ⟨hr1, _, _, hr4⟩ := rowBytesOf_pos hw hw2
  obtain ⟨rb, hrb⟩ : ∃ rb : Nat, rowBytesOf w = (rb : Int) := ⟨(rowBytesOf w).toNat, by omega⟩
  obtain ⟨c, hcN⟩ : ∃ c : Nat, rowBytesClippedOf w = (c : Int) :=
    ⟨(rowBytesClippedOf w).toNat, by omega⟩
  obtain ⟨hN, hhN⟩ : ∃ hN : Nat, h = (hN : Int) := ⟨h.toNat, by omega⟩
  subst hhN
  have hrgN : hN * rb ≤ 2147483647 := by
    rw [hrb] at hsz
    exact_mod_cast hsz
  have hlim : chunkHeightLimit (rowBytesClippedOf w) s = Except.ok 255 := by
    unfold chunkHeightLimit
    simp only [hD, if_true]
    rfl
  have hbound : (hN - 1) * rb + c ≤ bitmap.length := by
    obtain ⟨k, rfl⟩ : ∃ k, hN = k + 1 := ⟨hN - 1, by omega⟩
    have : (k + 1) * rb = k * rb + rb := by ring
    simp only [hrb, Int.toNat_ofNat] at hlen
    simp only [Nat.add_sub_cancel]
    omega
  refine ⟨hlim, by rw [hc, hr4], ?_, ?_⟩
  · intro s' hrun
    unfold therm_printBitmap at hrun
    simp only [hlim, ok_bind] at hrun
    simp only [hrb, hcN] at hrun
    obtain ⟨s1, hloop, hfin⟩ := bind_eq_ok.1 hrun
    simp only [pure_eq_ok, Except.ok.injEq] at hfin
    obtain ⟨ms, pin, rt, hs1⟩ := bitmapLoop_single bitmap hN rb c 255 (by omega) (by omega)
      (by omega) (by omega) (by omega) (by omega) hrgN fuel s s1 hloop
    simp only [hrb, hcN, Int.toNat_ofNat]
    have hdl : (rowsFrom bitmap rb c hN 0).length = hN * c :=
      rowsFrom_length bitmap rb c hN 0 (Or.inr (by omega))
    refine ⟨?_, ?_, ?_⟩
    · rw [← hfin, sent_eq_txOf, sent_eq_txOf, hs1, ← rowsFrom_eq_clippedImage]
      simp [txOf_append, txOf_chunkLog, chunkStream]
    · rw [← rowsFrom_eq_clippedImage]
      exact hdl
    · rw [← hfin, arms_eq_armsOf, arms_eq_armsOf, hs1]
      simp only [chunkLog, armsOf_append, armsOf_streamedBytes]
      simp [armsOf, BYTE_TIME_eq]
  · intro hfuel hpin
    simp only [hcN, Int.toNat_ofNat] at hpin
    obtain ⟨f, rfl⟩ : ∃ f, fuel = f + 1 := ⟨fuel - 1, by omega⟩
    obtain ⟨s1, hs1⟩ := bitmapLoop_single_pin bitmap hN rb c 255 (by omega) (by omega)
      (by omega) (by omega) hrgN hbound f s hD hpin
    have hs2 : bitmapLoop (hN : Int) bitmap (rb : Int) (c : Int) 255 (f + 1) 0 0 s
        = Except.ok s1 := hs1
    unfold therm_printBitmap
    simp only [hlim, ok_bind]
    simp only [hrb, hcN, hs2, ok_bind, pure_eq_ok]
    exact ⟨_, rfl⟩

/-- C11 at `w = 384`, `h = 10`: the limit is 255, the call returns and the
bytes sent are the only header, 18, 42, 10, 48, followed by the data bytes. -/
theorem C11_printBitmap_signal_pin_one_chunk_witness :
    chunkHeightLimit (rowBytesClippedOf 384) signalPinState = Except.ok 255 ∧
    [ASCII_DC2, 42, (10 : Int).toNat, (rowBytesClippedOf 384).toNat] = [18, 42, 10, 48] ∧
    ∃ s', therm_printBitmap 1 384 10 (List.replicate 480 7) signalPinState = Except.ok s' ∧
      sent s' = sent signalPinState
        ++ [ASCII_DC2, 42, (10 : Int).toNat, (rowBytesClippedOf 384).toNat]
        ++ clippedImage (List.replicate 480 7) (rowBytesOf 384).toNat
            (rowBytesClippedOf 384).toNat (10 : Int).toNat := by
  have h := C11_printBitmap_signal_pin_one_chunk 1 384 10 (List.replicate 480 7)
    signalPinState rfl (by decide) (by decide) (by decide) (by decide) (by decide)
    (by rw [List.length_replicate]; decide)
  obtain ⟨s', hs'⟩ := h.2.2.2 (le_refl 1) (by
    show _ ≤ (List.replicate 481 false).count false
    rw [List.count_replicate_self]
    decide)
  exact ⟨h.1, by decide, s', hs', (h.2.2.1 s' hs').1⟩

theorem pinLoop_first_low : ∀ (pin rest : List Bool),
    pinLoop pin = some rest ↔
      ∃ pre, pin = pre ++ false :: rest ∧ ∀ b ∈ pre, b = true
  | [], rest => by simp [pinLoop]
  | true :: tl, rest => by
    have ih := pinLoop_first_low tl rest
    have e : pinLoop (true :: tl) = pinLoop tl := by simp [pinLoop, priv_readDTRpin]
    rw [e, ih]
    constructor
    · rintro ⟨pre, h1, h2⟩
      refine ⟨true :: pre, by simp [h1], ?_⟩
      intro b hb
      rcases List.mem_cons.1 hb with hb | hb
      · exact hb
      · exact h2 b hb
    · rintro ⟨pre, h1, h2⟩
      cases pre with
      | nil => simp at h1
      | cons p pre =>
        simp only [List.cons_append, List.cons.injEq] at h1
        exact ⟨pre, h1.2, fun b hb => h2 b (List.mem_cons_of_mem _ hb)⟩
  | false :: tl, rest => by
    have e : pinLoop (false :: tl) = some tl := by simp [pinLoop, priv_readDTRpin, HIGH, LOW]
    rw [e]
    constructor
    · intro h
      simp only [Option.some.injEq] at h
      exact ⟨[], by simp [h], by simp⟩
    · rintro ⟨pre, h1, h2⟩
      cases pre with
      | nil =>
        simp only [List.nil_append, List.cons.injEq, true_and] at h1
        rw [h1]
      | cons p pre =>
        simp only [List.cons_append, List.cons.injEq] at h1
        have := h2 p (List.mem_cons_self _ _)
        rw [← h1.1] at this
        exact absurd this (by decide)

/-- C21.  In SignalPin mode (`dtrEnabled` set), for every `d`:
`therm_timeoutSet d` leaves resumeTime and every other variable of the driver
and of the badge unchanged (the model only notes the call in its observation
log); `therm_timeoutWait` returns exactly when some coming pin reading is low,
it then leaves the readings after the first low one and changes nothing else;
so whether and how it returns is the same in any two SignalPin states with the
same pin readings, whatever their resumeTime and clock, and in particular
after any arm. -/
theorem C21_signal_pin_arm_is_noop (d : Nat) (s : State) (hD : s.dtrEnabled = true) :
    therm_therm_timeoutSet d s = { s with log := s.log ++ [Ev.arm (u32 d)] } ∧
    (therm_therm_timeoutSet d s).resumeTime = s.resumeTime ∧
    machine (therm_therm_timeoutSet d s) = machine s ∧
    (∀ s', therm_therm_timeoutWait s = Except.ok s' ↔
      ∃ pre rest, s.pin = pre ++ false :: rest ∧ (∀ b ∈ pre, b = true) ∧
        s' = { s with pin := rest, log := s.log ++ [Ev.wait] }) ∧
    ((∃ s', therm_therm_timeoutWait s = Except.ok s') ↔ false ∈ s.pin) ∧
    (∀ s2 : State, s2.dtrEnabled = true → s2.pin = s.pin →
      (therm_therm_timeoutWait s2).map (fun r => r.pin)
        = (therm_therm_timeoutWait s).map (fun r => r.pin)) ∧
    (therm_therm_timeoutWait (therm_therm_timeoutSet d s)).map machine
      = (therm_therm_timeoutWait s).map machine := by
  have hset : therm_therm_timeoutSet d s = { s with log := s.log ++ [Ev.arm (u32 d)] } := by
    simp [therm_therm_timeoutSet, hD, record]
  have hwait : ∀ t : State, t.dtrEnabled = true →
      therm_therm_timeoutWait t = match pinLoop t.pin with
        | none => Except.error Fault.hang
        | some rest => Except.ok { t with pin := rest, log := t.log ++ [Ev.wait] } := by
    intro t ht
    unfold therm_therm_timeoutWait
    simp only [ht, if_true]
    cases pinLoop t.pin <;> rfl
  have hiff : ∀ s', therm_therm_timeoutWait s = Except.ok s' ↔
      ∃ pre rest, s.pin = pre ++ false :: rest ∧ (∀ b ∈ pre, b = true) ∧
        s' = { s with pin := rest, log := s.log ++ [Ev.wait] } := by
    intro s'
    rw [hwait s hD]
    constructor
    · intro h
      cases hp : pinLoop s.pin with
      | none => rw [hp] at h; simp at h
      | some rest =>
        rw [hp] at h
        simp only [Except.ok.injEq] at h
        obtain ⟨pre, h1, h2⟩ := (pinLoop_first_low s.pin rest).1 hp
        exact ⟨pre, rest, h1, h2, h.symm⟩
    · rintro ⟨pre, rest, h1, h2, h3⟩
      have hp := (pinLoop_first_low s.pin rest).2 ⟨pre, h1, h2⟩
      rw [hp, h3]
  refine ⟨hset, by rw [hset], by rw [hset]; rfl, hiff, ?_, ?_, ?_⟩
  · constructor
    · rintro ⟨s', h⟩
      obtain ⟨pre, rest, h1, _, _⟩ := (hiff s').1 h
      rw [h1]
      simp
    · intro hmem
      obtain ⟨rest, hr, _⟩ := pinLoop_low s.pin (by
        exact List.count_pos_iff.2 hmem)
      exact ⟨_, by rw [hwait s hD, hr]⟩
  · intro s2 hD2 hp
    rw [hwait s hD, hwait s2 hD2, hp]
    cases pinLoop s.pin <;> rfl
  · rw [hset, hwait s hD, hwait _ (show ({ s with log := s.log ++ [Ev.arm (u32 d)] }
      : State).dtrEnabled = true from hD)]
    show Except.map machine (match pinLoop s.pin with
      | none => Except.error Fault.hang
      | some rest => Except.ok _) = _
    cases pinLoop s.pin <;> rfl

/-- C21 at the SignalPin example state: an arm of five seconds changes no
variable, and the wait that follows consumes one low pin reading. -/
theorem C21_signal_pin_arm_is_noop_witness :
    machine (therm_therm_timeoutSet 5000000 signalPinState) = machine signalPinState ∧
    ∃ s', therm_therm_timeoutWait signalPinState = Except.ok s' := by
  have h := C21_signal_pin_arm_is_noop 5000000 signalPinState rfl
  refine ⟨h.2.2.1, h.2.2.2.2.1.2 ?_⟩
  show false ∈ List.replicate 481 false
  exact List.mem_replicate.2 ⟨by decide, rfl⟩

theorem wakeLoop_ok : ∀ (n : Nat) (s s' : State), wakeLoop n s = Except.ok s' →
    ∃ ms pin rt, s' = { s with systick_ms := ms, pin := pin, resumeTime := rt,
                               log := s.log ++ wakeNuls n } := by
  intro n
  induction n with
  | zero =>
    intro s s' h
    simp only [wakeLoop, pure_eq_ok, Except.ok.injEq] at h
    subst h
    exact ⟨s.systick_ms, s.pin, s.resumeTime, by simp [wakeNuls]⟩
  | succ n ih =>
    intro s s' h
    rw [wakeLoop] at h
    obtain ⟨s1, h1, h2⟩ := bind_eq_ok.1 h
    obtain ⟨ms1, pin1, rt1, hs1⟩ := writeBytes_ok h1
    obtain ⟨rt2, hs2⟩ := timeoutSet_shape 10000 s1
    rw [hs2] at h2
    obtain ⟨ms, pin, rt, hs'⟩ := ih _ s' h2
    refine ⟨ms, pin, rt, ?_⟩
    rw [hs', hs1]
    simp [wakeNuls, List.replicate_succ, u32]

theorem wakeLoop_timed : ∀ (n : Nat) (s : State), s.dtrEnabled = false →
    ∃ s', wakeLoop (n + 1) s = Except.ok s' ∧ s'.dtrEnabled = false ∧
      s'.resumeTime = (micros s' + 10000) % 4294967296 := by
  intro n
  induction n with
  | zero =>
    intro s hT
    obtain ⟨s1, h1⟩ := writeBytes_total 0 hT
    obtain ⟨ms1, pin1, rt1, hs1⟩ := writeBytes_ok h1
    have hT1 : s1.dtrEnabled = false := by rw [hs1]; exact hT
    refine ⟨therm_therm_timeoutSet 10000 s1, ?_, ?_, ?_⟩
    · rw [wakeLoop, h1]
      rfl
    · rw [timeoutSet_timed 10000 s1 hT1]
      exact hT1
    · rw [timeoutSet_timed 10000 s1 hT1]
      simp [micros, u32]
  | succ n ih =>
    intro s hT
    obtain ⟨s1, h1⟩ := writeBytes_total 0 hT
    obtain ⟨ms1, pin1, rt1, hs1⟩ := writeBytes_ok h1
    have hT1 : s1.dtrEnabled = false := by rw [hs1]; exact hT
    have hT2 : (therm_therm_timeoutSet 10000 s1).dtrEnabled = false := by
      rw [timeoutSet_timed 10000 s1 hT1]
      exact hT1
    obtain ⟨s', h2, h3, h4⟩ := ih _ hT2
    refine ⟨s', ?_, h3, h4⟩
    rw [wakeLoop, h1]
    exact h2

theorem wake_new_ok {fw : Nat} {s s' : State} (hfw : fw ≥ 264)
    (h : therm_therm_wake fw s = Except.ok s') :
    ∃ ms pin rt buf n fut, s' =
      { s with systick_ms := ms, pin := pin, resumeTime := rt, rxbuf := buf, rxptr := n,
               rxFuture := fut,
               log := s.log ++ [Ev.arm 0, Ev.wait, Ev.tx 255, Ev.arm 573, Ev.delay 50, Ev.wait,
                                Ev.tx ASCII_ESC, Ev.tx 56, Ev.tx 0, Ev.tx 0, Ev.arm 2292] } := by
  unfold therm_therm_wake at h
  obtain ⟨rt0, hs0⟩ := timeoutSet_shape 0 s
  rw [hs0] at h
  obtain ⟨s1, h1, h2⟩ := bind_eq_ok.1 h
  rw [if_pos hfw] at h2
  obtain ⟨ms1, pin1, rt1, hs1⟩ := writeBytes_ok h1
  obtain ⟨buf, n, fut, hd⟩ := delay_shape 50 s1
  rw [hd] at h2
  obtain ⟨ms2, pin2, rt2, hs2⟩ := write4Bytes_ok h2
  refine ⟨ms2, pin2, rt2, buf, n, fut, ?_⟩
  rw [hs2, hs1]
  simp [u32]

theorem wake_old_ok {fw : Nat} {s s' : State} (hfw : ¬ fw ≥ 264)
    (h : therm_therm_wake fw s = Except.ok s') :
    ∃ ms pin rt, s' =
      { s with systick_ms := ms, pin := pin, resumeTime := rt,
               log := s.log ++ [Ev.arm 0, Ev.wait, Ev.tx 255, Ev.arm 573] ++ wakeNuls 10 } := by
  unfold therm_therm_wake at h
  obtain ⟨rt0, hs0⟩ := timeoutSet_shape 0 s
  rw [hs0] at h
  obtain ⟨s1, h1, h2⟩ := bind_eq_ok.1 h
  rw [if_neg hfw] at h2
  obtain ⟨ms1, pin1, rt1, hs1⟩ := writeBytes_ok h1
  obtain ⟨ms2, pin2, rt2, hs2⟩ := wakeLoop_ok 10 s1 s' h2
  refine ⟨ms2, pin2, rt2, ?_⟩
  rw [hs2, hs1]
  simp [u32]

theorem wake_total (fw : Nat) {s : State} (hT : s.dtrEnabled = false) :
    ∃ s', therm_therm_wake fw s = Except.ok s' ∧ s'.dtrEnabled = false ∧
      (¬ fw ≥ 264 → s'.resumeTime = (micros s' + 10000) % 4294967296) := by
  have hT0 : (therm_therm_timeoutSet 0 s).dtrEnabled = false := by
    rw [timeoutSet_timed 0 s hT]; exact hT
  obtain ⟨s1, h1⟩ := writeBytes_total 255 hT0
  obtain ⟨ms1, pin1, rt1, hs1⟩ := writeBytes_ok h1
  have hT1 : s1.dtrEnabled = false := by rw [hs1]; exact hT0
  unfold therm_therm_wake
  simp only [h1, ok_bind]
  by_cases hfw : fw ≥ 264
  · rw [if_pos hfw]
    obtain ⟨buf, n, fut, hd⟩ := delay_shape 50 s1
    have hT2 : (priv_delay 50 s1).dtrEnabled = false := by rw [hd]; exact hT1
    obtain ⟨s2, h2⟩ := write4Bytes_total ASCII_ESC 56 0 0 hT2
    obtain ⟨ms2, pin2, rt2, hs2⟩ := write4Bytes_ok h2
    exact ⟨s2, h2, by rw [hs2]; exact hT2, fun hc => absurd hfw hc⟩
  · rw [if_neg hfw]
    obtain ⟨s2, h2, h3, h4⟩ := wakeLoop_timed 9 s1 hT1
    exact ⟨s2, h2, h3, fun _ => h4⟩

theorem txOf_wakeNuls (n : Nat) : txOf (wakeNuls n) = List.replicate n 0 := by
  induction n with
  | zero => rfl
  | succ n ih =>
    have e : wakeNuls (n + 1) = [Ev.wait, Ev.tx 0, Ev.arm 573, Ev.arm 10000] ++ wakeNuls n := by
      simp [wakeNuls, List.replicate_succ]
    rw [e, txOf_append, ih]
    simp [txOf, List.replicate_succ]

theorem armsOf_wakeNuls (n : Nat) :
    armsOf (wakeNuls n) = (List.replicate n [573, 10000]).flatten := by
  induction n with
  | zero => rfl
  | succ n ih =>
    have e : wakeNuls (n + 1) = [Ev.wait, Ev.tx 0, Ev.arm 573, Ev.arm 10000] ++ wakeNuls n := by
      simp [wakeNuls, List.replicate_succ]
    rw [e, armsOf_append, ih]
    simp [armsOf, List.replicate_succ]

theorem wakeLoop_succ (n : Nat) (t : State) :
    wakeLoop (n + 1) t = wakeLoop 1 t >>= wakeLoop n := by
  cases h : priv_writeBytes 0 t with
  | error e => simp [wakeLoop, h, error_bind]
  | ok s1 => simp [wakeLoop, h, ok_bind, pure_eq_ok]

/-- C23.  `therm_wake` first sends 0xFF.  With firmware 2.64 or later a call
that returns has then made a delay of 50 ms and sent ESC '8' 0 0, and nothing
else.  With older firmware it has then sent exactly ten 0x00 bytes, each pass
being the byte helper (wait, byte, arm of one byte time) followed by an arm of
10000 microseconds.  In Timed mode the call returns, every pass of the loop
leaves resumeTime = clock + 10000 (mod 2^32), and so does the call with old
firmware. -/
theorem C23_wake_sequence (fw : Nat) (s : State) :
    (fw ≥ 264 → ∀ s', therm_therm_wake fw s = Except.ok s' →
      sent s' = sent s ++ [255, ASCII_ESC, 56, 0, 0] ∧
      s'.log = s.log ++ [Ev.arm 0, Ev.wait, Ev.tx 255, Ev.arm 573, Ev.delay 50, Ev.wait,
                         Ev.tx ASCII_ESC, Ev.tx 56, Ev.tx 0, Ev.tx 0, Ev.arm 2292]) ∧
    (¬ fw ≥ 264 → ∀ s', therm_therm_wake fw s = Except.ok s' →
      sent s' = sent s ++ 255 :: List.replicate 10 0 ∧
      s'.log = s.log ++ [Ev.arm 0, Ev.wait, Ev.tx 255, Ev.arm 573] ++ wakeNuls 10 ∧
      arms s' = arms s ++ [0, 573] ++ (List.replicate 10 [573, 10000]).flatten) ∧
    (s.dtrEnabled = false → ∃ s', therm_therm_wake fw s = Except.ok s' ∧
      (¬ fw ≥ 264 → s'.resumeTime = (micros s' + 10000) % 4294967296)) ∧
    (∀ (n : Nat) (t : State), wakeLoop (n + 1) t = wakeLoop 1 t >>= wakeLoop n) ∧
    (∀ t : State, t.dtrEnabled = false → ∃ t', wakeLoop 1 t = Except.ok t' ∧
      t'.log = t.log ++ [Ev.wait, Ev.tx 0, Ev.arm 573, Ev.arm 10000] ∧
      t'.resumeTime = (micros t' + 10000) % 4294967296) := by
  refine ⟨?_, ?_, ?_, wakeLoop_succ, ?_⟩
  · intro hfw s' h
    obtain ⟨ms, pin, rt, buf, n, fut, hs'⟩ := wake_new_ok hfw h
    rw [sent_eq_txOf, sent_eq_txOf, hs']
    exact ⟨by simp [txOf_append, txOf], rfl⟩
  · intro hfw s' h
    obtain ⟨ms, pin, rt, hs'⟩ := wake_old_ok hfw h
    rw [sent_eq_txOf, sent_eq_txOf, arms_eq_armsOf, arms_eq_armsOf, hs']
    refine ⟨?_, rfl, ?_⟩
    · simp only [txOf_append, txOf_wakeNuls]
      simp [txOf]
    · simp only [armsOf_append, armsOf_wakeNuls]
      simp [armsOf]
  · intro hT
    obtain ⟨s', h1, _, h3⟩ := wake_total fw hT
    exact ⟨s', h1, h3⟩
  · intro t hT
    obtain ⟨t', h1, _, h3⟩ := wakeLoop_timed 0 t hT
    obtain ⟨ms, pin, rt, ht'⟩ := wakeLoop_ok 1 t t' h1
    refine ⟨t', h1, ?_, h3⟩
    rw [ht']
    simp [wakeNuls]

/-- C23 at the ready state with firmware 2.63: the call returns, has sent
0xFF and ten NULs, and leaves resumeTime = clock + 10000. -/
theorem C23_wake_sequence_witness :
    ∃ s', therm_therm_wake 263 readyState = Except.ok s' ∧
      sent s' = sent readyState ++ 255 :: List.replicate 10 0 ∧
      s'.resumeTime = (micros s' + 10000) % 4294967296 := by
  have h := C23_wake_sequence 263 readyState
  obtain ⟨s', h1, h2⟩ := h.2.2.1 rfl
  exact ⟨s', h1, (h.2.1 (by decide) s' h1).1, h2 (by decide)⟩

theorem reset_ok {fw : Nat} {s s' : State} (h : therm_reset fw s = Except.ok s') :
    ∃ ms pin rt, s' =
      { s with systick_ms := ms, pin := pin, resumeTime := rt,
               prevByte := ASCII_LF, column := 0, maxColumn := 32, charHeight := 24,
               lineSpacing := 6, barcodeHeight := 50,
               log := s.log ++ [Ev.wait, Ev.tx ASCII_ESC, Ev.tx 64, Ev.arm 1146] ++
                 (if fw ≥ 264 then
                   [Ev.wait, Ev.tx ASCII_ESC, Ev.tx 68, Ev.arm 1146,
                    Ev.wait, Ev.tx 4, Ev.tx 8, Ev.tx 12, Ev.tx 16, Ev.arm 2292,
                    Ev.wait, Ev.tx 20, Ev.tx 24, Ev.tx 28, Ev.tx 0, Ev.arm 2292]
                  else []) } := by
  unfold therm_reset at h
  obtain ⟨s1, h1, h2⟩ := bind_eq_ok.1 h
  obtain ⟨ms, pin, rt, hs1⟩ := write2Bytes_ok h1
  by_cases hfw : fw ≥ 264
  · rw [if_pos hfw] at h2
    obtain ⟨s2, h3, h4⟩ := bind_eq_ok.1 h2
    obtain ⟨s3, h5, h6⟩ := bind_eq_ok.1 h4
    obtain ⟨ms2, pin2, rt2, hs2⟩ := write2Bytes_ok h3
    obtain ⟨ms3, pin3, rt3, hs3⟩ := write4Bytes_ok h5
    obtain ⟨ms4, pin4, rt4, hs4⟩ := write4Bytes_ok h6
    refine ⟨ms4, pin4, rt4, ?_⟩
    rw [hs4, hs3, hs2, hs1, if_pos hfw]
    simp
  · rw [if_neg hfw] at h2
    simp only [pure_eq_ok, Except.ok.injEq] at h2
    refine ⟨ms, pin, rt, ?_⟩
    rw [← h2, hs1, if_neg hfw]
    simp

theorem reset_total (fw : Nat) {s : State} (hT : s.dtrEnabled = false) :
    ∃ s', therm_reset fw s = Except.ok s' ∧ s'.dtrEnabled = false := by
  obtain ⟨s1, h1⟩ := write2Bytes_total ASCII_ESC 64 hT
  obtain ⟨ms, pin, rt, hs1⟩ := write2Bytes_ok h1
  have hT1 : s1.dtrEnabled = false := by rw [hs1]; exact hT
  unfold therm_reset
  simp only [h1, ok_bind]
  by_cases hfw : fw ≥ 264
  · rw [if_pos hfw]
    obtain ⟨s2, h2⟩ := write2Bytes_total ASCII_ESC 68
      (show ({ s1 with prevByte := ASCII_LF, column := 0, maxColumn := 32, charHeight := 24,
                       lineSpacing := 6, barcodeHeight := 50 } : State).dtrEnabled = false
        from hT1)
    obtain ⟨ms2, pin2, rt2, hs2⟩ := write2Bytes_ok h2
    have hT2 : s2.dtrEnabled = false := by rw [hs2]; exact hT1
    obtain ⟨s3, h3⟩ := write4Bytes_total 4 8 12 16 hT2
    obtain ⟨ms3, pin3, rt3, hs3⟩ := write4Bytes_ok h3
    have hT3 : s3.dtrEnabled = false := by rw [hs3]; exact hT2
    obtain ⟨s4, h4⟩ := write4Bytes_total 20 24 28 0 hT3
    obtain ⟨ms4, pin4, rt4, hs4⟩ := write4Bytes_ok h4
    refine ⟨s4, ?_, by rw [hs4]; exact hT3⟩
    simp only [h2, ok_bind, h3, h4]
  · rw [if_neg hfw]
    exact ⟨_, rfl, hT1⟩

/-- C24.  From every state, a `therm_reset` that returns has sent ESC '@',
followed with firmware 2.64 or later by ESC 'D' 4 8 12 16 20 24 28 0, and
leaves prevByte = newline, column = 0, maxColumn = 32, charHeight = 24,
lineSpacing = 6, barcodeHeight = 50.  These values do not depend on the state
before, so a second reset leaves them as the first did.  In Timed mode the
call returns. -/
theorem C24_reset_defaults (fw : Nat) (s : State) :
    (∀ s', therm_reset fw s = Except.ok s' →
      sent s' = sent s ++ [ASCII_ESC, 64] ++
        (if fw ≥ 264 then [ASCII_ESC, 68, 4, 8, 12, 16, 20, 24, 28, 0] else []) ∧
      resetFields s' = (ASCII_LF, 0, 32, 24, 6, 50)) ∧
    (∀ (t s' t' : State), therm_reset fw s = Except.ok s' → therm_reset fw t = Except.ok t' →
      resetFields s' = resetFields t') ∧
    (∀ s' s'', therm_reset fw s = Except.ok s' → therm_reset fw s' = Except.ok s'' →
      resetFields s'' = resetFields s') ∧
    (s.dtrEnabled = false → ∃ s', therm_reset fw s = Except.ok s') := by
  have hf : ∀ (a a' : State), therm_reset fw a = Except.ok a' →
      resetFields a' = (ASCII_LF, 0, 32, 24, 6, 50) := by
    intro a a' h
    obtain ⟨ms, pin, rt, ha⟩ := reset_ok h
    rw [ha]
    rfl
  refine ⟨?_, ?_, ?_, ?_⟩
  · intro s' h
    refine ⟨?_, hf s s' h⟩
    obtain ⟨ms, pin, rt, hs'⟩ := reset_ok h
    rw [sent_eq_txOf, sent_eq_txOf, hs']
    by_cases hfw : fw ≥ 264
    · simp [hfw, txOf_append, txOf]
    · simp [hfw, txOf_append, txOf]
  · intro t s' t' h1 h2
    rw [hf s s' h1, hf t t' h2]
  · intro s' s'' h1 h2
    rw [hf s s' h1, hf s' s'' h2]
  · intro hT
    obtain ⟨s', h, _⟩ := reset_total fw hT
    exact ⟨s', h⟩

/-- C24 at a state with a wide column and double-size geometry, firmware
2.68. -/
theorem C24_reset_defaults_witness :
    ∃ s', therm_reset 268 { readyState with column := 7, charHeight := 48, maxColumn := 16 }
        = Except.ok s' ∧
      resetFields s' = (ASCII_LF, 0, 32, 24, 6, 50) := by
  have h := C24_reset_defaults 268
    { readyState with column := 7, charHeight := 48, maxColumn := 16 }
  obtain ⟨s', hs'⟩ := h.2.2.2 rfl
  exact ⟨s', hs', (h.1 s' hs').2⟩

theorem enableDtr_none {s : State} (hp : s.dtrPin = 255) : enableDtr s = Except.ok s := by
  unfold enableDtr
  rw [if_neg (by omega)]
  rfl

theorem begin_new_ok {fw heatTime : Nat} {s s' : State} (hfw : fw ≥ 264)
    (hp : s.dtrPin = 255) (h : therm_begin fw heatTime s = Except.ok s') :
    ∃ ms pin rt buf n fut evs, txOf evs = beginBytes heatTime ∧ s' =
      { s with systick_ms := ms, pin := pin, resumeTime := rt, rxbuf := buf, rxptr := n,
               rxFuture := fut, prevByte := ASCII_LF, column := 0, maxColumn := 32,
               charHeight := 24, lineSpacing := 6, barcodeHeight := 50,
               dotPrintTime := 30000, dotFeedTime := 2100, maxChunkHeight := 255,
               log := s.log ++ evs } := by
  unfold therm_begin at h
  obtain ⟨rt0, hs0⟩ := timeoutSet_shape 500000 s
  rw [hs0] at h
  obtain ⟨s1, h1, h⟩ := bind_eq_ok.1 h
  obtain ⟨s2, h2, h⟩ := bind_eq_ok.1 h
  obtain ⟨s3, h3, h⟩ := bind_eq_ok.1 h
  obtain ⟨s4, h4, h⟩ := bind_eq_ok.1 h
  obtain ⟨s5, h5, h⟩ := bind_eq_ok.1 h
  obtain ⟨s6, h6, h⟩ := bind_eq_ok.1 h
  simp only [pure_eq_ok, Except.ok.injEq] at h
  obtain ⟨ms1, pin1, rt1, buf, n, fut, hs1⟩ := wake_new_ok hfw h1
  obtain ⟨ms2, pin2, rt2, hs2⟩ := reset_ok h2
  obtain ⟨ms3, pin3, rt3, hs3⟩ := write2Bytes_ok h3
  obtain ⟨ms4, pin4, rt4, hs4⟩ := write3Bytes_ok h4
  obtain ⟨ms5, pin5, rt5, hs5⟩ := write3Bytes_ok h5
  have hp5 : s5.dtrPin = 255 := by rw [hs5, hs4, hs3, hs2, hs1]; exact hp
  rw [enableDtr_none hp5] at h6
  simp only [Except.ok.injEq] at h6
  refine ⟨ms5, pin5, rt5, buf, n, fut,
    [Ev.arm 500000, Ev.arm 0, Ev.wait, Ev.tx 255, Ev.arm 573, Ev.delay 50, Ev.wait,
     Ev.tx ASCII_ESC, Ev.tx 56, Ev.tx 0, Ev.tx 0, Ev.arm 2292,
     Ev.wait, Ev.tx ASCII_ESC, Ev.tx 64, Ev.arm 1146,
     Ev.wait, Ev.tx ASCII_ESC, Ev.tx 68, Ev.arm 1146,
     Ev.wait, Ev.tx 4, Ev.tx 8, Ev.tx 12, Ev.tx 16, Ev.arm 2292,
     Ev.wait, Ev.tx 20, Ev.tx 24, Ev.tx 28, Ev.tx 0, Ev.arm 2292,
     Ev.wait, Ev.tx ASCII_ESC, Ev.tx 55, Ev.arm 1146,
     Ev.wait, Ev.tx 11, Ev.tx heatTime, Ev.tx 40, Ev.arm 1719,
     Ev.wait, Ev.tx ASCII_DC2, Ev.tx 35, Ev.tx 74, Ev.arm 1719], ?_, ?_⟩
  · simp [txOf, beginBytes]
  · subst h
    subst h6
    subst hs5
    subst hs4
    subst hs3
    subst hs2
    subst hs1
    simp [hfw, u32, printBreakTime, printDensity]

theorem begin_total (fw heatTime : Nat) {s : State} (hT : s.dtrEnabled = false)
    (hp : s.dtrPin = 255) : ∃ s', therm_begin fw heatTime s = Except.ok s' := by
  have hT0 : (therm_therm_timeoutSet 500000 s).dtrEnabled = false := by
    rw [timeoutSet_timed 500000 s hT]; exact hT
  have hp0 : (therm_therm_timeoutSet 500000 s).dtrPin = 255 := by
    rw [timeoutSet_timed 500000 s hT]; exact hp
  obtain ⟨s1, h1, hT1, _⟩ := wake_total fw hT0
  obtain ⟨s2, h2, hT2⟩ := reset_total fw hT1
  obtain ⟨s3, h3⟩ := write2Bytes_total ASCII_ESC 55 hT2
  obtain ⟨ms3, pin3, rt3, hs3⟩ := write2Bytes_ok h3
  have hT3 : s3.dtrEnabled = false := by rw [hs3]; exact hT2
  obtain ⟨s4, h4⟩ := write3Bytes_total 11 heatTime 40 hT3
  obtain ⟨ms4, pin4, rt4, hs4⟩ := write3Bytes_ok h4
  have hT4 : s4.dtrEnabled = false := by rw [hs4]; exact hT3
  obtain ⟨s5, h5⟩ := write3Bytes_total ASCII_DC2 35 ((printBreakTime <<< 5) ||| printDensity) hT4
  obtain ⟨ms5, pin5, rt5, hs5⟩ := write3Bytes_ok h5
  have hp5 : s5.dtrPin = 255 := by
    have e1 := settings_write3Bytes h5
    have e2 := settings_write3Bytes h4
    have e3 := settings_write2Bytes h3
    have e4 : s2.dtrPin = s1.dtrPin := by
      obtain ⟨ms2, pin2, rt2, hs2⟩ := reset_ok h2
      rw [hs2]
    have e5 : s1.dtrPin = (therm_therm_timeoutSet 500000 s).dtrPin := by
      by_cases hfw : fw ≥ 264
      · obtain ⟨ms1, pin1, rt1, buf, n, fut, hs1⟩ := wake_new_ok hfw h1
        rw [hs1]
      · obtain ⟨ms1, pin1, rt1, hs1⟩ := wake_old_ok hfw h1
        rw [hs1]
    simp only [settings, Prod.mk.injEq] at e1 e2 e3
    omega
  unfold therm_begin
  simp only [h1, ok_bind, h2, h3, h4, h5, enableDtr_none hp5, pure_eq_ok]
  exact ⟨_, rfl⟩

/-- C22.  With firmware 2.64 or later and no DTR pin (`dtrPin` = 255), for
every heat time, a `therm_begin` that returns has sent exactly 0xFF;
ESC '8' 0 0; ESC '@'; ESC 'D' 4 8 12 16 20 24 28 0; ESC '7' 11 heatTime 40;
DC2 '#' 74, where 74 = (2 << 5) | 10, and leaves dotPrintTime = 30000,
dotFeedTime = 2100, maxChunkHeight = 255 and the reset values prevByte =
newline, column = 0, maxColumn = 32, charHeight = 24, lineSpacing = 6,
barcodeHeight = 50; the handshake flag is as before.  In Timed mode the call
returns. -/
theorem C22_begin_new_firmware (fw heatTime : Nat) (s : State) (hfw : fw ≥ 264)
    (hp : s.dtrPin = 255) :
    (∀ s', therm_begin fw heatTime s = Except.ok s' →
      sent s' = sent s ++ beginBytes heatTime ∧
      s'.dotPrintTime = 30000 ∧ s'.dotFeedTime = 2100 ∧ s'.maxChunkHeight = 255 ∧
      resetFields s' = (ASCII_LF, 0, 32, 24, 6, 50) ∧
      s'.dtrEnabled = s.dtrEnabled) ∧
    beginBytes heatTime =
      [0xFF, 27, 56, 0, 0, 27, 64, 27, 68, 4, 8, 12, 16, 20, 24, 28, 0,
       27, 55, 11, heatTime, 40, 18, 35, (2 <<< 5) ||| 10] ∧
    (s.dtrEnabled = false → ∃ s', therm_begin fw heatTime s = Except.ok s') := by
  refine ⟨?_, ?_, fun hT => begin_total fw heatTime hT hp⟩
  · intro s' h
    obtain ⟨ms, pin, rt, buf, n, fut, evs, hev, hs'⟩ := begin_new_ok hfw hp h
    rw [sent_eq_txOf, sent_eq_txOf, hs']
    refine ⟨?_, rfl, rfl, rfl, rfl, rfl⟩
    show txOf (s.log ++ evs) = _
    rw [txOf_append, hev]
  · simp [beginBytes, ASCII_ESC, ASCII_DC2]

/-- C22 at the boot state, heat time 120, firmware 2.68. -/
theorem C22_begin_new_firmware_witness :
    ∃ s', therm_begin 268 120 (bootState 0 []) = Except.ok s' ∧
      sent s' = beginBytes 120 ∧ s'.dotPrintTime = 30000 ∧ s'.maxChunkHeight = 255 := by
  have h := C22_begin_new_firmware 268 120 (bootState 0 []) (by decide) rfl
  obtain ⟨s', hs'⟩ := h.2.2 rfl
  obtain ⟨e1, e2, _, e4, _⟩ := h.1 s' hs'
  exact ⟨s', hs', by simpa [sent, bootState] using e1, e2, e4⟩

theorem clamp_low (x k : Nat) : (if x > k then k else x) = min x k := by
  split <;> omega

/-- C25.  Out-of-range parameters are clamped: for every byte `x`, a call
that returns has sent exactly three bytes, ESC '-' min(x, 2) for
`therm_underlineOn`, ESC 'R' min(x, 15) for `therm_setCharset`,
ESC 't' min(x, 47) for `therm_setCodePage` and GS 'h' max(x, 1) for
`therm_setBarcodeHeight`, which also stores barcodeHeight = max(x, 1).  No
call reports an error for any input: in Timed mode each returns. -/
theorem C25_parameters_clamped (x : Nat) (s : State) :
    (∀ s', therm_underlineOn x s = Except.ok s' →
      sent s' = sent s ++ [ASCII_ESC, 45, min x 2]) ∧
    (∀ s', therm_setCharset x s = Except.ok s' →
      sent s' = sent s ++ [ASCII_ESC, 82, min x 15]) ∧
    (∀ s', therm_setCodePage x s = Except.ok s' →
      sent s' = sent s ++ [ASCII_ESC, 116, min x 47]) ∧
    (∀ s', therm_setBarcodeHeight x s = Except.ok s' →
      sent s' = sent s ++ [ASCII_GS, 104, max x 1] ∧ s'.barcodeHeight = max x 1) ∧
    (s.dtrEnabled = false →
      (∃ s', therm_underlineOn x s = Except.ok s') ∧
      (∃ s', therm_setCharset x s = Except.ok s') ∧
      (∃ s', therm_setCodePage x s = Except.ok s') ∧
      (∃ s', therm_setBarcodeHeight x s = Except.ok s')) := by
  have hsent : ∀ (a b c : Nat) (t t' : State), priv_write3Bytes a b c t = Except.ok t' →
      sent t' = sent t ++ [a, b, c] := by
    intro a b c t t' h
    obtain ⟨ms, pin, rt, ht'⟩ := write3Bytes_ok h
    rw [sent_eq_txOf, sent_eq_txOf, ht']
    simp [txOf_append, txOf]
  have hmax : (if x < 1 then 1 else x) = max x 1 := by
    split <;> omega
  refine ⟨?_, ?_, ?_, ?_, ?_⟩
  · intro s' h
    unfold therm_underlineOn at h
    rw [clamp_low] at h
    exact hsent _ _ _ s s' h
  · intro s' h
    unfold therm_setCharset at h
    rw [clamp_low] at h
    exact hsent _ _ _ s s' h
  · intro s' h
    unfold therm_setCodePage at h
    rw [clamp_low] at h
    exact hsent _ _ _ s s' h
  · intro s' h
    unfold therm_setBarcodeHeight at h
    simp only [hmax] at h
    refine ⟨hsent _ _ _ { s with barcodeHeight := max x 1 } s' h, ?_⟩
    obtain ⟨ms, pin, rt, hs'⟩ := write3Bytes_ok h
    rw [hs']
  · intro hT
    refine ⟨write3Bytes_total _ _ _ hT, write3Bytes_total _ _ _ hT,
      write3Bytes_total _ _ _ hT, ?_⟩
    exact write3Bytes_total ASCII_GS 104 (if x < 1 then 1 else x)
      (show ({ s with barcodeHeight := if x < 1 then 1 else x } : State).dtrEnabled = false
        from hT)

/-- C25 at the ready state: out-of-range 200 and in-range 0. -/
theorem C25_parameters_clamped_witness :
    (∃ s', therm_underlineOn 200 readyState = Except.ok s' ∧ sent s' = [27, 45, 2]) ∧
    (∃ s', therm_setBarcodeHeight 0 readyState = Except.ok s' ∧ sent s' = [29, 104, 1] ∧
      s'.barcodeHeight = 1) := by
  have h := C25_parameters_clamped 200 readyState
  have h0 := (C25_parameters_clamped 0 readyState)
  obtain ⟨s1, hs1⟩ := (h.2.2.2.2 rfl).1
  obtain ⟨s2, hs2⟩ := (h0.2.2.2.2 rfl).2.2.2
  exact ⟨⟨s1, hs1, by simpa [sent, readyState, ASCII_ESC] using h.1 s1 hs1⟩,
    ⟨s2, hs2, by simpa [sent, readyState, ASCII_GS] using (h0.2.2.2.1 s2 hs2).1,
      (h0.2.2.2.1 s2 hs2).2⟩⟩

/-- C26.  For every character code, compared through `toupper` (so 'm' and
'l' count as 'M' and 'L'), a `therm_setSize` that returns has sent GS '!' s
and set (s, charHeight, maxColumn) to (0x01, 48, 32) for 'M', (0x11, 48, 16)
for 'L' and (0x00, 24, 32) for every other character; prevByte is the newline
afterwards, column and the mode byte are unchanged.  In Timed mode the call
returns. -/
theorem C26_setSize_table (value : Nat) (s : State) :
    (∀ s', therm_setSize value s = Except.ok s' →
      (value = 77 ∨ value = 109 →
        sent s' = sent s ++ [ASCII_GS, 33, 0x01] ∧ s'.charHeight = 48 ∧ s'.maxColumn = 32) ∧
      (value = 76 ∨ value = 108 →
        sent s' = sent s ++ [ASCII_GS, 33, 0x11] ∧ s'.charHeight = 48 ∧ s'.maxColumn = 16) ∧
      (value ≠ 77 → value ≠ 109 → value ≠ 76 → value ≠ 108 →
        sent s' = sent s ++ [ASCII_GS, 33, 0x00] ∧ s'.charHeight = 24 ∧ s'.maxColumn = 32) ∧
      s'.prevByte = ASCII_LF ∧ s'.column = s.column ∧ s'.printMode = s.printMode) ∧
    (s.dtrEnabled = false → ∃ s', therm_setSize value s = Except.ok s') := by
  have hM : toupper value = 77 ↔ (value = 77 ∨ value = 109) := by
    unfold toupper
    split <;> omega
  have hL : toupper value = 76 ↔ (value = 76 ∨ value = 108) := by
    unfold toupper
    split <;> omega
  constructor
  · intro s' h
    unfold therm_setSize at h
    obtain ⟨s1, h1, h2⟩ := bind_eq_ok.1 h
    simp only [pure_eq_ok, Except.ok.injEq] at h2
    obtain ⟨ms, pin, rt, hs1⟩ := write3Bytes_ok h1
    subst h2
    subst hs1
    refine ⟨?_, ?_, ?_, rfl, ?_, ?_⟩
    · intro hv
      have e1 := hM.2 hv
      simp [sent_eq_txOf, txOf_append, txOf, e1]
    · intro hv
      have e1 := hL.2 hv
      have e2 : ¬ toupper value = 77 := by omega
      simp [sent_eq_txOf, txOf_append, txOf, e1, e2]
    · intro a b c d
      have e1 : ¬ toupper value = 77 := fun e => by have := hM.1 e; omega
      have e2 : ¬ toupper value = 76 := fun e => by have := hL.1 e; omega
      simp [sent_eq_txOf, txOf_append, txOf, e1, e2]
    · show (if toupper value = 77 then ({ s with charHeight := 48, maxColumn := 32 } : State)
        else if toupper value = 76 then { s with charHeight := 48, maxColumn := 16 }
        else { s with charHeight := 24, maxColumn := 32 }).column = s.column
      split
      · rfl
      · split <;> rfl
    · show (if toupper value = 77 then ({ s with charHeight := 48, maxColumn := 32 } : State)
        else if toupper value = 76 then { s with charHeight := 48, maxColumn := 16 }
        else { s with charHeight := 24, maxColumn := 32 }).printMode = s.printMode
      split
      · rfl
      · split <;> rfl
  · intro hT
    unfold therm_setSize
    have hT1 : (if toupper value = 77 then ({ s with charHeight := 48, maxColumn := 32 } : State)
        else if toupper value = 76 then { s with charHeight := 48, maxColumn := 16 }
        else { s with charHeight := 24, maxColumn := 32 }).dtrEnabled = false := by
      split
      · exact hT
      · split <;> exact hT
    obtain ⟨s1, h1⟩ := write3Bytes_total ASCII_GS 33
      (if toupper value = 77 then 0x01 else if toupper value = 76 then 0x11 else 0x00) hT1
    simp only [h1, ok_bind, pure_eq_ok]
    exact ⟨_, rfl⟩

/-- C26 at the lower-case letter l in the ready state: Large. -/
theorem C26_setSize_table_witness :
    ∃ s', therm_setSize 108 readyState = Except.ok s' ∧
      sent s' = sent readyState ++ [ASCII_GS, 33, 0x11] ∧ s'.charHeight = 48 ∧
      s'.maxColumn = 16 ∧ s'.prevByte = ASCII_LF := by
  have h := C26_setSize_table 108 readyState
  obtain ⟨s', hs'⟩ := h.2 rfl
  obtain ⟨_, h2, _, h4, _⟩ := h.1 s' hs'
  obtain ⟨e1, e2, e3⟩ := h2 (Or.inr rfl)
  exact ⟨s', hs', e1, e2, e3, h4⟩

theorem chunkHeights_zero (L : Nat) : chunkHeights 0 L = [] := by
  simp [chunkHeights]

theorem chunkHeights_step {rem L : Nat} (hL : 1 ≤ L) (hr : 0 < rem) :
    chunkHeights rem L = min rem L :: chunkHeights (rem - L) L := by
  by_cases hge : L ≤ rem
  · have e1 : rem / L = (rem - L) / L + 1 := by
      have : rem = (rem - L) + L := by omega
      conv_lhs => rw [this]
      exact Nat.add_div_right _ (by omega)
    have e2 : rem % L = (rem - L) % L := by
      have : rem = (rem - L) + L := by omega
      conv_lhs => rw [this]
      exact Nat.add_mod_right _ _
    have e3 : min rem L = L := by omega
    unfold chunkHeights
    rw [e1, e2, e3, List.replicate_succ]
    rfl
  · have e1 : rem / L = 0 := Nat.div_eq_of_lt (by omega)
    have e2 : rem % L = rem := Nat.mod_eq_of_lt (by omega)
    have e3 : min rem L = rem := by omega
    have e4 : rem - L = 0 := by omega
    rw [e4, chunkHeights_zero, e3]
    unfold chunkHeights
    rw [e1, e2, if_neg (by omega)]
    rfl

theorem chunkHeights_length (h L : Nat) (hL : 1 ≤ L) :
    (chunkHeights h L).length = (h + L - 1) / L := by
  unfold chunkHeights
  have hd := Nat.div_add_mod h L
  have hpos : 0 < L := by omega
  by_cases hz : h % L = 0
  · rw [if_pos hz]
    simp only [List.append_nil, List.length_replicate]
    have e : h + L - 1 = (L - 1) + L * (h / L) := by omega
    have e0 : (L - 1) / L = 0 := Nat.div_eq_of_lt (by omega)
    rw [e, Nat.add_mul_div_left _ _ hpos, e0]
    omega
  · rw [if_neg hz]
    simp only [List.length_append, List.length_replicate, List.length_singleton]
    have hlt : h % L < L := Nat.mod_lt _ hpos
    have e1 : L * (h / L + 1) = L * (h / L) + L := by ring
    have e : h + L - 1 = (h % L - 1) + L * (h / L + 1) := by omega
    have e0 : (h % L - 1) / L = 0 := Nat.div_eq_of_lt (by omega)
    rw [e, Nat.add_mul_div_left _ _ hpos, e0]
    omega

theorem chunkHeights_sum (h L : Nat) : (chunkHeights h L).sum = h := by
  unfold chunkHeights
  have hd := Nat.div_add_mod h L
  have hm : h / L * L = L * (h / L) := Nat.mul_comm _ _
  by_cases hz : h % L = 0
  · rw [if_pos hz]
    simp only [List.append_nil, List.sum_replicate, smul_eq_mul]
    omega
  · rw [if_neg hz]
    simp only [List.sum_append, List.sum_replicate, smul_eq_mul, List.sum_singleton]
    omega

theorem chunkHeights_mem {h L x : Nat} (hL : 1 ≤ L) (hx : x ∈ chunkHeights h L) :
    1 ≤ x ∧ x ≤ L := by
  unfold chunkHeights at hx
  rcases List.mem_append.1 hx with hx | hx
  · have := (List.mem_replicate.1 hx).2
    omega
  · have hlt : h % L < L := Nat.mod_lt _ (by omega)
    split at hx
    · simp at hx
    · have : x = h % L := by simpa using hx
      omega

theorem chunkHeights_dropLast {h L x : Nat} (hx : x ∈ (chunkHeights h L).dropLast) : x = L := by
  unfold chunkHeights at hx
  by_cases hz : h % L = 0
  · rw [if_pos hz, List.append_nil] at hx
    exact (List.mem_replicate.1 (List.mem_of_mem_dropLast hx)).2
  · rw [if_neg hz, List.dropLast_concat] at hx
    exact (List.mem_replicate.1 hx).2

theorem armsOf_chunkLog (c dpt : Nat) (chunks : List (Nat × List Nat)) :
    armsOf (chunkLog c dpt chunks)
      = (chunks.map (fun ch => [2292, u32 (ch.1 * dpt)])).flatten := by
  induction chunks with
  | nil => rfl
  | cons ch rest ih =>
    simp only [chunkLog, armsOf_append, armsOf_streamedBytes, ih]
    simp [armsOf]

theorem chunksFrom_heights (bitmap : List Nat) (rb c : Nat) : ∀ (hs : List Nat) (row : Nat),
    (chunksFrom bitmap rb c hs row).map Prod.fst = hs := by
  intro hs
  induction hs with
  | nil => intro row; rfl
  | cons m ms ih => intro row; simp [chunksFrom, ih]

theorem bitmapLoop_chunks (bitmap : List Nat) (h rb c L : Nat) (hc : 1 ≤ c) (hc2 : c ≤ 255)
    (hcr : c ≤ rb) (hL : 1 ≤ L) (hL2 : L ≤ 255)
    (hrg : h * rb ≤ 2147483647) (hrg2 : h + L ≤ 2147483647) :
    ∀ (fuel rowStart i : Nat) (s s' : State), (rowStart < h → i = rowStart * rb) →
    bitmapLoop (h : Int) bitmap (rb : Int) (c : Int) (L : Int) fuel (rowStart : Int) (i : Int) s
      = Except.ok s' →
    (∃ ms pin rt, s' =
      { s with systick_ms := ms, pin := pin, resumeTime := rt,
               log := s.log ++ chunkLog c s.dotPrintTime
                 (chunksFrom bitmap rb c (chunkHeights (h - rowStart) L) rowStart) }) ∧
    (h ≤ rowStart ∨ (h - 1) * rb + c ≤ bitmap.length) := by
  intro fuel
  induction fuel with
  | zero =>
    intro rowStart i s s' _ hrun
    unfold bitmapLoop at hrun
    by_cases hlt : (rowStart : Int) < (h : Int)
    · rw [if_pos hlt] at hrun
      simp at hrun
    · rw [if_neg hlt] at hrun
      simp only [pure_eq_ok, Except.ok.injEq] at hrun
      subst hrun
      have h0 : h - rowStart = 0 := by omega
      refine ⟨⟨s.systick_ms, s.pin, s.resumeTime, ?_⟩, Or.inl (by omega)⟩
      rw [h0, chunkHeights_zero]
      simp [chunksFrom, chunkLog]
  | succ fuel ih =>
    intro rowStart i s s' hi hrun
    unfold bitmapLoop at hrun
    by_cases hlt : (rowStart : Int) < (h : Int)
    · rw [if_pos hlt] at hrun
      have hlt' : rowStart < h := by omega
      have hch := chunkHeight_i32 L hlt' (show h ≤ 2147483647 by omega)
      simp only [hch] at hrun
      rw [chunkHeights_step hL (by omega)]
      generalize hm : min (h - rowStart) L = m at hrun ⊢
      obtain ⟨s1, h1, hrun⟩ := bind_eq_ok.1 hrun
      obtain ⟨ms1, pin1, rt1, hs1⟩ := write4Bytes_ok h1
      obtain ⟨r, h2, hrun⟩ := bind_eq_ok.1 hrun
      simp only [Int.toNat_ofNat] at h2
      obtain ⟨e1, e2, ms2, pin2, e3⟩ := bitmapChunkRows_ok bitmap rb c hc hcr m i s1 r
        (chunk_range hrg (by omega) (hi hlt')) h2
      obtain ⟨rt3, h3⟩ := timeoutSet_shape
        (u32 (((m : Int) % 4294967296).toNat * r.2.dotPrintTime)) r.2
      rw [h3, e1] at hrun
      have hrs := rowStart_i32 hlt' hrg2
      rw [hrs] at hrun
      obtain ⟨⟨ms, pin, rt, hs'⟩, hbound⟩ :=
        ih (rowStart + L) (i + m * rb) _ s' (by
          intro hnext
          have hmin : m = L := by omega
          rw [hmin, hi hlt']
          ring) hrun
      have hmin1 : 1 ≤ m := by omega
      have hmin2 : m ≤ L := by omega
      have hsub : h - (rowStart + L) = h - rowStart - L := by omega
      constructor
      · refine ⟨ms, pin, rt, ?_⟩
        rw [hs', e3, hs1, hsub]
        have hu1 : u8i (m : Int) = m := by unfold u8i; omega
        have hu2 : u8i (c : Int) = c := by unfold u8i; omega
        have hu3 : ((m : Int) % 4294967296).toNat = m := by omega
        have hrest : chunksFrom bitmap rb c (chunkHeights (h - rowStart - L) L) (rowStart + m)
            = chunksFrom bitmap rb c (chunkHeights (h - rowStart - L) L) (rowStart + L) := by
          by_cases hfull : h - rowStart > L
          · have : m = L := by omega
            rw [this]
          · have h0 : h - rowStart - L = 0 := by omega
            rw [h0, chunkHeights_zero]
            rfl
        simp [chunksFrom, chunkLog, hu1, hu2, hu3, u32, hrest, hi hlt']
      · right
        rcases hbound with hb | hb
        · have hmin : m = h - rowStart := by omega
          rcases e2 with e2 | e2
          · omega
          · rw [hi hlt'] at e2
            obtain ⟨k, hk⟩ : ∃ k, m = k + 1 := ⟨m - 1, by omega⟩
            have e5 : h - 1 = rowStart + k := by omega
            rw [e5, Nat.add_mul]
            rw [hk] at e2
            simpa using e2
        · exact hb
    · rw [if_neg hlt] at hrun
      simp only [pure_eq_ok, Except.ok.injEq] at hrun
      subst hrun
      have h0 : h - rowStart = 0 := by omega
      refine ⟨⟨s.systick_ms, s.pin, s.resumeTime, ?_⟩, Or.inl (by omega)⟩
      rw [h0, chunkHeights_zero]
      simp [chunksFrom, chunkLog]

/-- C28 (counterexample).  In the state `therm_begin` leaves, the image of
width 2147483647 and height 2: the chunk-height limit is 1 and the two
headers are 18, 42, 1, 1, their last byte not the clipped row length
min(ceil(w / 8), 48) = 48. -/
theorem C28_counterexample :
    chunkHeightLimit (rowBytesClippedOf 2147483647) readyState = Except.ok 1 ∧
      (therm_printBitmap 2 2147483647 2 (List.replicate 536870912 7) readyState).map sent
        = Except.ok [18, 42, 1, 1, 18, 42, 1, 1] := by
  decide

/-- C28 (amended).  For every image whose size keeps the function's `int`
arithmetic from overflowing (`1 <= w <= 2147483640`, `0 <= h <= 2147483392`,
`h * rowBytes <= 2147483647`) and every state (maxChunkHeight a byte) in which
the chunk-height limit `L` that `therm_printBitmap` computes is at least 1, in
either handshake mode: `L` is at most 255, and a call that
returns has emitted one chunk per entry of the list of heights `c_1 .. c_n`
made of `h / L` times `L` followed by the remainder `h mod L` if it is not 0,
each chunk being the header DC2 '*' c_k clipped, its data, and then exactly one
arm of `c_k * dotPrintTime` (after the header's own arm of four byte times).
That list has `n = ceil(h / L)` entries, each in `1..L` and at most 255, every
entry but the last equal to `L`, and sum `h`.  In Timed mode, with a source of
`h * rowBytes` bytes and a budget of `h` passes, the call returns. -/
theorem C28_printBitmap_chunk_structure (fuel : Nat) (w h : Int) (bitmap : List Nat)
    (s : State) (L : Int) (hw : 1 ≤ w) (hw2 : w ≤ 2147483640) (hh : 0 ≤ h)
    (hh2 : h ≤ 2147483392) (hsz : h * rowBytesOf w ≤ 2147483647) (hm : s.maxChunkHeight ≤ 255)
    (hlim : chunkHeightLimit (rowBytesClippedOf w) s = Except.ok L) (hL : 1 ≤ L) :
    L ≤ 255 ∧
    (∀ s', therm_printBitmap fuel w h bitmap s = Except.ok s' →
      ∃ chunks : List (Nat × List Nat),
        chunks.map Prod.fst = chunkHeights h.toNat L.toNat ∧
        s'.log = s.log ++ chunkLog (rowBytesClippedOf w).toNat s.dotPrintTime chunks ∧
        sent s' = sent s ++ chunkStream (rowBytesClippedOf w).toNat chunks ∧
        arms s' = arms s ++
          (chunks.map (fun ch => [4 * BYTE_TIME, u32 (ch.1 * s.dotPrintTime)])).flatten) ∧
    (chunkHeights h.toNat L.toNat).length = (h.toNat + L.toNat - 1) / L.toNat ∧
    (chunkHeights h.toNat L.toNat).sum = h.toNat ∧
    (∀ x ∈ chunkHeights h.toNat L.toNat, 1 ≤ x ∧ x ≤ L.toNat ∧ x ≤ 255) ∧
    (∀ x ∈ (chunkHeights h.toNat L.toNat).dropLast, x = L.toNat) ∧
    (s.dtrEnabled = false → h.toNat ≤ fuel →
      h.toNat * (rowBytesOf w).toNat ≤ bitmap.length →
      ∃ s', therm_printBitmap fuel w h bitmap s = Except.ok s') := by
  obtain ⟨hc, hc1, hc2, hc3⟩ := rowBytesClippedOf_eq hw hw2
  obtain ⟨hr1, _, _, _⟩ := rowBytesOf_pos hw hw2
  obtain ⟨rb, hrb⟩ : ∃ rb : Nat, rowBytesOf w = (rb : Int) := ⟨(rowBytesOf w).toNat, by omega⟩
  obtain ⟨c, hcN⟩ : ∃ c : Nat, rowBytesClippedOf w = (c : Int) :=
    ⟨(rowBytesClippedOf w).toNat, by omega⟩
  obtain ⟨hN, hhN⟩ : ∃ hN : Nat, h = (hN : Int) := ⟨h.toNat, by omega⟩
  obtain ⟨LN, hLN⟩ : ∃ LN : Nat, L = (LN : Int) := ⟨L.toNat, by omega⟩
  subst hhN
  subst hLN
  have hL255 : ((LN : Nat) : Int) ≤ 255 := by
    rcases chunkHeightLimit_cases (by omega) (by omega) hm hlim with ⟨_, h2⟩ | ⟨h0, _⟩
    · exact h2
    · omega
  have hL1 : 1 ≤ LN := by omega
  have hL2 : LN ≤ 255 := by omega
  have hrgN : hN * rb ≤ 2147483647 := by
    rw [hrb] at hsz
    exact_mod_cast hsz
  simp only [hrb, hcN, Int.toNat_ofNat]
  refine ⟨hL255, ?_, chunkHeights_length hN LN hL1, chunkHeights_sum hN LN, ?_,
    fun x hx => chunkHeights_dropLast hx, ?_⟩
  · intro s' hrun
    unfold therm_printBitmap at hrun
    simp only [hlim, ok_bind] at hrun
    simp only [hrb, hcN] at hrun
    obtain ⟨s1, hloop, hfin⟩ := bind_eq_ok.1 hrun
    simp only [pure_eq_ok, Except.ok.injEq] at hfin
    obtain ⟨⟨ms, pin, rt, hs1⟩, _⟩ := bitmapLoop_chunks bitmap hN rb c LN (by omega) (by omega)
      (by omega) hL1 hL2 hrgN (by omega) fuel 0 0 s s1 (by intro _; simp) hloop
    refine ⟨chunksFrom bitmap rb c (chunkHeights hN LN) 0, chunksFrom_heights _ _ _ _ _,
      ?_, ?_, ?_⟩
    · rw [← hfin, hs1]
      simp only [Nat.sub_zero]
    · rw [← hfin, sent_eq_txOf, sent_eq_txOf, hs1]
      simp only [Nat.sub_zero, txOf_append, txOf_chunkLog]
    · rw [← hfin, arms_eq_armsOf, arms_eq_armsOf, hs1]
      simp only [Nat.sub_zero, armsOf_append, armsOf_chunkLog, BYTE_TIME_eq]
  · intro x hx
    have := chunkHeights_mem hL1 hx
    omega
  · intro hT hfuel hlen
    obtain ⟨s1, hs1⟩ := bitmapLoop_total bitmap hN rb c LN (by omega) (by omega) hL1 hlen
      hrgN (by omega) fuel 0 0 s (by intro _; simp) (by
        have : fuel * 1 ≤ fuel * LN := Nat.mul_le_mul_left fuel hL1
        omega) hT
    have hs2 : bitmapLoop (hN : Int) bitmap (rb : Int) (c : Int) (LN : Int) fuel 0 0 s
        = Except.ok s1 := hs1
    unfold therm_printBitmap
    simp only [hlim, ok_bind]
    simp only [hrb, hcN, hs2, ok_bind, pure_eq_ok]
    exact ⟨_, rfl⟩

/-- C28 at a 3-row image of 20 dots width with maxChunkHeight 2: chunks of
heights 2 and 1. -/
theorem C28_printBitmap_chunk_structure_witness :
    chunkHeights (3 : Int).toNat (2 : Int).toNat = [2, 1] ∧
    ∃ s', therm_printBitmap 3 20 3 demoBitmap { readyState with maxChunkHeight := 2 }
        = Except.ok s' ∧
      ∃ chunks : List (Nat × List Nat),
        chunks.map Prod.fst = chunkHeights (3 : Int).toNat (2 : Int).toNat ∧
        sent s' = sent { readyState with maxChunkHeight := 2 }
          ++ chunkStream (rowBytesClippedOf 20).toNat chunks := by
  have h := C28_printBitmap_chunk_structure 3 20 3 demoBitmap
    { readyState with maxChunkHeight := 2 } 2 (by decide) (by decide) (by decide)
    (by decide) (by decide) (by decide) (by decide) (by decide)
  obtain ⟨s', hs'⟩ := h.2.2.2.2.2.2 rfl (by decide) (by decide)
  obtain ⟨chunks, e1, _, e3, _⟩ := h.2.1 s' hs'
  exact ⟨by decide, s', hs', chunks, e1, e3⟩

theorem dtrOf_settings {s s' : State} (h : settings s' = settings s) : dtrOf s' = dtrOf s := by
  simp only [settings, Prod.mk.injEq] at h
  simp [dtrOf, h]

theorem dtr_write {c : Nat} {s : State} {r : Nat × State} (h : write c s = Except.ok r) :
    dtrOf r.2 = dtrOf s := by
  by_cases hc : c = 0x13
  · rw [hc, write_dropped] at h
    simp only [Except.ok.injEq] at h
    rw [← h]
  · obtain ⟨_, ms, pin, rt, hs⟩ := write_ok hc h
    rw [hs]
    split <;> rfl

theorem dtr_setPrintMode {mask : Nat} {s s' : State} (h : priv_setPrintMode mask s = Except.ok s') :
    dtrOf s' = dtrOf s := by
  unfold priv_setPrintMode priv_writePrintMode at h
  obtain ⟨s1, h1, h2⟩ := bind_eq_ok.1 h
  simp only [pure_eq_ok, Except.ok.injEq] at h2
  rw [← h2]
  have e := dtrOf_settings (settings_write3Bytes h1)
  exact e

theorem dtr_unsetPrintMode {mask : Nat} {s s' : State}
    (h : priv_unsetPrintMode mask s = Except.ok s') : dtrOf s' = dtrOf s := by
  unfold priv_unsetPrintMode priv_writePrintMode at h
  obtain ⟨s1, h1, h2⟩ := bind_eq_ok.1 h
  simp only [pure_eq_ok, Except.ok.injEq] at h2
  rw [← h2]
  have e := dtrOf_settings (settings_write3Bytes h1)
  exact e

theorem dtr_feedLoop : ∀ (x : Nat) (s s' : State), feedLoop x s = Except.ok s' →
    dtrOf s' = dtrOf s := by
  intro x
  induction x with
  | zero =>
    intro s s' h
    simp only [feedLoop, pure_eq_ok, Except.ok.injEq] at h
    rw [← h]
  | succ x ih =>
    intro s s' h
    rw [feedLoop] at h
    obtain ⟨r, h1, h2⟩ := bind_eq_ok.1 h
    have e := (ih _ _ h2).trans (dtr_write h1)
    exact e

theorem dtr_feed {fw x : Nat} {s s' : State} (h : therm_feed fw x s = Except.ok s') :
    dtrOf s' = dtrOf s := by
  unfold therm_feed at h
  split at h
  · obtain ⟨s1, h1, h2⟩ := bind_eq_ok.1 h
    simp only [pure_eq_ok, Except.ok.injEq] at h2
    rw [← h2]
    have e := (dtrOf_settings (settings_timeoutSet (u32 (s1.dotFeedTime * s1.charHeight)) s1)).trans
      (dtrOf_settings (settings_write3Bytes h1))
    exact e
  · have e := dtr_feedLoop x s s' h
    exact e

theorem dtr_feedRows {rows : Nat} {s s' : State} (h : therm_feedRows rows s = Except.ok s') :
    dtrOf s' = dtrOf s := by
  unfold therm_feedRows at h
  obtain ⟨s1, h1, h2⟩ := bind_eq_ok.1 h
  simp only [pure_eq_ok, Except.ok.injEq] at h2
  rw [← h2]
  have e := (dtrOf_settings (settings_timeoutSet (u32 (rows * s1.dotFeedTime)) s1)).trans
    (dtrOf_settings (settings_write3Bytes h1))
  exact e

theorem dtr_setSize {value : Nat} {s s' : State} (h : therm_setSize value s = Except.ok s') :
    dtrOf s' = dtrOf s := by
  unfold therm_setSize at h
  obtain ⟨s1, h1, h2⟩ := bind_eq_ok.1 h
  simp only [pure_eq_ok, Except.ok.injEq] at h2
  rw [← h2]
  refine (dtrOf_settings (settings_write3Bytes h1)).trans ?_
  split
  · rfl
  · split <;> rfl

theorem dtr_barcodeData {fw fuel : Nat} {text : List Nat} {s s' : State}
    (h : barcodeData fw fuel text s = Except.ok s') : dtrOf s' = dtrOf s := by
  unfold barcodeData at h
  split at h
  · obtain ⟨s1, h1, h2⟩ := bind_eq_ok.1 h
    have e := (dtrOf_settings (settings_barcodeDataLoop text _ _ _ _ h2)).trans
      (dtrOf_settings (settings_writeBytes h1))
    exact e
  · have e := dtrOf_settings (settings_barcodeCopyLoop text _ _ _ _ h)
    exact e

theorem dtr_printBarcode {fw fuel type : Nat} {text : List Nat} {s s' : State}
    (h : therm_printBarcode fw fuel text type s = Except.ok s') : dtrOf s' = dtrOf s := by
  unfold therm_printBarcode at h
  obtain ⟨s1, h1, h⟩ := bind_eq_ok.1 h
  obtain ⟨s2, h2, h⟩ := bind_eq_ok.1 h
  obtain ⟨s3, h3, h⟩ := bind_eq_ok.1 h
  obtain ⟨s4, h4, h⟩ := bind_eq_ok.1 h
  obtain ⟨s5, h5, h⟩ := bind_eq_ok.1 h
  simp only [pure_eq_ok, Except.ok.injEq] at h
  rw [← h]
  have e := (dtrOf_settings
    (settings_timeoutSet (u32 ((s5.barcodeHeight + 40) * s5.dotPrintTime)) s5)).trans
    ((dtr_barcodeData h5).trans ((dtrOf_settings (settings_write3Bytes h4)).trans
      ((dtrOf_settings (settings_write3Bytes h3)).trans
        ((dtrOf_settings (settings_write3Bytes h2)).trans (dtr_feed h1)))))
  exact e

theorem dtr_printBitmap {fuel : Nat} {w h : Int} {bitmap : List Nat} {s s' : State}
    (hrun : therm_printBitmap fuel w h bitmap s = Except.ok s') : dtrOf s' = dtrOf s := by
  unfold therm_printBitmap at hrun
  obtain ⟨L, _, h1⟩ := bind_eq_ok.1 hrun
  obtain ⟨s1, h2, h3⟩ := bind_eq_ok.1 h1
  simp only [pure_eq_ok, Except.ok.injEq] at h3
  rw [← h3]
  have e := dtrOf_settings (settings_bitmapLoop _ _ _ _ _ _ _ _ _ _ h2)
  exact e

theorem dtr_wake {fw : Nat} {s s' : State} (h : therm_therm_wake fw s = Except.ok s') :
    dtrOf s' = dtrOf s := by
  unfold therm_therm_wake at h
  obtain ⟨s1, h1, h2⟩ := bind_eq_ok.1 h
  have e1 := (dtrOf_settings (settings_writeBytes h1)).trans
    (dtrOf_settings (settings_timeoutSet 0 s))
  split at h2
  · have e := ((dtrOf_settings (settings_write4Bytes h2)).trans
      (dtrOf_settings (settings_delay 50 s1))).trans e1
    exact e
  · have e := (dtrOf_settings (settings_wakeLoop 10 s1 s' h2)).trans e1
    exact e

theorem dtr_reset {fw : Nat} {s s' : State} (h : therm_reset fw s = Except.ok s') :
    dtrOf s' = dtrOf s := by
  obtain ⟨ms, pin, rt, hs⟩ := reset_ok h
  rw [hs]
  rfl

theorem dtr_hasPaper {fw : Nat} {s : State} {r : Bool × State}
    (h : therm_hasPaper fw s = Except.ok r) : dtrOf r.2 = dtrOf s := by
  unfold therm_hasPaper at h
  obtain ⟨s1, h1, h2⟩ := bind_eq_ok.1 h
  obtain ⟨r1, h3, h4⟩ := bind_eq_ok.1 h2
  simp only [pure_eq_ok, Except.ok.injEq] at h4
  rw [← h4]
  obtain ⟨ms, pin, rt, hs1⟩ := statusQuery_ok h1
  have e0 : dtrOf s1 = dtrOf s := by rw [hs1]; rfl
  have e := (dtrOf_settings (settings_pollLoop 10 s1 r1 h3)).trans e0
  exact e

theorem dtr_tab {s s' : State} (h : therm_tab s = Except.ok s') : dtrOf s' = dtrOf s := by
  unfold therm_tab at h
  obtain ⟨s1, h1, h2⟩ := bind_eq_ok.1 h
  simp only [pure_eq_ok, Except.ok.injEq] at h2
  rw [← h2]
  have e := dtrOf_settings (settings_writeBytes h1)
  exact e

theorem dtr_inverseOff {fw : Nat} {s s' : State}
    (h : therm_therm_inverseOff fw s = Except.ok s') : dtrOf s' = dtrOf s := by
  unfold therm_therm_inverseOff at h
  split at h
  · have e := dtrOf_settings (settings_write3Bytes h)
    exact e
  · have e := dtr_unsetPrintMode h
    exact e

theorem dtr_inverseOn {fw : Nat} {s s' : State}
    (h : therm_inverseOn fw s = Except.ok s') : dtrOf s' = dtrOf s := by
  unfold therm_inverseOn at h
  split at h
  · have e := dtrOf_settings (settings_write3Bytes h)
    exact e
  · have e := dtr_setPrintMode h
    exact e

theorem dtr_sleepAfter {fw seconds : Nat} {s s' : State}
    (h : therm_sleepAfter fw seconds s = Except.ok s') : dtrOf s' = dtrOf s := by
  unfold therm_sleepAfter at h
  split at h
  · have e := dtrOf_settings (settings_write4Bytes h)
    exact e
  · have e := dtrOf_settings (settings_write3Bytes h)
    exact e

theorem dtr_setLineHeight {val : Int} {s s' : State}
    (h : therm_setLineHeight val s = Except.ok s') : dtrOf s' = dtrOf s := by
  unfold therm_setLineHeight at h
  have e := dtrOf_settings (settings_write3Bytes h)
  exact e

theorem dtr_setBarcodeHeight {val : Nat} {s s' : State}
    (h : therm_setBarcodeHeight val s = Except.ok s') : dtrOf s' = dtrOf s := by
  unfold therm_setBarcodeHeight at h
  have e := dtrOf_settings (settings_write3Bytes h)
  exact e

theorem dtr_setDefault {fw : Nat} {s s' : State}
    (h : therm_setDefault fw s = Except.ok s') : dtrOf s' = dtrOf s := by
  unfold therm_setDefault at h
  obtain ⟨s1, h1, h⟩ := bind_eq_ok.1 h
  obtain ⟨s2, h2, h⟩ := bind_eq_ok.1 h
  obtain ⟨s3, h3, h⟩ := bind_eq_ok.1 h
  obtain ⟨s4, h4, h⟩ := bind_eq_ok.1 h
  obtain ⟨s5, h5, h⟩ := bind_eq_ok.1 h
  obtain ⟨s6, h6, h⟩ := bind_eq_ok.1 h
  obtain ⟨s7, h7, h⟩ := bind_eq_ok.1 h
  obtain ⟨s8, h8, h⟩ := bind_eq_ok.1 h
  obtain ⟨s9, h9, h⟩ := bind_eq_ok.1 h
  obtain ⟨s10, h10, h⟩ := bind_eq_ok.1 h
  have q1 : dtrOf s1 = dtrOf s := dtrOf_settings (settings_write3Bytes h1)
  have q2 : dtrOf s2 = dtrOf s1 := dtrOf_settings (settings_write3Bytes h2)
  have q3 : dtrOf s3 = dtrOf s2 := dtr_inverseOff h3
  have q4 : dtrOf s4 = dtrOf s3 := dtr_unsetPrintMode h4
  have q5 : dtrOf s5 = dtrOf s4 := dtr_setLineHeight h5
  have q6 : dtrOf s6 = dtrOf s5 := dtr_unsetPrintMode h6
  have q7 : dtrOf s7 = dtrOf s6 := dtrOf_settings (settings_write3Bytes h7)
  have q8 : dtrOf s8 = dtrOf s7 := dtr_setBarcodeHeight h8
  have q9 : dtrOf s9 = dtrOf s8 := dtr_setSize h9
  have q10 : dtrOf s10 = dtrOf s9 := dtrOf_settings (settings_write3Bytes h10)
  have q11 : dtrOf s' = dtrOf s10 := dtrOf_settings (settings_write3Bytes h)
  rw [q11, q10, q9, q8, q7, q6, q5, q4, q3, q2, q1]

theorem dtr_begin {fw heatTime : Nat} {s s' : State} (hp : s.dtrPin = 255)
    (h : therm_begin fw heatTime s = Except.ok s') : dtrOf s' = dtrOf s := by
  unfold therm_begin at h
  obtain ⟨s1, h1, h⟩ := bind_eq_ok.1 h
  obtain ⟨s2, h2, h⟩ := bind_eq_ok.1 h
  obtain ⟨s3, h3, h⟩ := bind_eq_ok.1 h
  obtain ⟨s4, h4, h⟩ := bind_eq_ok.1 h
  obtain ⟨s5, h5, h⟩ := bind_eq_ok.1 h
  obtain ⟨s6, h6, h⟩ := bind_eq_ok.1 h
  simp only [pure_eq_ok, Except.ok.injEq] at h
  have q0 : dtrOf (therm_therm_timeoutSet 500000 s) = dtrOf s :=
    dtrOf_settings (settings_timeoutSet 500000 s)
  have q1 : dtrOf s1 = dtrOf (therm_therm_timeoutSet 500000 s) := dtr_wake h1
  have q2 : dtrOf s2 = dtrOf s1 := dtr_reset h2
  have q3 : dtrOf s3 = dtrOf s2 := dtrOf_settings (settings_write2Bytes h3)
  have q4 : dtrOf s4 = dtrOf s3 := dtrOf_settings (settings_write3Bytes h4)
  have q5 : dtrOf s5 = dtrOf s4 := dtrOf_settings (settings_write3Bytes h5)
  have q : dtrOf s5 = dtrOf s := by rw [q5, q4, q3, q2, q1, q0]
  have hp5 : s5.dtrPin = 255 := by
    simp only [dtrOf, Prod.mk.injEq] at q
    rw [q.1]; exact hp
  rw [enableDtr_none hp5] at h6
  simp only [Except.ok.injEq] at h6
  rw [← h, ← h6]
  exact q

theorem dtr_step {fw fuel : Nat} {op : Op} {s s' : State}
    (h : step fw fuel op s = Except.ok s') (hs : dtrOf s = (255, false)) :
    dtrOf s' = (255, false) := by
  have hp : s.dtrPin = 255 := by
    simp only [dtrOf, Prod.mk.injEq] at hs
    exact hs.1
  refine Eq.trans ?_ hs
  cases op with
  | init =>
    simp only [step, pure_eq_ok, Except.ok.injEq] at h
    rw [← h, hs]
    simp only [dtrOf, therm_init, hp]
  | write c =>
    simp only [step] at h
    obtain ⟨r, h1, h2⟩ := bind_eq_ok.1 h
    simp only [pure_eq_ok, Except.ok.injEq] at h2
    rw [← h2]
    exact dtr_write h1
  | begin heatTime => exact dtr_begin hp h
  | boldOff => exact dtr_unsetPrintMode h
  | boldOn => exact dtr_setPrintMode h
  | doubleHeightOff => exact dtr_unsetPrintMode h
  | doubleHeightOn => exact dtr_setPrintMode h
  | doubleWidthOff => exact dtr_unsetPrintMode h
  | doubleWidthOn => exact dtr_setPrintMode h
  | feed x => exact dtr_feed h
  | feedRows rows => exact dtr_feedRows h
  | flush => exact dtrOf_settings (settings_writeBytes h)
  | inverseOff => exact dtr_inverseOff h
  | inverseOn => exact dtr_inverseOn h
  | justify value => exact dtrOf_settings (settings_write3Bytes h)
  | offline => exact dtrOf_settings (settings_write3Bytes h)
  | online => exact dtrOf_settings (settings_write3Bytes h)
  | printBarcode text type => exact dtr_printBarcode h
  | printBitmap w hh bitmap => exact dtr_printBitmap h
  | normal =>
    have e := dtrOf_settings (settings_write3Bytes h)
    exact e
  | reset => exact dtr_reset h
  | setBarcodeHeight val => exact dtr_setBarcodeHeight h
  | setCharSpacing spacing => exact dtrOf_settings (settings_write3Bytes h)
  | setCharset val => exact dtrOf_settings (settings_write3Bytes h)
  | setCodePage val => exact dtrOf_settings (settings_write3Bytes h)
  | setDefault => exact dtr_setDefault h
  | setLineHeight val => exact dtr_setLineHeight h
  | setMaxChunkHeight val =>
    simp only [step, pure_eq_ok, Except.ok.injEq] at h
    rw [← h]
    rfl
  | setSize value => exact dtr_setSize h
  | setTimes p f =>
    simp only [step, pure_eq_ok, Except.ok.injEq] at h
    rw [← h]
    rfl
  | sleep => exact dtr_sleepAfter h
  | sleepAfter seconds => exact dtr_sleepAfter h
  | strikeOff => exact dtr_unsetPrintMode h
  | strikeOn => exact dtr_setPrintMode h
  | tab => exact dtr_tab h
  | timeoutSet x =>
    simp only [step, pure_eq_ok, Except.ok.injEq] at h
    rw [← h]
    exact dtrOf_settings (settings_timeoutSet x s)
  | timeoutWait => exact dtrOf_settings (settings_timeoutWait h)
  | underlineOff => exact dtrOf_settings (settings_write3Bytes h)
  | underlineOn weight => exact dtrOf_settings (settings_write3Bytes h)
  | upsideDownOff => exact dtr_unsetPrintMode h
  | upsideDownOn => exact dtr_setPrintMode h
  | wake => exact dtr_wake h
  | hasPaper =>
    simp only [step] at h
    obtain ⟨r, h1, h2⟩ := bind_eq_ok.1 h
    simp only [pure_eq_ok, Except.ok.injEq] at h2
    rw [← h2]
    exact dtr_hasPaper h1

theorem dtr_run (fw fuel : Nat) : ∀ (ops : List Op) (s s' : State),
    run fw fuel ops s = Except.ok s' → dtrOf s = (255, false) → dtrOf s' = (255, false) := by
  intro ops
  induction ops with
  | nil =>
    intro s s' h hs
    simp only [run_nil, Except.ok.injEq] at h
    rw [← h]; exact hs
  | cons op ops ih =>
    intro s s' h hs
    rw [run_cons] at h
    obtain ⟨s1, h1, h2⟩ := bind_eq_ok.1 h
    exact ih s1 s' h2 (dtr_step h1 hs)

theorem begin_old_ok {fw heatTime : Nat} {s s' : State} (hfw : ¬ fw ≥ 264)
    (hp : s.dtrPin = 255) (h : therm_begin fw heatTime s = Except.ok s') :
    ∃ ms pin rt evs, txOf evs = beginBytesOld heatTime ∧ s' =
      { s with systick_ms := ms, pin := pin, resumeTime := rt,
               prevByte := ASCII_LF, column := 0, maxColumn := 32,
               charHeight := 24, lineSpacing := 6, barcodeHeight := 50,
               dotPrintTime := 30000, dotFeedTime := 2100, maxChunkHeight := 255,
               log := s.log ++ evs } := by
  unfold therm_begin at h
  obtain ⟨rt0, hs0⟩ := timeoutSet_shape 500000 s
  rw [hs0] at h
  obtain ⟨s1, h1, h⟩ := bind_eq_ok.1 h
  obtain ⟨s2, h2, h⟩ := bind_eq_ok.1 h
  obtain ⟨s3, h3, h⟩ := bind_eq_ok.1 h
  obtain ⟨s4, h4, h⟩ := bind_eq_ok.1 h
  obtain ⟨s5, h5, h⟩ := bind_eq_ok.1 h
  obtain ⟨s6, h6, h⟩ := bind_eq_ok.1 h
  simp only [pure_eq_ok, Except.ok.injEq] at h
  obtain ⟨ms1, pin1, rt1, hs1⟩ := wake_old_ok hfw h1
  obtain ⟨ms2, pin2, rt2, hs2⟩ := reset_ok h2
  obtain ⟨ms3, pin3, rt3, hs3⟩ := write2Bytes_ok h3
  obtain ⟨ms4, pin4, rt4, hs4⟩ := write3Bytes_ok h4
  obtain ⟨ms5, pin5, rt5, hs5⟩ := write3Bytes_ok h5
  have hp5 : s5.dtrPin = 255 := by rw [hs5, hs4, hs3, hs2, hs1]; exact hp
  rw [enableDtr_none hp5] at h6
  simp only [Except.ok.injEq] at h6
  refine ⟨ms5, pin5, rt5,
    [Ev.arm 500000, Ev.arm 0, Ev.wait, Ev.tx 255, Ev.arm 573] ++ wakeNuls 10 ++
    [Ev.wait, Ev.tx ASCII_ESC, Ev.tx 64, Ev.arm 1146,
     Ev.wait, Ev.tx ASCII_ESC, Ev.tx 55, Ev.arm 1146,
     Ev.wait, Ev.tx 11, Ev.tx heatTime, Ev.tx 40, Ev.arm 1719,
     Ev.wait, Ev.tx ASCII_DC2, Ev.tx 35, Ev.tx 74, Ev.arm 1719], ?_, ?_⟩
  · rw [txOf_append, txOf_append, txOf_wakeNuls]
    rfl
  · subst h
    subst h6
    subst hs5
    subst hs4
    subst hs3
    subst hs2
    subst hs1
    simp [hfw, u32, printBreakTime, printDensity]

theorem beginBytes_no_enable (heatTime : Nat) :
    ¬ [ASCII_GS, 97, 32] <:+: beginBytes heatTime := by
  simp [beginBytes, ASCII_GS, ASCII_ESC, ASCII_DC2, List.infix_cons_iff, List.cons_prefix_cons]

theorem beginBytesOld_no_enable (heatTime : Nat) :
    ¬ [ASCII_GS, 97, 32] <:+: beginBytesOld heatTime := by
  simp [beginBytesOld, ASCII_GS, ASCII_ESC, ASCII_DC2, List.infix_cons_iff,
    List.cons_prefix_cons, List.replicate]

/-- C30 (counterexample).  From the constructor, the three calls write(29),
write(97), write(32) send the bytes of the handshake-enable command
GS 'a' 32. -/
theorem C30_counterexample :
    (run 268 0 [Op.write 29, Op.write 97, Op.write 32] (therm_init readyState)).map sent
      = Except.ok [29, 97, 32] := by
  decide


/-- C30 (amended).  In every state reached from `therm_init` (in a program
whose `dtrPin` has its initial value 255) by any sequence of public
operations, `therm_begin` with any heat time included: `dtrPin` is still 255
and `dtrEnabled` is false; the block of `therm_begin` that sends the
handshake-enable command GS 'a' 32 is not executed (it returns the state as
it is, sending nothing), so a `therm_begin` from that state returns, leaves
the flag false and sends exactly its fixed list of bytes for the firmware
variant, in which GS 'a' 32 does not occur; every arm sets resumeTime to the
clock reading plus its argument (mod 2^32); and every wait is the clock loop,
which reads no pin.  (The three bytes can still reach the printer as data the
caller passes to `write`.) -/
theorem C30_handshake_never_entered (fw fuel : Nat) (ops : List Op) (s0 s' : State)
    (hp : s0.dtrPin = 255) (h : run fw fuel ops (therm_init s0) = Except.ok s') :
    s'.dtrPin = 255 ∧ s'.dtrEnabled = false ∧
    enableDtr s' = Except.ok s' ∧
    (∀ heatTime, ∃ s'', therm_begin fw heatTime s' = Except.ok s'' ∧
      s''.dtrEnabled = false ∧
      sent s'' = sent s' ++ (if fw ≥ 264 then beginBytes heatTime else beginBytesOld heatTime)) ∧
    (∀ heatTime, ¬ [ASCII_GS, 97, 32] <:+: beginBytes heatTime ∧
      ¬ [ASCII_GS, 97, 32] <:+: beginBytesOld heatTime) ∧
    (∀ x, (therm_therm_timeoutSet x s').resumeTime = (micros s' + x % 4294967296) % 4294967296) ∧
    therm_therm_timeoutWait s' =
      Except.ok { s' with systick_ms := wakeTick s'.resumeTime s'.systick_ms,
                          log := s'.log ++ [Ev.wait] } := by
  have hinv : dtrOf s' = (255, false) :=
    dtr_run fw fuel ops (therm_init s0) s' h (by simp only [dtrOf, therm_init, hp])
  simp only [dtrOf, Prod.mk.injEq] at hinv
  obtain ⟨h1, h2⟩ := hinv
  refine ⟨h1, h2, enableDtr_none h1, ?_,
    fun heatTime => ⟨beginBytes_no_enable heatTime, beginBytesOld_no_enable heatTime⟩, ?_,
    timeoutWait_timed s' h2⟩
  · intro heatTime
    obtain ⟨s'', hb⟩ := begin_total fw heatTime h2 h1
    have e := dtr_begin h1 hb
    simp only [dtrOf, Prod.mk.injEq] at e
    refine ⟨s'', hb, e.2.trans h2, ?_⟩
    by_cases hfw : fw ≥ 264
    · obtain ⟨ms, pin, rt, buf, n, fut, evs, hev, hs''⟩ := begin_new_ok hfw h1 hb
      rw [if_pos hfw, sent_eq_txOf, sent_eq_txOf, hs'']
      show txOf (s'.log ++ evs) = _
      rw [txOf_append, hev]
    · obtain ⟨ms, pin, rt, evs, hev, hs''⟩ := begin_old_ok hfw h1 hb
      rw [if_neg hfw, sent_eq_txOf, sent_eq_txOf, hs'']
      show txOf (s'.log ++ evs) = _
      rw [txOf_append, hev]
  · intro x
    rw [timeoutSet_timed x s' h2]
    simp [u32]

/-- C30 (amended) at a run from the constructor on the ready state: double
height on, a letter, a feed of rows. -/
theorem C30_handshake_never_entered_witness :
    ∃ s', run 268 0 [Op.doubleHeightOn, Op.write 65, Op.feedRows 3] (therm_init readyState)
        = Except.ok s' ∧
      s'.dtrPin = 255 ∧ s'.dtrEnabled = false ∧ enableDtr s' = Except.ok s' := by
  have hd : (run 268 0 [Op.doubleHeightOn, Op.write 65, Op.feedRows 3]
      (therm_init readyState)).map (fun _ => ()) = Except.ok () := by decide
  cases hr : run 268 0 [Op.doubleHeightOn, Op.write 65, Op.feedRows 3] (therm_init readyState) with
  | error e =>
    rw [hr] at hd
    exact absurd hd (by simp [Except.map])
  | ok s' =>
    have h := C30_handshake_never_entered 268 0 _ readyState s' rfl hr
    exact ⟨s', rfl, h.1, h.2.1, h.2.2.1⟩


theorem untimed_eq {a b : State} (h : untimed a = untimed b) :
    ∃ rt dp df ms lg, txOf lg = txOf a.log ∧
      b = { a with resumeTime := rt, dotPrintTime := dp, dotFeedTime := df, systick_ms := ms,
                   log := lg } := by
  cases a
  cases b
  simp only [untimed, sent, Prod.mk.injEq] at h
  obtain ⟨h1, h2, h3, h4, h5, h6, h7, h8, h9, h10, h11, h12, h13, h14, h15⟩ := h
  subst h1 h2 h3 h4 h5 h6 h7 h8 h9 h10 h11 h12 h13 h14
  exact ⟨_, _, _, _, _, h15.symm, rfl⟩

theorem untimed_printState {a b : State} (h : untimed a = untimed b) :
    printState a = printState b ∧ sent a = sent b := by
  simp only [untimed, Prod.mk.injEq] at h
  simp [printState, h]

theorem map_bind_congr {α β γ δ : Type} (p : α → γ) (q : β → δ) {x y : Except Fault α}
    {f g : α → Except Fault β} (hxy : x.map p = y.map p)
    (hfg : ∀ a b, p a = p b → (f a).map q = (g b).map q) :
    (x >>= f).map q = (y >>= g).map q := by
  cases x with
  | error e =>
    cases y with
    | error e2 =>
      simp only [Except.map, Except.error.injEq] at hxy
      simp [hxy]
    | ok b => simp [Except.map] at hxy
  | ok a =>
    cases y with
    | error e2 => simp [Except.map] at hxy
    | ok b =>
      simp only [Except.map, Except.ok.injEq] at hxy
      simpa using hfg a b hxy

theorem map_ok_congr {α γ : Type} (p : α → γ) {a b : α} (h : p a = p b) :
    (Except.ok a : Except Fault α).map p = (Except.ok b : Except Fault α).map p := by
  simp [Except.map, h]

theorem untimed_timeoutSet (x : Nat) (s : State) : untimed (therm_therm_timeoutSet x s) = untimed s := by
  obtain ⟨rt, h⟩ := timeoutSet_shape x s
  rw [h]
  simp [untimed, sent_eq_txOf, txOf_append, txOf]

theorem untimed_tx (c : Nat) {a b : State} (h : untimed a = untimed b) :
    untimed (priv_writeByteToUART c a) = untimed (priv_writeByteToUART c b) := by
  obtain ⟨rt, dp, df, m2, lg, hlg, rfl⟩ := untimed_eq h
  simp [untimed, priv_writeByteToUART, record, sent_eq_txOf, txOf_append, hlg]

theorem untimed_delay (ms : Nat) {a b : State} (h : untimed a = untimed b) :
    untimed (priv_delay ms a) = untimed (priv_delay ms b) := by
  obtain ⟨rt, dp, df, m2, lg, hlg, rfl⟩ := untimed_eq h
  unfold priv_delay record
  cases hf : a.rxFuture with
  | nil => simp [untimed, hf, sent_eq_txOf, txOf_append, hlg]
  | cons e rest => simp [untimed, hf, sent_eq_txOf, txOf_append, hlg]

theorem sim_timeoutWait {a b : State} (h : untimed a = untimed b) :
    (therm_therm_timeoutWait a).map untimed = (therm_therm_timeoutWait b).map untimed := by
  obtain ⟨rt, dp, df, m2, lg, hlg, hb⟩ := untimed_eq h
  cases hd : a.dtrEnabled with
  | false =>
    have hdb : b.dtrEnabled = false := by rw [hb]; exact hd
    rw [timeoutWait_timed a hd, timeoutWait_timed b hdb]
    apply map_ok_congr
    rw [hb]
    simp [untimed, sent_eq_txOf, txOf_append, hlg]
  | true =>
    have hdb : b.dtrEnabled = true := by rw [hb]; exact hd
    have hpin : b.pin = a.pin := by rw [hb]
    unfold therm_therm_timeoutWait
    simp only [hd, hdb, if_true, hpin]
    cases pinLoop a.pin with
    | none => rfl
    | some rest =>
      apply map_ok_congr
      rw [hb]
      simp [untimed, record, sent_eq_txOf, txOf_append, hlg]

theorem sim_writeBytes (x : Nat) {a b : State} (h : untimed a = untimed b) :
    (priv_writeBytes x a).map untimed = (priv_writeBytes x b).map untimed := by
  unfold priv_writeBytes
  refine map_bind_congr untimed untimed (sim_timeoutWait h) ?_
  intro a1 b1 h1
  apply map_ok_congr
  rw [untimed_timeoutSet, untimed_timeoutSet]
  exact untimed_tx _ h1

theorem sim_write2Bytes (x y : Nat) {a b : State} (h : untimed a = untimed b) :
    (priv_write2Bytes x y a).map untimed = (priv_write2Bytes x y b).map untimed := by
  unfold priv_write2Bytes
  refine map_bind_congr untimed untimed (sim_timeoutWait h) ?_
  intro a1 b1 h1
  apply map_ok_congr
  rw [untimed_timeoutSet, untimed_timeoutSet]
  exact untimed_tx _ (untimed_tx _ h1)

theorem sim_write3Bytes (x y z : Nat) {a b : State} (h : untimed a = untimed b) :
    (priv_write3Bytes x y z a).map untimed = (priv_write3Bytes x y z b).map untimed := by
  unfold priv_write3Bytes
  refine map_bind_congr untimed untimed (sim_timeoutWait h) ?_
  intro a1 b1 h1
  apply map_ok_congr
  rw [untimed_timeoutSet, untimed_timeoutSet]
  exact untimed_tx _ (untimed_tx _ (untimed_tx _ h1))

theorem sim_write4Bytes (x y z u : Nat) {a b : State} (h : untimed a = untimed b) :
    (priv_write4Bytes x y z u a).map untimed = (priv_write4Bytes x y z u b).map untimed := by
  unfold priv_write4Bytes
  refine map_bind_congr untimed untimed (sim_timeoutWait h) ?_
  intro a1 b1 h1
  apply map_ok_congr
  rw [untimed_timeoutSet, untimed_timeoutSet]
  exact untimed_tx _ (untimed_tx _ (untimed_tx _ (untimed_tx _ h1)))

theorem untimed_fields {a b : State} (h : untimed a = untimed b) :
    a.printMode = b.printMode ∧ a.prevByte = b.prevByte ∧ a.column = b.column ∧
    a.maxColumn = b.maxColumn ∧ a.charHeight = b.charHeight ∧ a.lineSpacing = b.lineSpacing ∧
    a.barcodeHeight = b.barcodeHeight ∧ a.maxChunkHeight = b.maxChunkHeight ∧
    a.dtrPin = b.dtrPin ∧ a.dtrEnabled = b.dtrEnabled ∧ a.rxbuf = b.rxbuf ∧
    a.rxptr = b.rxptr ∧ a.rxFuture = b.rxFuture ∧ a.pin = b.pin ∧ sent a = sent b := by
  simpa [untimed] using h

theorem untimed_prevByte (v : Nat) {a b : State} (h : untimed a = untimed b) :
    untimed { a with prevByte := v } = untimed { b with prevByte := v } := by
  obtain ⟨rt, dp, df, m2, lg, hlg, rfl⟩ := untimed_eq h
  simp [untimed, sent_eq_txOf, hlg]

theorem untimed_column (v : Nat) {a b : State} (h : untimed a = untimed b) :
    untimed { a with column := v } = untimed { b with column := v } := by
  obtain ⟨rt, dp, df, m2, lg, hlg, rfl⟩ := untimed_eq h
  simp [untimed, sent_eq_txOf, hlg]

theorem untimed_geometry (v w : Nat) {a b : State} (h : untimed a = untimed b) :
    untimed { a with charHeight := v, maxColumn := w }
      = untimed { b with charHeight := v, maxColumn := w } := by
  obtain ⟨rt, dp, df, m2, lg, hlg, rfl⟩ := untimed_eq h
  simp [untimed, sent_eq_txOf, hlg]

theorem untimed_printMode (v : Nat) {a b : State} (h : untimed a = untimed b) :
    untimed { a with printMode := v } = untimed { b with printMode := v } := by
  obtain ⟨rt, dp, df, m2, lg, hlg, rfl⟩ := untimed_eq h
  simp [untimed, sent_eq_txOf, hlg]

theorem untimed_lineSpacing (v : Nat) {a b : State} (h : untimed a = untimed b) :
    untimed { a with lineSpacing := v } = untimed { b with lineSpacing := v } := by
  obtain ⟨rt, dp, df, m2, lg, hlg, rfl⟩ := untimed_eq h
  simp [untimed, sent_eq_txOf, hlg]

theorem untimed_barcodeHeight (v : Nat) {a b : State} (h : untimed a = untimed b) :
    untimed { a with barcodeHeight := v } = untimed { b with barcodeHeight := v } := by
  obtain ⟨rt, dp, df, m2, lg, hlg, rfl⟩ := untimed_eq h
  simp [untimed, sent_eq_txOf, hlg]

theorem untimed_maxChunkHeight (v : Nat) {a b : State} (h : untimed a = untimed b) :
    untimed { a with maxChunkHeight := v } = untimed { b with maxChunkHeight := v } := by
  obtain ⟨rt, dp, df, m2, lg, hlg, rfl⟩ := untimed_eq h
  simp [untimed, sent_eq_txOf, hlg]

theorem untimed_dtrEnabled (v : Bool) {a b : State} (h : untimed a = untimed b) :
    untimed { a with dtrEnabled := v } = untimed { b with dtrEnabled := v } := by
  obtain ⟨rt, dp, df, m2, lg, hlg, rfl⟩ := untimed_eq h
  simp [untimed, sent_eq_txOf, hlg]

theorem untimed_times (p f : Nat) (s : State) :
    untimed { s with dotPrintTime := p, dotFeedTime := f } = untimed s := rfl

theorem untimed_arm {a b : State} (x y : Nat) (h : untimed a = untimed b) :
    untimed (therm_therm_timeoutSet x a) = untimed (therm_therm_timeoutSet y b) :=
  (untimed_timeoutSet x a).trans (h.trans (untimed_timeoutSet y b).symm)

theorem sim_write (c : Nat) {a b : State} (h : untimed a = untimed b) :
    (write c a).map untimedWith = (write c b).map untimedWith := by
  unfold write
  by_cases hc : c ≠ 0x13
  · rw [if_pos hc, if_pos hc]
    refine map_bind_congr untimed untimedWith (sim_timeoutWait h) ?_
    intro a1 b1 h1
    obtain ⟨_, _, hcol, hmax, _⟩ := untimed_fields h1
    have hcond : (c = ASCII_LF ∨ (priv_writeByteToUART c a1).column
          = (priv_writeByteToUART c a1).maxColumn) ↔
        (c = ASCII_LF ∨ (priv_writeByteToUART c b1).column
          = (priv_writeByteToUART c b1).maxColumn) := by
      show (c = ASCII_LF ∨ a1.column = a1.maxColumn) ↔ (c = ASCII_LF ∨ b1.column = b1.maxColumn)
      rw [hcol, hmax]
    by_cases hw : c = ASCII_LF ∨ (priv_writeByteToUART c a1).column
        = (priv_writeByteToUART c a1).maxColumn
    · simp only [if_pos hw, if_pos (hcond.1 hw)]
      apply map_ok_congr
      show ((1 : Nat), untimed _) = ((1 : Nat), untimed _)
      congr 1
      exact untimed_prevByte _ (untimed_arm _ _ (untimed_column 0 (untimed_tx c h1)))
    · simp only [if_neg hw, if_neg (fun e => hw (hcond.2 e))]
      apply map_ok_congr
      show ((1 : Nat), untimed _) = ((1 : Nat), untimed _)
      congr 1
      have hcol2 : (priv_writeByteToUART c a1).column = (priv_writeByteToUART c b1).column := hcol
      rw [hcol2]
      exact untimed_prevByte _ (untimed_arm _ _ (untimed_column _ (untimed_tx c h1)))
  · rw [if_neg hc, if_neg hc]
    apply map_ok_congr
    simp only [untimedWith, h]

theorem untimed_charHeight (v : Nat) {a b : State} (h : untimed a = untimed b) :
    untimed { a with charHeight := v } = untimed { b with charHeight := v } := by
  obtain ⟨rt, dp, df, m2, lg, hlg, rfl⟩ := untimed_eq h
  simp [untimed, sent_eq_txOf, hlg]

theorem untimed_maxColumn (v : Nat) {a b : State} (h : untimed a = untimed b) :
    untimed { a with maxColumn := v } = untimed { b with maxColumn := v } := by
  obtain ⟨rt, dp, df, m2, lg, hlg, rfl⟩ := untimed_eq h
  simp [untimed, sent_eq_txOf, hlg]

theorem sim_writePrintMode {a b : State} (h : untimed a = untimed b) :
    (priv_writePrintMode a).map untimed = (priv_writePrintMode b).map untimed := by
  unfold priv_writePrintMode
  rw [(untimed_fields h).1]
  exact sim_write3Bytes _ _ _ h

theorem untimed_recompute {a b : State} (h : untimed a = untimed b) :
    untimed { a with charHeight := if a.printMode &&& DOUBLE_HEIGHT_MASK ≠ 0 then 48 else 24,
                     maxColumn := if a.printMode &&& DOUBLE_WIDTH_MASK ≠ 0 then 16 else 32 }
      = untimed
          { b with charHeight := if b.printMode &&& DOUBLE_HEIGHT_MASK ≠ 0 then 48 else 24,
                   maxColumn := if b.printMode &&& DOUBLE_WIDTH_MASK ≠ 0 then 16 else 32 } := by
  obtain ⟨rt, dp, df, m2, lg, hlg, rfl⟩ := untimed_eq h
  simp [untimed, sent_eq_txOf, hlg]

theorem sim_setPrintMode (mask : Nat) {a b : State} (h : untimed a = untimed b) :
    (priv_setPrintMode mask a).map untimed = (priv_setPrintMode mask b).map untimed := by
  unfold priv_setPrintMode
  have h0 : untimed { a with printMode := a.printMode ||| mask }
      = untimed { b with printMode := b.printMode ||| mask } := by
    rw [(untimed_fields h).1]
    exact untimed_printMode _ h
  refine map_bind_congr untimed untimed (sim_writePrintMode h0) ?_
  intro a1 b1 h1
  apply map_ok_congr
  have e := untimed_recompute h1
  exact e

theorem sim_unsetPrintMode (mask : Nat) {a b : State} (h : untimed a = untimed b) :
    (priv_unsetPrintMode mask a).map untimed = (priv_unsetPrintMode mask b).map untimed := by
  unfold priv_unsetPrintMode
  have h0 : untimed { a with printMode := a.printMode &&& (255 - u8 mask) }
      = untimed { b with printMode := b.printMode &&& (255 - u8 mask) } := by
    rw [(untimed_fields h).1]
    exact untimed_printMode _ h
  refine map_bind_congr untimed untimed (sim_writePrintMode h0) ?_
  intro a1 b1 h1
  apply map_ok_congr
  have e := untimed_recompute h1
  exact e

theorem sim_normal {a b : State} (h : untimed a = untimed b) :
    (therm_normal a).map untimed = (therm_normal b).map untimed := by
  unfold therm_normal
  exact sim_writePrintMode (untimed_printMode 0 h)

theorem sim_inverseOn (fw : Nat) {a b : State} (h : untimed a = untimed b) :
    (therm_inverseOn fw a).map untimed = (therm_inverseOn fw b).map untimed := by
  unfold therm_inverseOn
  split
  · exact sim_write3Bytes _ _ _ h
  · exact sim_setPrintMode _ h

theorem sim_inverseOff (fw : Nat) {a b : State} (h : untimed a = untimed b) :
    (therm_therm_inverseOff fw a).map untimed = (therm_therm_inverseOff fw b).map untimed := by
  unfold therm_therm_inverseOff
  split
  · exact sim_write3Bytes _ _ _ h
  · exact sim_unsetPrintMode _ h

theorem sim_justify (value : Nat) {a b : State} (h : untimed a = untimed b) :
    (therm_justify value a).map untimed = (therm_justify value b).map untimed := by
  unfold therm_justify
  exact sim_write3Bytes _ _ _ h

theorem sim_feedLoop : ∀ (x : Nat) (a b : State), untimed a = untimed b →
    (feedLoop x a).map untimed = (feedLoop x b).map untimed := by
  intro x
  induction x with
  | zero =>
    intro a b h
    exact map_ok_congr untimed h
  | succ x ih =>
    intro a b h
    rw [feedLoop, feedLoop]
    refine map_bind_congr untimedWith untimed (sim_write ASCII_LF h) ?_
    intro r1 r2 hr
    exact ih r1.2 r2.2 (congrArg Prod.snd hr)

theorem sim_feed (fw x : Nat) {a b : State} (h : untimed a = untimed b) :
    (therm_feed fw x a).map untimed = (therm_feed fw x b).map untimed := by
  unfold therm_feed
  split
  · refine map_bind_congr untimed untimed (sim_write3Bytes _ _ _ h) ?_
    intro a1 b1 h1
    apply map_ok_congr
    exact untimed_column 0 (untimed_prevByte ASCII_LF (untimed_arm _ _ h1))
  · exact sim_feedLoop x a b h

theorem sim_feedRows (rows : Nat) {a b : State} (h : untimed a = untimed b) :
    (therm_feedRows rows a).map untimed = (therm_feedRows rows b).map untimed := by
  unfold therm_feedRows
  refine map_bind_congr untimed untimed (sim_write3Bytes _ _ _ h) ?_
  intro a1 b1 h1
  apply map_ok_congr
  exact untimed_column 0 (untimed_prevByte ASCII_LF (untimed_arm _ _ h1))

theorem sim_setSize (value : Nat) {a b : State} (h : untimed a = untimed b) :
    (therm_setSize value a).map untimed = (therm_setSize value b).map untimed := by
  unfold therm_setSize
  have h0 : untimed (if toupper value = 77 then { a with charHeight := 48, maxColumn := 32 }
        else if toupper value = 76 then { a with charHeight := 48, maxColumn := 16 }
        else { a with charHeight := 24, maxColumn := 32 })
      = untimed (if toupper value = 77 then { b with charHeight := 48, maxColumn := 32 }
        else if toupper value = 76 then { b with charHeight := 48, maxColumn := 16 }
        else { b with charHeight := 24, maxColumn := 32 }) := by
    by_cases h1 : toupper value = 77
    · rw [if_pos h1, if_pos h1]
      exact untimed_geometry _ _ h
    · rw [if_neg h1, if_neg h1]
      by_cases h2 : toupper value = 76
      · rw [if_pos h2, if_pos h2]
        exact untimed_geometry _ _ h
      · rw [if_neg h2, if_neg h2]
        exact untimed_geometry _ _ h
  refine map_bind_congr untimed untimed (sim_write3Bytes _ _ _ h0) ?_
  intro a1 b1 h1
  apply map_ok_congr
  exact untimed_prevByte _ h1

theorem sim_underlineOn (weight : Nat) {a b : State} (h : untimed a = untimed b) :
    (therm_underlineOn weight a).map untimed = (therm_underlineOn weight b).map untimed := by
  unfold therm_underlineOn
  exact sim_write3Bytes _ _ _ h

theorem sim_sleepAfter (fw seconds : Nat) {a b : State} (h : untimed a = untimed b) :
    (therm_sleepAfter fw seconds a).map untimed = (therm_sleepAfter fw seconds b).map untimed := by
  unfold therm_sleepAfter
  split
  · exact sim_write4Bytes _ _ _ _ h
  · exact sim_write3Bytes _ _ _ h

theorem sim_setLineHeight (val : Int) {a b : State} (h : untimed a = untimed b) :
    (therm_setLineHeight val a).map untimed = (therm_setLineHeight val b).map untimed := by
  unfold therm_setLineHeight
  exact sim_write3Bytes _ _ _ (untimed_lineSpacing _ h)

theorem sim_setBarcodeHeight (val : Nat) {a b : State} (h : untimed a = untimed b) :
    (therm_setBarcodeHeight val a).map untimed = (therm_setBarcodeHeight val b).map untimed := by
  unfold therm_setBarcodeHeight
  exact sim_write3Bytes _ _ _ (untimed_barcodeHeight _ h)

theorem sim_setCharset (val : Nat) {a b : State} (h : untimed a = untimed b) :
    (therm_setCharset val a).map untimed = (therm_setCharset val b).map untimed := by
  unfold therm_setCharset
  exact sim_write3Bytes _ _ _ h

theorem sim_setCodePage (val : Nat) {a b : State} (h : untimed a = untimed b) :
    (therm_setCodePage val a).map untimed = (therm_setCodePage val b).map untimed := by
  unfold therm_setCodePage
  exact sim_write3Bytes _ _ _ h

theorem sim_tab {a b : State} (h : untimed a = untimed b) :
    (therm_tab a).map untimed = (therm_tab b).map untimed := by
  unfold therm_tab
  refine map_bind_congr untimed untimed (sim_writeBytes _ h) ?_
  intro a1 b1 h1
  apply map_ok_congr
  rw [(untimed_fields h1).2.2.1]
  exact untimed_column _ h1

theorem sim_wakeLoop : ∀ (n : Nat) (a b : State), untimed a = untimed b →
    (wakeLoop n a).map untimed = (wakeLoop n b).map untimed := by
  intro n
  induction n with
  | zero =>
    intro a b h
    exact map_ok_congr untimed h
  | succ n ih =>
    intro a b h
    rw [wakeLoop, wakeLoop]
    refine map_bind_congr untimed untimed (sim_writeBytes 0 h) ?_
    intro a1 b1 h1
    exact ih _ _ (untimed_arm _ _ h1)

theorem sim_wake (fw : Nat) {a b : State} (h : untimed a = untimed b) :
    (therm_therm_wake fw a).map untimed = (therm_therm_wake fw b).map untimed := by
  unfold therm_therm_wake
  refine map_bind_congr untimed untimed (sim_writeBytes 255 (untimed_arm 0 0 h)) ?_
  intro a1 b1 h1
  split
  · exact sim_write4Bytes _ _ _ _ (untimed_delay 50 h1)
  · exact sim_wakeLoop 10 a1 b1 h1

theorem untimed_resetFields {a b : State} (h : untimed a = untimed b) :
    untimed { a with prevByte := ASCII_LF, column := 0, maxColumn := 32, charHeight := 24,
                     lineSpacing := 6, barcodeHeight := 50 }
      = untimed { b with prevByte := ASCII_LF, column := 0, maxColumn := 32, charHeight := 24,
                         lineSpacing := 6, barcodeHeight := 50 } := by
  obtain ⟨rt, dp, df, m2, lg, hlg, rfl⟩ := untimed_eq h
  simp [untimed, sent_eq_txOf, hlg]

theorem sim_reset (fw : Nat) {a b : State} (h : untimed a = untimed b) :
    (therm_reset fw a).map untimed = (therm_reset fw b).map untimed := by
  unfold therm_reset
  refine map_bind_congr untimed untimed (sim_write2Bytes _ _ h) ?_
  intro a1 b1 h1
  have h2 := untimed_resetFields h1
  split
  · refine map_bind_congr untimed untimed (sim_write2Bytes _ _ h2) ?_
    intro a2 b2 h3
    refine map_bind_congr untimed untimed (sim_write4Bytes _ _ _ _ h3) ?_
    intro a3 b3 h4
    exact sim_write4Bytes _ _ _ _ h4
  · exact map_ok_congr untimed h2

theorem sim_enableDtr {a b : State} (h : untimed a = untimed b) :
    (enableDtr a).map untimed = (enableDtr b).map untimed := by
  unfold enableDtr
  rw [(untimed_fields h).2.2.2.2.2.2.2.2.1]
  split
  · refine map_bind_congr untimed untimed (sim_write3Bytes _ _ _ h) ?_
    intro a1 b1 h1
    exact map_ok_congr untimed (untimed_dtrEnabled true h1)
  · exact map_ok_congr untimed h

theorem sim_begin (fw heatTime : Nat) {a b : State} (h : untimed a = untimed b) :
    (therm_begin fw heatTime a).map untimed = (therm_begin fw heatTime b).map untimed := by
  unfold therm_begin
  refine map_bind_congr untimed untimed (sim_wake fw (untimed_arm _ _ h)) ?_
  intro a1 b1 h1
  refine map_bind_congr untimed untimed (sim_reset fw h1) ?_
  intro a2 b2 h2
  refine map_bind_congr untimed untimed (sim_write2Bytes _ _ h2) ?_
  intro a3 b3 h3
  refine map_bind_congr untimed untimed (sim_write3Bytes _ _ _ h3) ?_
  intro a4 b4 h4
  refine map_bind_congr untimed untimed (sim_write3Bytes _ _ _ h4) ?_
  intro a5 b5 h5
  refine map_bind_congr untimed untimed (sim_enableDtr h5) ?_
  intro a6 b6 h6
  apply map_ok_congr
  exact untimed_maxChunkHeight 255 h6

theorem sim_setDefault (fw : Nat) {a b : State} (h : untimed a = untimed b) :
    (therm_setDefault fw a).map untimed = (therm_setDefault fw b).map untimed := by
  unfold therm_setDefault
  refine map_bind_congr untimed untimed (sim_write3Bytes _ _ _ h) ?_
  intro a1 b1 h1
  refine map_bind_congr untimed untimed (sim_justify 76 h1) ?_
  intro a2 b2 h2
  refine map_bind_congr untimed untimed (sim_inverseOff fw h2) ?_
  intro a3 b3 h3
  refine map_bind_congr untimed untimed (sim_unsetPrintMode _ h3) ?_
  intro a4 b4 h4
  refine map_bind_congr untimed untimed (sim_setLineHeight 30 h4) ?_
  intro a5 b5 h5
  refine map_bind_congr untimed untimed (sim_unsetPrintMode _ h5) ?_
  intro a6 b6 h6
  refine map_bind_congr untimed untimed (sim_write3Bytes _ _ _ h6) ?_
  intro a7 b7 h7
  refine map_bind_congr untimed untimed (sim_setBarcodeHeight 50 h7) ?_
  intro a8 b8 h8
  refine map_bind_congr untimed untimed (sim_setSize 115 h8) ?_
  intro a9 b9 h9
  refine map_bind_congr untimed untimed (sim_setCharset 0 h9) ?_
  intro a10 b10 h10
  exact sim_setCodePage 0 h10

theorem sim_readByte {a b : State} (h : untimed a = untimed b) :
    (priv_readByteFromUART a).map untimedWith = (priv_readByteFromUART b).map untimedWith := by
  obtain ⟨rt, dp, df, m2, lg, hlg, rfl⟩ := untimed_eq h
  unfold priv_readByteFromUART
  simp only []
  by_cases hp : (a.rxptr != 0) = true
  · simp only [hp, if_true]
    cases hg : a.rxbuf.get? 0 with
    | none => rfl
    | some data =>
      simp only []
      by_cases h127 : 127 < a.rxptr
      · simp only [h127, if_true]
      · simp only [h127, if_false]
        cases hs : shiftLoop a.rxptr 0 a.rxbuf with
        | error e => rfl
        | ok buf =>
          simp only [ok_bind, pure_eq_ok]
          apply map_ok_congr
          simp [untimedWith, untimed, sent_eq_txOf, hlg]
  · simp only [hp, if_false]
    apply map_ok_congr
    simp [untimedWith, untimed, sent_eq_txOf, hlg]

theorem sim_pollLoop : ∀ (n : Nat) (a b : State), untimed a = untimed b →
    (pollLoop n a).map untimedWith = (pollLoop n b).map untimedWith := by
  intro n
  induction n with
  | zero =>
    intro a b h
    apply map_ok_congr
    simp only [untimedWith, h]
  | succ n ih =>
    intro a b h
    rw [pollLoop, pollLoop]
    have hb : priv_UARThasBytes a = priv_UARThasBytes b := by
      unfold priv_UARThasBytes
      rw [(untimed_fields h).2.2.2.2.2.2.2.2.2.2.2.1]
    rw [hb]
    split
    · exact sim_readByte h
    · exact ih _ _ (untimed_delay 100 h)

theorem sim_hasPaper (fw : Nat) {a b : State} (h : untimed a = untimed b) :
    (therm_hasPaper fw a).map untimedWith = (therm_hasPaper fw b).map untimedWith := by
  unfold therm_hasPaper
  have h0 : (sendStatusQuery fw a).map untimed = (sendStatusQuery fw b).map untimed := by
    unfold sendStatusQuery
    split
    · exact sim_write3Bytes _ _ _ h
    · exact sim_write3Bytes _ _ _ h
  refine map_bind_congr untimed untimedWith h0 ?_
  intro a1 b1 h1
  refine map_bind_congr untimedWith untimedWith (sim_pollLoop 10 a1 b1 h1) ?_
  intro r1 r2 hr
  apply map_ok_congr
  have e1 : r1.1 = r2.1 := by
    have e := congrArg Prod.fst hr
    exact e
  have e2 : untimed r1.2 = untimed r2.2 := by
    have e := congrArg Prod.snd hr
    exact e
  simp only [untimedWith, e1, e2]

theorem sim_barcodeDataLoop (text : List Nat) : ∀ (n i : Nat) (a b : State),
    untimed a = untimed b →
    (barcodeDataLoop text n i a).map untimed = (barcodeDataLoop text n i b).map untimed := by
  intro n
  induction n with
  | zero =>
    intro i a b h
    exact map_ok_congr untimed h
  | succ n ih =>
    intro i a b h
    rw [barcodeDataLoop, barcodeDataLoop]
    refine map_bind_congr id untimed rfl ?_
    intro c c2 hc
    have hc2 : c = c2 := hc
    subst hc2
    refine map_bind_congr untimed untimed (sim_writeBytes c h) ?_
    intro a1 b1 h1
    exact ih (i + 1) a1 b1 h1

theorem sim_barcodeCopyLoop (text : List Nat) : ∀ (fuel i : Nat) (a b : State),
    untimed a = untimed b →
    (barcodeCopyLoop text fuel i a).map untimed = (barcodeCopyLoop text fuel i b).map untimed := by
  intro fuel
  induction fuel with
  | zero =>
    intro i a b h
    rfl
  | succ fuel ih =>
    intro i a b h
    rw [barcodeCopyLoop, barcodeCopyLoop]
    refine map_bind_congr id untimed rfl ?_
    intro c c2 hc
    have hc2 : c = c2 := hc
    subst hc2
    refine map_bind_congr untimed untimed (sim_writeBytes c h) ?_
    intro a1 b1 h1
    split
    · exact ih _ a1 b1 h1
    · exact map_ok_congr untimed h1

theorem sim_barcodeData (fw fuel : Nat) (text : List Nat) {a b : State}
    (h : untimed a = untimed b) :
    (barcodeData fw fuel text a).map untimed = (barcodeData fw fuel text b).map untimed := by
  unfold barcodeData
  split
  · refine map_bind_congr untimed untimed (sim_writeBytes _ h) ?_
    intro a1 b1 h1
    exact sim_barcodeDataLoop text _ 0 a1 b1 h1
  · exact sim_barcodeCopyLoop text fuel 0 a b h

theorem sim_printBarcode (fw fuel : Nat) (text : List Nat) (type : Nat) {a b : State}
    (h : untimed a = untimed b) :
    (therm_printBarcode fw fuel text type a).map untimed
      = (therm_printBarcode fw fuel text type b).map untimed := by
  unfold therm_printBarcode
  refine map_bind_congr untimed untimed (sim_feed fw 1 h) ?_
  intro a1 b1 h1
  refine map_bind_congr untimed untimed (sim_write3Bytes _ _ _ h1) ?_
  intro a2 b2 h2
  refine map_bind_congr untimed untimed (sim_write3Bytes _ _ _ h2) ?_
  intro a3 b3 h3
  refine map_bind_congr untimed untimed (sim_write3Bytes _ _ _ h3) ?_
  intro a4 b4 h4
  refine map_bind_congr untimed untimed (sim_barcodeData fw fuel text h4) ?_
  intro a5 b5 h5
  apply map_ok_congr
  exact untimed_prevByte _ (untimed_arm _ _ h5)

theorem sim_bitmapRowLoop (bitmap : List Nat) : ∀ (n : Nat) (i : Int) (a b : State),
    untimed a = untimed b →
    (bitmapRowLoop bitmap n i a).map untimedWith = (bitmapRowLoop bitmap n i b).map untimedWith := by
  intro n
  induction n with
  | zero =>
    intro i a b h
    apply map_ok_congr
    simp only [untimedWith, h]
  | succ n ih =>
    intro i a b h
    rw [bitmapRowLoop, bitmapRowLoop]
    refine map_bind_congr untimed untimedWith (sim_timeoutWait h) ?_
    intro a1 b1 h1
    refine map_bind_congr id untimedWith rfl ?_
    intro c c2 hc
    have hc2 : c = c2 := hc
    subst hc2
    exact ih (i32 (i + 1)) _ _ (untimed_tx c h1)

theorem sim_bitmapChunkRows (bitmap : List Nat) (rb c : Int) : ∀ (n : Nat) (i : Int)
    (a b : State), untimed a = untimed b →
    (bitmapChunkRows bitmap rb c n i a).map untimedWith
      = (bitmapChunkRows bitmap rb c n i b).map untimedWith := by
  intro n
  induction n with
  | zero =>
    intro i a b h
    apply map_ok_congr
    simp only [untimedWith, h]
  | succ n ih =>
    intro i a b h
    rw [bitmapChunkRows, bitmapChunkRows]
    refine map_bind_congr untimedWith untimedWith (sim_bitmapRowLoop bitmap _ i a b h) ?_
    intro r1 r2 hr
    have e1 : r1.1 = r2.1 := by
      have e := congrArg Prod.fst hr
      exact e
    have e2 : untimed r1.2 = untimed r2.2 := by
      have e := congrArg Prod.snd hr
      exact e
    rw [e1]
    exact ih _ r1.2 r2.2 e2

theorem sim_bitmapLoop (h : Int) (bitmap : List Nat) (rb c L : Int) :
    ∀ (fuel : Nat) (rowStart i : Int) (a b : State), untimed a = untimed b →
    (bitmapLoop h bitmap rb c L fuel rowStart i a).map untimed
      = (bitmapLoop h bitmap rb c L fuel rowStart i b).map untimed := by
  intro fuel
  induction fuel with
  | zero =>
    intro rowStart i a b hab
    unfold bitmapLoop
    split
    · rfl
    · exact map_ok_congr untimed hab
  | succ fuel ih =>
    intro rowStart i a b hab
    rw [bitmapLoop, bitmapLoop]
    split
    · refine map_bind_congr untimed untimed (sim_write4Bytes _ _ _ _ hab) ?_
      intro a1 b1 h1
      refine map_bind_congr untimedWith untimed
        (sim_bitmapChunkRows bitmap rb c _ i a1 b1 h1) ?_
      intro r1 r2 hr
      have e1 : r1.1 = r2.1 := by
        have e := congrArg Prod.fst hr
        exact e
      have e2 : untimed r1.2 = untimed r2.2 := by
        have e := congrArg Prod.snd hr
        exact e
      rw [e1]
      exact ih _ _ _ _ (untimed_arm _ _ e2)
    · exact map_ok_congr untimed hab

theorem chunkHeightLimit_untimed (c : Int) {a b : State} (h : untimed a = untimed b) :
    chunkHeightLimit c a = chunkHeightLimit c b := by
  obtain ⟨_, _, _, _, _, _, _, hm, _, hd, _⟩ := untimed_fields h
  unfold chunkHeightLimit
  rw [hm, hd]

theorem sim_printBitmap (fuel : Nat) (w h : Int) (bitmap : List Nat) {a b : State}
    (hab : untimed a = untimed b) :
    (therm_printBitmap fuel w h bitmap a).map untimed
      = (therm_printBitmap fuel w h bitmap b).map untimed := by
  unfold therm_printBitmap
  simp only []
  rw [chunkHeightLimit_untimed (rowBytesClippedOf w) hab]
  refine map_bind_congr id untimed rfl ?_
  intro L L2 hL
  have hL2 : L = L2 := hL
  subst hL2
  refine map_bind_congr untimed untimed (sim_bitmapLoop h bitmap _ _ L fuel 0 0 a b hab) ?_
  intro a1 b1 h1
  apply map_ok_congr
  exact untimed_prevByte _ h1

theorem sim_step (fw fuel : Nat) (op : Op) {a b : State} (h : untimed a = untimed b) :
    (step fw fuel op a).map untimed = (step fw fuel op b).map untimed := by
  cases op with
  | init => exact map_ok_congr untimed (untimed_dtrEnabled false h)
  | write c =>
    simp only [step]
    refine map_bind_congr untimedWith untimed (sim_write _ h) ?_
    intro r1 r2 hr
    apply map_ok_congr
    have e := congrArg Prod.snd hr
    exact e
  | begin heatTime => exact sim_begin fw _ h
  | boldOff => exact sim_unsetPrintMode _ h
  | boldOn => exact sim_setPrintMode _ h
  | doubleHeightOff => exact sim_unsetPrintMode _ h
  | doubleHeightOn => exact sim_setPrintMode _ h
  | doubleWidthOff => exact sim_unsetPrintMode _ h
  | doubleWidthOn => exact sim_setPrintMode _ h
  | feed x => exact sim_feed fw _ h
  | feedRows rows => exact sim_feedRows _ h
  | flush => exact sim_writeBytes _ h
  | inverseOff => exact sim_inverseOff fw h
  | inverseOn => exact sim_inverseOn fw h
  | justify value => exact sim_justify _ h
  | offline => exact sim_write3Bytes _ _ _ h
  | online => exact sim_write3Bytes _ _ _ h
  | printBarcode text type => exact sim_printBarcode fw fuel _ _ h
  | printBitmap w hh bitmap => exact sim_printBitmap fuel (i32 w) (i32 hh) _ h
  | normal => exact sim_normal h
  | reset => exact sim_reset fw h
  | setBarcodeHeight val => exact sim_setBarcodeHeight _ h
  | setCharSpacing spacing => exact sim_write3Bytes _ _ _ h
  | setCharset val => exact sim_setCharset _ h
  | setCodePage val => exact sim_setCodePage _ h
  | setDefault => exact sim_setDefault fw h
  | setLineHeight val => exact sim_setLineHeight _ h
  | setMaxChunkHeight val => exact map_ok_congr untimed (untimed_maxChunkHeight _ h)
  | setTimes p f => exact map_ok_congr untimed h
  | setSize value => exact sim_setSize _ h
  | sleep => exact sim_sleepAfter fw 1 h
  | sleepAfter seconds => exact sim_sleepAfter fw _ h
  | strikeOff => exact sim_unsetPrintMode _ h
  | strikeOn => exact sim_setPrintMode _ h
  | tab => exact sim_tab h
  | timeoutSet x => exact map_ok_congr untimed (untimed_arm x x h)
  | timeoutWait => exact sim_timeoutWait h
  | underlineOff => exact sim_write3Bytes _ _ _ h
  | underlineOn weight => exact sim_underlineOn _ h
  | upsideDownOff => exact sim_unsetPrintMode _ h
  | upsideDownOn => exact sim_setPrintMode _ h
  | wake => exact sim_wake fw h
  | hasPaper =>
    simp only [step]
    refine map_bind_congr untimedWith untimed (sim_hasPaper fw h) ?_
    intro r1 r2 hr
    apply map_ok_congr
    have e := congrArg Prod.snd hr
    exact e

theorem sim_run (fw fuel : Nat) : ∀ (ops : List Op) (a b : State), untimed a = untimed b →
    (run fw fuel ops a).map untimed = (run fw fuel ops b).map untimed := by
  intro ops
  induction ops with
  | nil =>
    intro a b h
    exact map_ok_congr untimed h
  | cons op ops ih =>
    intro a b h
    rw [run_cons, run_cons]
    exact map_bind_congr untimed untimed (sim_step fw fuel op h) (fun a1 b1 h1 => ih a1 b1 h1)

/-- C27.  Timing does not change what is printed.  Take any state and a second
one that differs from it only in resumeTime, dotPrintTime, dotFeedTime and the
clock reading (so the handshake mode is the same), and run the same sequence
of public operations from both.  Then the two runs end alike: either both
stop with the same fault or both return, and in that case the bytes sent and
the print state (mode bits, column, maxColumn, charHeight, lineSpacing,
barcodeHeight, prevByte), as well as every other variable that is not a
timing variable, are identical. -/
theorem C27_timing_is_advisory (fw fuel : Nat) (ops : List Op) (s : State)
    (rt dp df ms : Nat) :
    (run fw fuel ops s).map untimed = (run fw fuel ops (retimed s rt dp df ms)).map untimed ∧
    (∀ t1 t2, run fw fuel ops s = Except.ok t1 →
      run fw fuel ops (retimed s rt dp df ms) = Except.ok t2 →
      sent t1 = sent t2 ∧ printState t1 = printState t2) ∧
    ((∃ t1, run fw fuel ops s = Except.ok t1) ↔
      ∃ t2, run fw fuel ops (retimed s rt dp df ms) = Except.ok t2) := by
  have h := sim_run fw fuel ops s (retimed s rt dp df ms) rfl
  refine ⟨h, ?_, ?_⟩
  · intro t1 t2 h1 h2
    rw [h1, h2] at h
    simp only [Except.map, Except.ok.injEq] at h
    obtain ⟨e1, e2⟩ := untimed_printState h
    exact ⟨e2, e1⟩
  · constructor
    · rintro ⟨t1, h1⟩
      rw [h1] at h
      cases h2 : run fw fuel ops (retimed s rt dp df ms) with
      | error e => rw [h2] at h; simp [Except.map] at h
      | ok t2 => exact ⟨t2, rfl⟩
    · rintro ⟨t2, h2⟩
      rw [h2] at h
      cases h1 : run fw fuel ops s with
      | error e => rw [h1] at h; simp [Except.map] at h
      | ok t1 => exact ⟨t1, rfl⟩

/-- An instance of the C27 property evaluated: the same four operations from
the ready state and from one with other timing values and another clock
reading send the same bytes and end with the same mode byte and geometry, with
different resumeTime. -/
theorem timing_example :
    (run 268 0 [Op.write 72, Op.write 105, Op.feed 2, Op.doubleHeightOn] readyState).map
        (fun t => (sent t, t.printMode, t.charHeight, t.resumeTime))
      = Except.ok ([72, 105, 27, 100, 2, 27, 33, 16], 16, 48, 106719) ∧
    (run 268 0 [Op.write 72, Op.write 105, Op.feed 2, Op.doubleHeightOn]
        (retimed readyState 0 5 7 1000)).map
        (fun t => (sent t, t.printMode, t.charHeight, t.resumeTime))
      = Except.ok ([72, 105, 27, 100, 2, 27, 33, 16], 16, 48, 1004719) := by
  constructor <;> decide

end Thermal
